import Mathlib

/-!
# A verification development for `src/promise.js` (class `MyPromise`)

The JavaScript program is embedded as explicit state passing over a heap of promise
records, a FIFO queue of `setTimeout` callbacks and a few observation traces.

* Closures of the source are closure-converted: every closure that the source creates is a
  constructor of `FnRef` (functions that are called with one argument) or of `Task`
  (zero-argument closures handed to `setTimeout`), carrying its captured variables.
* User code (handlers, foreign thenables, executors) is a parameter: `Env` gives the
  behaviour of user functions and of the `then` member of foreign objects.
* Every call of the library returns, so calls are total functions; only the host loop
  that drains the timer queue takes a fuel argument, the number of timers it may run.
  That loop returns from every state as well (`drain_returns`).
-/

namespace PlanToPro

/-! ## Values and closures -/

/-- Function values that are called with one argument.  Each constructor is one closure
of `src/promise.js` together with the variables it captures. -/
inductive FnRef where
  /-- A function written by the user of the library, identified by a number. -/
  | user (id : Nat)
  /-- Line 35, the default `value => value`. -/
  | identity
  /-- Line 36, the default `reason => { throw reason }`. -/
  | thrower
  /-- Lines 11-17, the `resolve` capability of promise `p`. -/
  | resolveCap (p : Nat)
  /-- Lines 19-25, the `reject` capability of promise `p`. -/
  | rejectCap (p : Nat)
  /-- Lines 138-142, the inner `function resolvePromise(y)`; `called` is the latch cell. -/
  | rpResolve (called : Nat) (promise2 : Nat) (resolve reject : FnRef)
  /-- Lines 142-146, the inner `function rejectPromise(r)`. -/
  | rpReject (called : Nat) (reject : FnRef)
  /-- Lines 106-113, the per-item handler of `all`; `results` is the result array,
  `completed` the counter cell, `length` is `promises.length`. -/
  | allItem (results completed length : Nat) (resolve : FnRef) (index : Nat)
  deriving DecidableEq, Repr

/-- JavaScript values, as far as the program distinguishes them. -/
inductive Val where
  | undefined
  | null
  | bool (b : Bool)
  | num (n : Int)
  | str (s : String)
  /-- A `MyPromise` instance, by its address in the heap. -/
  | promise (p : Nat)
  /-- A foreign object (or function object); `Env.thenOf` describes its `then` member. -/
  | obj (id : Nat)
  /-- An array, by its address in `State.arrays`. -/
  | arr (id : Nat)
  /-- A function value. -/
  | fn (f : FnRef)
  /-- The object `new TypeError(msg)`. -/
  | typeError (msg : String)
  deriving DecidableEq, Repr

/-- How the evaluation of a call ends. -/
inductive Completion where
  | normal (v : Val)
  | throw (e : Val)
  deriving DecidableEq, Repr

/-- The three states of lines 2 and 5. -/
inductive PState where
  | pending
  | fulfilled
  | rejected
  deriving DecidableEq, Repr

/-- Zero-argument closures handed to `setTimeout`. -/
inductive Task where
  /-- Lines 40-47 and 59-66: run `onFulfilled(this.value)` and resolve `promise2`. -/
  | fulfilledTask (self : Nat) (onFulfilled : FnRef) (promise2 : Nat)
  /-- Lines 49-56 and 69-76: run `onRejected(this.reason)` and resolve `promise2`. -/
  | rejectedTask (self : Nat) (onRejected : FnRef) (promise2 : Nat)
  /-- User code `setTimeout(() => f(arg))`, used by foreign thenables and executors. -/
  | callback (f : FnRef) (arg : Val)
  deriving DecidableEq, Repr

/-- One step of the body of a foreign `then(onFulfilled, onRejected)` method. -/
inductive TAct where
  | resolveNow (y : Val)
  | rejectNow (r : Val)
  | resolveLater (y : Val)
  | rejectLater (r : Val)
  deriving DecidableEq, Repr

/-- The `then` member of a foreign object. -/
inductive ThenMember where
  /-- Reading `x.then` gives something whose `typeof` is not `'function'`. -/
  | notCallable
  /-- Reading `x.then` throws `e`. -/
  | getterThrows (e : Val)
  /-- The member is a function that performs `acts` in order and then throws, if `throws`
  is given, or returns. -/
  | method (acts : List TAct) (throws : Option Val)
  deriving DecidableEq, Repr

/-- One step of a user-written executor `(resolve, reject) => ...`. -/
inductive ExecAct where
  | resolve (v : Val)
  | reject (r : Val)
  | resolveLater (v : Val)
  | rejectLater (r : Val)
  deriving DecidableEq, Repr

/-- A user-written executor: its steps, and the error it throws at the end, if any. -/
structure UserExecutor where
  acts : List ExecAct
  throws : Option Val
  deriving DecidableEq, Repr

/-- The user code the library runs against.  A user function sees the user's own log and
its argument, and gives the new log and its completion. -/
structure Env where
  userFn : Nat → List Val → Val → List Val × Completion
  thenOf : Nat → ThenMember

/-! ## The heap -/

/-- The fields of a `MyPromise` instance (lines 5-9).  An entry `t` of a callback list is
the closure `() => { setTimeout(t) }` of lines 58-67 and 68-77. -/
structure PromiseRec where
  state : PState
  value : Val
  reason : Val
  onFulfilledCallbacks : List Task
  onRejectedCallbacks : List Task
  deriving DecidableEq, Repr

/-- The machine state. -/
structure State where
  /-- The `MyPromise` instances; the address of an instance is its index. -/
  promises : List PromiseRec
  /-- The `called` variables of line 132, one per activation of `resolvePromise`. -/
  latches : List Bool
  /-- Array objects (with holes). -/
  arrays : List (List (Option Val))
  /-- The `completed` variables of line 103. -/
  counters : List Nat
  /-- The `setTimeout` queue, first in first out. -/
  timers : List Task
  /-- The log of the user. -/
  log : List Val
  /-- Trace: every call of a user function, with its argument. -/
  calls : List (Nat × Val)
  /-- Trace: every read of the `then` member of a value (line 136). -/
  thenReads : List Val
  /-- Trace: errors that escaped a `setTimeout` callback. -/
  uncaught : List Val
  deriving DecidableEq, Repr

/-- The state before anything has been created. -/
def State.init : State :=
  { promises := [], latches := [], arrays := [], counters := [], timers := [],
    log := [], calls := [], thenReads := [], uncaught := [] }

/-- Lines 5-9: the fields of a fresh instance. -/
def PromiseRec.fresh : PromiseRec :=
  { state := PState.pending, value := Val.undefined, reason := Val.undefined,
    onFulfilledCallbacks := [], onRejectedCallbacks := [] }

/-- The fields of an instance that was fulfilled with `v` while it had no callbacks. -/
def PromiseRec.fulfilledWith (v : Val) : PromiseRec :=
  { state := PState.fulfilled, value := v, reason := Val.undefined,
    onFulfilledCallbacks := [], onRejectedCallbacks := [] }

/-- The fields of an instance that was rejected with `r` while it had no callbacks. -/
def PromiseRec.rejectedWith (r : Val) : PromiseRec :=
  { state := PState.rejected, value := Val.undefined, reason := r,
    onFulfilledCallbacks := [], onRejectedCallbacks := [] }

/-! ## Primitive state changes -/

/-- The call `setTimeout(t)`: append to the queue. -/
def setTimeout (t : Task) (s : State) : State :=
  { s with timers := s.timers ++ [t] }

/-- Calling every closure of a callback list in order (`forEach(fn => fn())`): each
one calls `setTimeout` with its task. -/
def runCallbacks (cbs : List Task) (s : State) : State :=
  { s with timers := s.timers ++ cbs }

/-- Allocation of a fresh instance (lines 5-9); gives its address. -/
def allocPromise (s : State) : Nat × State :=
  (s.promises.length, { s with promises := s.promises ++ [PromiseRec.fresh] })

/-- Lines 11-17, the body of `resolve`. -/
def settleResolve (p : Nat) (value : Val) (s : State) : State :=
  match s.promises[p]? with
  | some r =>
    if r.state = PState.pending then
      runCallbacks r.onFulfilledCallbacks
        { s with promises :=
            s.promises.set p { r with state := PState.fulfilled, value := value } }
    else s
  | none => s

/-- Lines 19-25, the body of `reject`. -/
def settleReject (p : Nat) (reason : Val) (s : State) : State :=
  match s.promises[p]? with
  | some r =>
    if r.state = PState.pending then
      runCallbacks r.onRejectedCallbacks
        { s with promises :=
            s.promises.set p { r with state := PState.rejected, reason := reason } }
    else s
  | none => s

/-- Lines 58 and 68: the two `push` calls of the pending branch of `then`. -/
def pushCallbacks (p : Nat) (onF onR : Task) (s : State) : State :=
  match s.promises[p]? with
  | some r =>
    { s with promises :=
        s.promises.set p { r with onFulfilledCallbacks := r.onFulfilledCallbacks ++ [onF],
                                  onRejectedCallbacks := r.onRejectedCallbacks ++ [onR] } }
  | none => s

/-- Line 132, `let called = false`: a fresh latch cell. -/
def newLatch (s : State) : Nat × State :=
  (s.latches.length, { s with latches := s.latches ++ [false] })

/-- The assignment `called = true`. -/
def setLatch (l : Nat) (s : State) : State :=
  { s with latches := s.latches.set l true }

/-- Reading the variable `called`. -/
def latchSet (l : Nat) (s : State) : Bool :=
  s.latches.getD l false

/-- A fresh array object. -/
def newArray (s : State) : Nat × State :=
  (s.arrays.length, { s with arrays := s.arrays ++ [[]] })

/-- A fresh counter cell, `let completed = 0`. -/
def newCounter (s : State) : Nat × State :=
  (s.counters.length, { s with counters := s.counters ++ [0] })

/-- The assignment `xs[i] = v` on a JavaScript array: the array grows with holes. -/
def arraySet (xs : List (Option Val)) (i : Nat) (v : Val) : List (Option Val) :=
  if i < xs.length then xs.set i (some v)
  else xs ++ List.replicate (i - xs.length) none ++ [some v]

/-- Line 107, `results[index] = value`. -/
def storeResult (a i : Nat) (v : Val) (s : State) : State :=
  { s with arrays := s.arrays.set a (arraySet (s.arrays.getD a []) i v) }

/-- Line 108, `completed++`. -/
def bumpCounter (c : Nat) (s : State) : State :=
  { s with counters := s.counters.set c (s.counters.getD c 0 + 1) }

/-- A user function is called: the call is traced and the log of the user is replaced. -/
def recordCall (id : Nat) (arg : Val) (newLog : List Val) (s : State) : State :=
  { s with log := newLog, calls := s.calls ++ [(id, arg)] }

/-- Line 136, the read `x.then`, traced. -/
def recordThenRead (x : Val) (s : State) : State :=
  { s with thenReads := s.thenReads ++ [x] }

/-- An error leaves a `setTimeout` callback. -/
def recordUncaught (e : Val) (s : State) : State :=
  { s with uncaught := s.uncaught ++ [e] }

/-! ## The class `MyPromise` -/

/-- Lines 4-32, `new MyPromise(executor)`.  The executor receives the address `this` of
the instance; its two capabilities are `FnRef.resolveCap this` and `FnRef.rejectCap this`.
It gives the new state and the error it threw, if any (lines 27-31). -/
def MyPromise.construct (executor : Nat → State → State × Option Val) (s : State) :
    Nat × State :=
  match executor (allocPromise s).1 (allocPromise s).2 with
  | (s2, none) => ((allocPromise s).1, s2)
  | (s2, some err) => ((allocPromise s).1, settleReject (allocPromise s).1 err s2)

/-- Lines 38-79, the executor of `promise2` inside `then`. -/
def MyPromise.thenExecutor (self : Nat) (onFulfilled onRejected : FnRef) (promise2 : Nat)
    (s : State) : State × Option Val :=
  match s.promises[self]? with
  | some r =>
    match r.state with
    | PState.fulfilled => (setTimeout (Task.fulfilledTask self onFulfilled promise2) s, none)
    | PState.rejected => (setTimeout (Task.rejectedTask self onRejected promise2) s, none)
    | PState.pending =>
      (pushCallbacks self (Task.fulfilledTask self onFulfilled promise2)
        (Task.rejectedTask self onRejected promise2) s, none)
  | none => (s, none)

/-- Line 35: `typeof onFulfilled === 'function' ? onFulfilled : value => value`. -/
def asOnFulfilled : Val → FnRef
  | Val.fn f => f
  | _ => FnRef.identity

/-- Line 36: `typeof onRejected === 'function' ? onRejected : reason => { throw reason }`. -/
def asOnRejected : Val → FnRef
  | Val.fn f => f
  | _ => FnRef.thrower

/-- Lines 34-82, `this.then(onFulfilled, onRejected)`; gives `promise2`. -/
def MyPromise.then_ (self : Nat) (onFulfilled onRejected : Val) (s : State) : Nat × State :=
  MyPromise.construct
    (MyPromise.thenExecutor self (asOnFulfilled onFulfilled) (asOnRejected onRejected)) s

/-- Lines 84-86, `this.catch(onRejected)`. -/
def MyPromise.catch_ (self : Nat) (onRejected : Val) (s : State) : Nat × State :=
  MyPromise.then_ self Val.null onRejected s

/-- Lines 88-90, `MyPromise.resolve(value)`. -/
def MyPromise.resolve (value : Val) (s : State) : Nat × State :=
  MyPromise.construct (fun this s1 => (settleResolve this value s1, none)) s

/-- Lines 92-94, `MyPromise.reject(reason)`. -/
def MyPromise.reject (reason : Val) (s : State) : Nat × State :=
  MyPromise.construct (fun this s1 => (settleReject this reason s1, none)) s

/-- The steps of a user-written executor, run on the instance `this`. -/
def runExecActs (this : Nat) : List ExecAct → State → State
  | [], s => s
  | ExecAct.resolve v :: rest, s => runExecActs this rest (settleResolve this v s)
  | ExecAct.reject r :: rest, s => runExecActs this rest (settleReject this r s)
  | ExecAct.resolveLater v :: rest, s =>
    runExecActs this rest (setTimeout (Task.callback (FnRef.resolveCap this) v) s)
  | ExecAct.rejectLater r :: rest, s =>
    runExecActs this rest (setTimeout (Task.callback (FnRef.rejectCap this) r) s)

/-- A user-written executor as an argument of the constructor. -/
def UserExecutor.run (ex : UserExecutor) (this : Nat) (s : State) : State × Option Val :=
  (runExecActs this ex.acts s, ex.throws)

/-- Lines 105-114, the `forEach` of `all`, from index `index` on. -/
def MyPromise.allEach (results completed length this : Nat) : List Val → Nat → State → State
  | [], _, s => s
  | promise :: rest, index, s =>
    let r1 := MyPromise.resolve promise s
    let r2 := MyPromise.then_ r1.1
      (Val.fn (FnRef.allItem results completed length (FnRef.resolveCap this) index))
      Val.undefined r1.2
    let r3 := MyPromise.catch_ r2.1 (Val.fn (FnRef.rejectCap this)) r2.2
    MyPromise.allEach results completed length this rest (index + 1) r3.2

/-- Lines 97-115, the executor of `all`. -/
def MyPromise.allExecutor (promises : List Val) (this : Nat) (s : State) :
    State × Option Val :=
  if promises.length = 0 then
    (settleResolve this (Val.arr (newArray s).1) (newArray s).2, none)
  else
    let s1 := (newArray s).2
    (MyPromise.allEach (newArray s).1 (newCounter s1).1 promises.length this promises 0
      (newCounter s1).2, none)

/-- Lines 96-116, `MyPromise.all(promises)`. -/
def MyPromise.all (promises : List Val) (s : State) : Nat × State :=
  MyPromise.construct (MyPromise.allExecutor promises) s

/-- Lines 120-122, the `forEach` of `race`. -/
def MyPromise.raceEach (this : Nat) : List Val → State → State
  | [], s => s
  | promise :: rest, s =>
    let r1 := MyPromise.resolve promise s
    let r2 := MyPromise.then_ r1.1 (Val.fn (FnRef.resolveCap this)) Val.undefined r1.2
    let r3 := MyPromise.catch_ r2.1 (Val.fn (FnRef.rejectCap this)) r2.2
    MyPromise.raceEach this rest r3.2

/-- Lines 118-124, `MyPromise.race(promises)`. -/
def MyPromise.race (promises : List Val) (s : State) : Nat × State :=
  MyPromise.construct (fun this s1 => (MyPromise.raceEach this promises s1, none)) s

/-! ## Calls and the resolution procedure -/

/-- A call in statement position: the value is dropped, an error propagates. -/
def discard : Completion × State → Completion × State
  | (Completion.normal _, s) => (Completion.normal Val.undefined, s)
  | r => r

/-- The call `f(arg)`.

The closure of lines 138-142 is the named function expression
`function resolvePromise(y) { if (called) return; called = true; resolvePromise(promise2, y, resolve, reject); }`.
Inside the body of a named function expression its name is bound to the function itself
(ECMAScript: the name of a function expression can be referenced inside its body "to
allow the function to call itself recursively") and hides the top-level
`function resolvePromise` of line 127, so the call of line 141 is a call of this same
closure, with `promise2` as its `y`; `called` is `true` by then, and that call returns at
line 139.  A first call of the closure therefore sets the latch and does nothing else. -/
def callFn (env : Env) : FnRef → Val → State → Completion × State
  | FnRef.user id, arg, s =>
    ((env.userFn id s.log arg).2, recordCall id arg (env.userFn id s.log arg).1 s)
  | FnRef.identity, arg, s => (Completion.normal arg, s)
  | FnRef.thrower, arg, s => (Completion.throw arg, s)
  | FnRef.resolveCap p, arg, s => (Completion.normal Val.undefined, settleResolve p arg s)
  | FnRef.rejectCap p, arg, s => (Completion.normal Val.undefined, settleReject p arg s)
  | FnRef.rpResolve called _ _ _, _, s =>
    -- line 139
    if latchSet called s then (Completion.normal Val.undefined, s)
    -- line 140, and line 141: the self-call, which returns at line 139
    else (Completion.normal Val.undefined, setLatch called s)
  | FnRef.rpReject called reject, r, s =>
    if latchSet called s then (Completion.normal Val.undefined, s)
    else discard (callFn env reject r (setLatch called s))
  | FnRef.allItem results completed length resolve index, value, s =>
    if (bumpCounter completed (storeResult results index value s)).counters.getD completed 0
        = length then
      discard (callFn env resolve (Val.arr results)
        (bumpCounter completed (storeResult results index value s)))
    else (Completion.normal Val.undefined,
      bumpCounter completed (storeResult results index value s))

/-- Line 134: `x !== null && (typeof x === 'object' || typeof x === 'function')`. -/
def isObjectLike : Val → Bool
  | Val.promise _ => true
  | Val.obj _ => true
  | Val.arr _ => true
  | Val.fn _ => true
  | Val.typeError _ => true
  | _ => false

/-- What the read `x.then` of line 136 gives for an object-like `x`. -/
inductive ThenValue where
  | throws (e : Val)
  /-- `MyPromise.prototype.then`, for the instance at address `q`. -/
  | promiseThen (q : Nat)
  | foreign (acts : List TAct) (throws : Option Val)
  | notFunction
  deriving DecidableEq, Repr

/-- Line 136, `let then = x.then`. -/
def readThen (env : Env) : Val → ThenValue
  | Val.promise q => ThenValue.promiseThen q
  | Val.obj id =>
    match env.thenOf id with
    | ThenMember.notCallable => ThenValue.notFunction
    | ThenMember.getterThrows e => ThenValue.throws e
    | ThenMember.method acts throws => ThenValue.foreign acts throws
  | _ => ThenValue.notFunction

/-- The steps of a foreign `then` method, called with `onF` and `onR`. -/
def runActs (env : Env) (onF onR : FnRef) : List TAct → State → Completion × State
  | [], s => (Completion.normal Val.undefined, s)
  | TAct.resolveNow y :: rest, s =>
    match callFn env onF y s with
    | (Completion.normal _, s1) => runActs env onF onR rest s1
    | r => r
  | TAct.rejectNow r :: rest, s =>
    match callFn env onR r s with
    | (Completion.normal _, s1) => runActs env onF onR rest s1
    | r => r
  | TAct.resolveLater y :: rest, s =>
    runActs env onF onR rest (setTimeout (Task.callback onF y) s)
  | TAct.rejectLater r :: rest, s =>
    runActs env onF onR rest (setTimeout (Task.callback onR r) s)

/-- A foreign `then` method: its steps, then its final throw, if any. -/
def runThenMethod (env : Env) (acts : List TAct) (throws : Option Val) (onF onR : FnRef)
    (s : State) : Completion × State :=
  match runActs env onF onR acts s with
  | (Completion.normal _, s1) =>
    match throws with
    | some e => (Completion.throw e, s1)
    | none => (Completion.normal Val.undefined, s1)
  | r => r

/-- Lines 136-149, the body of the `try` block of `resolvePromise`. -/
def rpTry (env : Env) (called promise2 : Nat) (x : Val) (resolve reject : FnRef)
    (s : State) : Completion × State :=
  match readThen env x with
  | ThenValue.throws e => (Completion.throw e, recordThenRead x s)
  | ThenValue.promiseThen q =>
    (Completion.normal Val.undefined,
      (MyPromise.then_ q (Val.fn (FnRef.rpResolve called promise2 resolve reject))
        (Val.fn (FnRef.rpReject called reject)) (recordThenRead x s)).2)
  | ThenValue.foreign acts throws =>
    runThenMethod env acts throws (FnRef.rpResolve called promise2 resolve reject)
      (FnRef.rpReject called reject) (recordThenRead x s)
  | ThenValue.notFunction => callFn env resolve x (recordThenRead x s)

/-- Lines 150-154, the `catch` block of `resolvePromise`. -/
def rpCatch (env : Env) (called : Nat) (reject : FnRef) (e : Val) (s : State) :
    Completion × State :=
  if latchSet called s then (Completion.normal Val.undefined, s)
  else discard (callFn env reject e (setLatch called s))

/-- The error of line 129, `new TypeError('Chaining cycle detected for promise')`. -/
def cycleError : Val :=
  Val.typeError "Chaining cycle detected for promise"

/-- Lines 127-158, the top-level `resolvePromise(promise2, x, resolve, reject)`. -/
def resolvePromise (env : Env) (promise2 : Nat) (x : Val) (resolve reject : FnRef)
    (s : State) : Completion × State :=
  if x = Val.promise promise2 then callFn env reject cycleError s
  else if isObjectLike x then
    match rpTry env (newLatch s).1 promise2 x resolve reject (newLatch s).2 with
    | (Completion.throw e, s2) => rpCatch env (newLatch s).1 reject e s2
    | r => discard r
  else discard (callFn env resolve x (newLatch s).2)

/-! ## The timer queue -/

/-- The `catch (err) { reject(err) }` of lines 44-46 (and 53-55, 63-65, 73-75), applied
to the result of the `try` block. -/
def catchReject (promise2 : Nat) : Completion × State → State
  | (Completion.throw err, s) => settleReject promise2 err s
  | (Completion.normal _, s) => s

/-- The body of lines 41-46 (and 50-55, 60-65, 70-75): call the handler with the settled
value or reason, resolve `promise2` with what it returns, reject it with what is thrown. -/
def runHandler (env : Env) (handler : FnRef) (arg : Val) (promise2 : Nat) (s : State) :
    State :=
  match callFn env handler arg s with
  | (Completion.normal x, s1) =>
    catchReject promise2
      (resolvePromise env promise2 x (FnRef.resolveCap promise2) (FnRef.rejectCap promise2) s1)
  | r => catchReject promise2 r

/-- The field `this.value`, read by a timer callback. -/
def fieldValue (s : State) (p : Nat) : Val :=
  match s.promises[p]? with
  | some r => r.value
  | none => Val.undefined

/-- The field `this.reason`, read by a timer callback. -/
def fieldReason (s : State) (p : Nat) : Val :=
  match s.promises[p]? with
  | some r => r.reason
  | none => Val.undefined

/-- The host runs one `setTimeout` callback. -/
def runTask (env : Env) : Task → State → State
  | Task.fulfilledTask self onFulfilled promise2, s =>
    runHandler env onFulfilled (fieldValue s self) promise2 s
  | Task.rejectedTask self onRejected promise2, s =>
    runHandler env onRejected (fieldReason s self) promise2 s
  | Task.callback f arg, s =>
    match callFn env f arg s with
    | (Completion.normal _, s1) => s1
    | (Completion.throw e, s1) => recordUncaught e s1

/-- The host runs the first callback of the queue, if there is one. -/
def tick (env : Env) (s : State) : State :=
  match s.timers with
  | [] => s
  | t :: rest => runTask env t { s with timers := rest }

/-- The host runs the queue until it is empty; the fuel bounds the number of callbacks
that are run, and the result is `none` when the queue is not empty by then. -/
def drain (env : Env) : Nat → State → Option State
  | 0, s => if s.timers = [] then some s else none
  | fuel + 1, s =>
    match s.timers with
    | [] => some s
    | t :: rest => drain env fuel (runTask env t { s with timers := rest })

/-! ## Programs: sequences of operations of the user and of the host -/

/-- One operation of a run: a call into the library by the user, a call of a function
value the user holds, a push onto the log of the user, or the host running a timer. -/
inductive Op where
  | construct (ex : UserExecutor)
  | then_ (self : Nat) (onFulfilled onRejected : Val)
  | catch_ (self : Nat) (onRejected : Val)
  | resolve (value : Val)
  | reject (reason : Val)
  | all (promises : List Val)
  | race (promises : List Val)
  | call (f : FnRef) (arg : Val)
  | say (v : Val)
  | tick
  deriving DecidableEq, Repr

/-- The effect of one operation. -/
def Op.run (env : Env) : Op → State → State
  | Op.construct ex, s => (MyPromise.construct ex.run s).2
  | Op.then_ self a b, s => (MyPromise.then_ self a b s).2
  | Op.catch_ self b, s => (MyPromise.catch_ self b s).2
  | Op.resolve v, s => (MyPromise.resolve v s).2
  | Op.reject r, s => (MyPromise.reject r s).2
  | Op.all ps, s => (MyPromise.all ps s).2
  | Op.race ps, s => (MyPromise.race ps s).2
  | Op.call f arg, s => (callFn env f arg s).2
  | Op.say v, s => { s with log := s.log ++ [v] }
  | Op.tick, s => PlanToPro.tick env s

/-- A run: operations in order. -/
def runOps (env : Env) : List Op → State → State
  | [], s => s
  | op :: rest, s => runOps env rest (op.run env s)

/-! ## Which user functions a closure can reach -/

/-- The closure `f` contains no user function whose number is in `F`. -/
def FnRef.avoids (F : Nat → Bool) : FnRef → Bool
  | FnRef.user id => !F id
  | FnRef.identity => true
  | FnRef.thrower => true
  | FnRef.resolveCap _ => true
  | FnRef.rejectCap _ => true
  | FnRef.rpResolve _ _ a b => a.avoids F && b.avoids F
  | FnRef.rpReject _ b => b.avoids F
  | FnRef.allItem _ _ _ r _ => r.avoids F

/-- The timer callback `t` contains no user function whose number is in `F`. -/
def Task.avoids (F : Nat → Bool) : Task → Bool
  | Task.fulfilledTask _ h _ => h.avoids F
  | Task.rejectedTask _ h _ => h.avoids F
  | Task.callback f _ => f.avoids F

/-- No callback list of a pending instance contains a user function whose number is in
`F`.  (The lists of a settled instance are never called again.) -/
def CleanHeap (F : Nat → Bool) (s : State) : Prop :=
  ∀ r ∈ s.promises, r.state = PState.pending →
    (∀ t ∈ r.onFulfilledCallbacks, t.avoids F = true) ∧
    (∀ t ∈ r.onRejectedCallbacks, t.avoids F = true)

/-- No timer of the queue contains a user function whose number is in `F`. -/
def CleanQueue (F : Nat → Bool) (s : State) : Prop :=
  ∀ t ∈ s.timers, t.avoids F = true

/-- The calls of the user functions whose number is in `F`, in order. -/
def callsOf (F : Nat → Bool) (s : State) : List (Nat × Val) :=
  s.calls.filter (fun c => F c.1)

/-- The primitive state changes that the library performs, restricted to closures that
avoid the user functions in `F`. -/
inductive Prim (F : Nat → Bool) : State → State → Prop where
  | alloc (s : State) : Prim F s (allocPromise s).2
  | settleResolve (p : Nat) (v : Val) (s : State) : Prim F s (settleResolve p v s)
  | settleReject (p : Nat) (r : Val) (s : State) : Prim F s (settleReject p r s)
  | push (p : Nat) (a b : Task) (s : State) (r : PromiseRec)
      (hr : s.promises[p]? = some r) (hp : r.state = PState.pending)
      (ha : a.avoids F = true) (hb : b.avoids F = true) : Prim F s (pushCallbacks p a b s)
  | timeout (t : Task) (s : State) (ht : t.avoids F = true) : Prim F s (setTimeout t s)
  | newLatch (s : State) : Prim F s (newLatch s).2
  | setLatch (l : Nat) (s : State) : Prim F s (setLatch l s)
  | newArray (s : State) : Prim F s (newArray s).2
  | newCounter (s : State) : Prim F s (newCounter s).2
  | store (a i : Nat) (v : Val) (s : State) : Prim F s (storeResult a i v s)
  | bump (c : Nat) (s : State) : Prim F s (bumpCounter c s)
  | call (id : Nat) (arg : Val) (lg : List Val) (s : State) (hid : F id = false) :
      Prim F s (recordCall id arg lg s)
  | thenRead (x : Val) (s : State) : Prim F s (recordThenRead x s)
  | uncaught (e : Val) (s : State) : Prim F s (recordUncaught e s)

/-- A sequence of primitive changes. -/
def Steps (F : Nat → Bool) : State → State → Prop :=
  Relation.ReflTransGen (Prim F)

/-- One move of a run: a primitive change, the host taking a timer off the queue, or the
user pushing onto the log. -/
inductive Move : State → State → Prop where
  | prim (s s1 : State) (h : Prim (fun _ => false) s s1) : Move s s1
  | dequeue (s : State) (t : Task) (rest : List Task) (h : s.timers = t :: rest) :
      Move s { s with timers := rest }
  | say (s : State) (v : Val) : Move s { s with log := s.log ++ [v] }

/-- A sequence of moves. -/
def Moves : State → State → Prop :=
  Relation.ReflTransGen Move

/-- Settled instances are never written again, latches that are set stay set, and no
address is lost. -/
def Frame (s s1 : State) : Prop :=
  (∀ (p : Nat) (r : PromiseRec),
    s.promises[p]? = some r → r.state ≠ PState.pending → s1.promises[p]? = some r) ∧
  (∀ l, latchSet l s = true → latchSet l s1 = true) ∧
  s.promises.length ≤ s1.promises.length

/-- The queue of `s1` is the queue of `s` followed by timers that avoid `F`. -/
def Grows (F : Nat → Bool) (s s1 : State) : Prop :=
  ∃ new, s1.timers = s.timers ++ new ∧ ∀ t ∈ new, t.avoids F = true

/-- The timer `t` is a handler callback on a settled instance: in state `s` it calls the
user function `c.1` with the argument `c.2`. -/
def Fires (s : State) (t : Task) (c : Nat × Val) : Prop :=
  ∃ self p2 r, s.promises[self]? = some r ∧
    ((t = Task.fulfilledTask self (FnRef.user c.1) p2 ∧ r.state = PState.fulfilled ∧
        r.value = c.2) ∨
     (t = Task.rejectedTask self (FnRef.user c.1) p2 ∧ r.state = PState.rejected ∧
        r.reason = c.2))

/-- A value that the resolution procedure fulfils with directly: not object-like, or an
object whose `then` member is read without error and is not a function. -/
def isPlain (env : Env) (x : Val) : Bool :=
  !isObjectLike x || decide (readThen env x = ThenValue.notFunction)

/-- The executor step calls `resolve` or `reject` during the executor call itself. -/
def ExecAct.settlesNow : ExecAct → Bool
  | ExecAct.resolve _ => true
  | ExecAct.reject _ => true
  | ExecAct.resolveLater _ => false
  | ExecAct.rejectLater _ => false

/-- Sample user code.  Function 0 is `() => log.push('x')`, function 1 is
`r => r + '!'` on strings, function 2 returns the instance at address 1, function 3
throws its argument, every other function returns its argument.  Object 0 has a `then`
method that calls its first callback with 1 and then with 2; object 1 has a `then` method
that calls its second callback with `'no'`, then its first callback with 1, and then
throws; every other object has no callable `then`. -/
def sampleEnv : Env where
  userFn := fun id lg arg =>
    match id with
    | 0 => (lg ++ [Val.str "x"], Completion.normal (Val.num (lg.length + 1)))
    | 1 =>
      match arg with
      | Val.str t => (lg, Completion.normal (Val.str (t ++ "!")))
      | _ => (lg, Completion.normal arg)
    | 2 => (lg, Completion.normal (Val.promise 1))
    | 3 => (lg, Completion.throw arg)
    | _ => (lg, Completion.normal arg)
  thenOf := fun id =>
    match id with
    | 0 => ThenMember.method [TAct.resolveNow (Val.num 1), TAct.resolveNow (Val.num 2)] none
    | 1 => ThenMember.method [TAct.rejectNow (Val.str "no"), TAct.resolveNow (Val.num 1)]
        (some (Val.str "late"))
    | _ => ThenMember.notCallable

/-- The completion of a handler settles `promise2` at once: the handler throws, or it
returns a plain value. -/
def settlesDirectly (env : Env) : Completion → Bool
  | Completion.throw _ => true
  | Completion.normal x => isPlain env x

/-- The program `MyPromise.resolve(v).then(f)`; gives the state after the two calls. -/
def resolveThen (v f : Val) (s : State) : State :=
  (MyPromise.then_ (MyPromise.resolve v s).1 f Val.undefined (MyPromise.resolve v s).2).2

/-- Settling `promise2` with the completion of a handler: fulfilled with the value that
was returned, rejected with the error that was thrown. -/
def settleWith (c : Completion) (promise2 : Nat) (s : State) : State :=
  match c with
  | Completion.normal x => settleResolve promise2 x s
  | Completion.throw e => settleReject promise2 e s

/-- The states `s1` and `s2` have the same heap, queue, log and traces of calls and of
uncaught errors. -/
def SameVisible (s1 s2 : State) : Prop :=
  s2.promises = s1.promises ∧ s2.timers = s1.timers ∧ s2.log = s1.log ∧
    s2.calls = s1.calls ∧ s2.uncaught = s1.uncaught

/-- The fields of a pending instance after the two `push` calls of lines 58 and 68. -/
def PromiseRec.addCallbacks (r : PromiseRec) (onF onR : Task) : PromiseRec :=
  { r with onFulfilledCallbacks := r.onFulfilledCallbacks ++ [onF],
           onRejectedCallbacks := r.onRejectedCallbacks ++ [onR] }

/-- The fields of an instance after lines 13-14, `state = 'fulfilled'; value = v`. -/
def PromiseRec.toFulfilled (r : PromiseRec) (v : Val) : PromiseRec :=
  { r with state := PState.fulfilled, value := v }

/-- The fields of an instance after lines 21-22, `state = 'rejected'; reason = e`. -/
def PromiseRec.toRejected (r : PromiseRec) (e : Val) : PromiseRec :=
  { r with state := PState.rejected, reason := e }

/-- The set of the two user functions `f1` and `f2`. -/
def eitherOf (f1 f2 : Nat) : Nat → Bool :=
  fun i => decide (i = f1) || decide (i = f2)

/-- The timer `t` is the handler callback that `then` makes for the user function `f` on
the instance `p`, whose fields are `rp` and which is settled with `v`; `p2` is
the instance that `then` returned. -/
def IsHandlerTask (t : Task) (p : Nat) (rp : PromiseRec) (f : Nat) (v : Val) (p2 : Nat) :
    Prop :=
  (t = Task.fulfilledTask p (FnRef.user f) p2 ∧ rp.state = PState.fulfilled ∧ rp.value = v) ∨
  (t = Task.rejectedTask p (FnRef.user f) p2 ∧ rp.state = PState.rejected ∧ rp.reason = v)

/-- The drain of the queue of `s1` returns (for every sufficiently large fuel, with the
same final state), and it adds exactly the calls `cs` of the functions of `F` to the
trace of `s`. -/
def DrainsInOrder (env : Env) (F : Nat → Bool) (s s1 : State) (cs : List (Nat × Val)) :
    Prop :=
  ∃ fuel s3, (∀ k, drain env (fuel + k) s1 = some s3) ∧ callsOf F s3 = callsOf F s ++ cs

/-- The first callback invocation that a `then` method makes during its own call. -/
def firstNow : List TAct → Option TAct
  | [] => none
  | TAct.resolveNow y :: _ => some (TAct.resolveNow y)
  | TAct.rejectNow r :: _ => some (TAct.rejectNow r)
  | TAct.resolveLater _ :: rest => firstNow rest
  | TAct.rejectLater _ :: rest => firstNow rest

/-! ## Work that is still to be done by the host -/

/-- A call of `f` can return something other than `undefined`: the closures of the
library itself all return `undefined` (or throw). -/
def FnRef.returnsValue : FnRef → Bool
  | FnRef.user _ => true
  | FnRef.identity => true
  | _ => false

/-- The timer runs a handler whose result is then resolved, and that result can be a
thenable, which queues more timers. -/
def Task.high : Task → Bool
  | Task.fulfilledTask _ h _ => h.returnsValue
  | Task.rejectedTask _ h _ => h.returnsValue
  | Task.callback _ _ => false

/-- The callbacks that are still registered on an instance: those of a pending one. -/
def PromiseRec.waiting (r : PromiseRec) : List Task :=
  if r.state = PState.pending then r.onFulfilledCallbacks ++ r.onRejectedCallbacks else []

/-- The number of registered callbacks of the heap that satisfy `P`. -/
def heapCount (P : Task → Bool) : List PromiseRec → Nat
  | [] => 0
  | r :: rs => r.waiting.countP P + heapCount P rs

/-- The number of timers satisfying `P` that are queued or can still be queued by a
settlement. -/
def workCount (P : Task → Bool) (s : State) : Nat :=
  s.timers.countP P + heapCount P s.promises

/-! ## Who can settle an instance -/

/-- The closure holds a settlement capability of the instance at address `a`. -/
def FnRef.settles (a : Nat) : FnRef → Bool
  | FnRef.resolveCap p => decide (p = a)
  | FnRef.rejectCap p => decide (p = a)
  | FnRef.rpResolve _ _ res rej => res.settles a || rej.settles a
  | FnRef.rpReject _ rej => rej.settles a
  | FnRef.allItem _ _ _ res _ => res.settles a
  | _ => false

/-- The timer can settle the instance at address `a`: it is a handler callback of a `then`
call that returned `a`, or it holds a capability of `a`. -/
def Task.settles (a : Nat) : Task → Bool
  | Task.fulfilledTask _ h p2 => h.settles a || decide (p2 = a)
  | Task.rejectedTask _ h p2 => h.settles a || decide (p2 = a)
  | Task.callback f _ => f.settles a

/-- No registered callback can settle the instance at address `a`. -/
def QuietHeap (a : Nat) (s : State) : Prop :=
  ∀ r ∈ s.promises, ∀ t ∈ r.onFulfilledCallbacks ++ r.onRejectedCallbacks,
    t.settles a = false

/-- No queued timer can settle the instance at address `a`. -/
def QuietQueue (a : Nat) (s : State) : Prop :=
  ∀ t ∈ s.timers, t.settles a = false

/-- The state, value and reason of the instance at address `a`. -/
def coreOf (s : State) (a : Nat) : Option (PState × Val × Val) :=
  (s.promises[a]?).map (fun r => (r.state, r.value, r.reason))

/-- From `s` to `s1` the instance at the existing address `a` kept its state, value and
reason, no callback that can settle it was registered, and the queue grew only by timers
that cannot settle it (given that no registered callback of `s` can). -/
def Apart (a : Nat) (s s1 : State) : Prop :=
  a < s.promises.length → QuietHeap a s →
    s.promises.length ≤ s1.promises.length ∧ coreOf s1 a = coreOf s a ∧ QuietHeap a s1 ∧
    ∃ new, s1.timers = s.timers ++ new ∧ ∀ t ∈ new, t.settles a = false

/-- The host runs the first `n` callbacks of the queue. -/
def ticks (env : Env) : Nat → State → State
  | 0, s => s
  | n + 1, s => ticks env n (tick env s)

/-- The state, value and reason of a fresh instance after `settleWith`. -/
def coreAfter : Completion → PState × Val × Val
  | Completion.normal x => (PState.fulfilled, x, Val.undefined)
  | Completion.throw e => (PState.rejected, Val.undefined, e)

/-- Foreign objects whose `then` member fails: reading it throws (object 0), the method
throws before it invokes a callback (object 1, which has scheduled a call first), the
method throws after it has invoked its resolve callback (object 2). -/
def brokenEnv : Env where
  userFn := fun _ lg arg => (lg, Completion.normal arg)
  thenOf := fun id =>
    match id with
    | 0 => ThenMember.getterThrows (Val.str "getter")
    | 1 => ThenMember.method [TAct.resolveLater (Val.num 1)] (some (Val.str "early"))
    | 2 => ThenMember.method [TAct.resolveNow (Val.num 1)] (some (Val.str "late"))
    | _ => ThenMember.notCallable

/-! ## Sealed addresses and cells -/

/-- The closure holds no settlement capability of an address in `A`. -/
def FnRef.spares (A : Nat → Bool) : FnRef → Bool
  | FnRef.resolveCap p => !A p
  | FnRef.rejectCap p => !A p
  | FnRef.rpResolve _ _ res rej => res.spares A && rej.spares A
  | FnRef.rpReject _ rej => rej.spares A
  | FnRef.allItem _ _ _ res _ => res.spares A
  | _ => true

/-- The timer cannot settle an instance at an address in `A`. -/
def Task.spares (A : Nat → Bool) : Task → Bool
  | Task.fulfilledTask _ h p2 => h.spares A && !A p2
  | Task.rejectedTask _ h p2 => h.spares A && !A p2
  | Task.callback f _ => f.spares A

/-- The closure does not write the array `a` or the counter `c`. -/
def FnRef.sparesCells (a c : Nat) : FnRef → Bool
  | FnRef.allItem results completed _ res _ =>
    decide (results ≠ a) && decide (completed ≠ c) && res.sparesCells a c
  | FnRef.rpResolve _ _ res rej => res.sparesCells a c && rej.sparesCells a c
  | FnRef.rpReject _ rej => rej.sparesCells a c
  | _ => true

/-- The timer does not write the array `a` or the counter `c`. -/
def Task.sparesCells (a c : Nat) : Task → Bool
  | Task.fulfilledTask _ h _ => h.sparesCells a c
  | Task.rejectedTask _ h _ => h.sparesCells a c
  | Task.callback f _ => f.sparesCells a c

/-- The timer can neither settle an address in `A` nor write the cells `a` and `c`. -/
def Task.mild (A : Nat → Bool) (a c : Nat) (t : Task) : Bool :=
  t.spares A && t.sparesCells a c

/-- No registered callback writes the cells `a` and `c`, and the callbacks registered on
instances outside `A` cannot settle an address in `A`.  (The callbacks of an instance in
`A` are scheduled only when that instance is settled.) -/
def SealedHeap (A : Nat → Bool) (a c : Nat) (s : State) : Prop :=
  ∀ p r, s.promises[p]? = some r →
    ∀ t ∈ r.onFulfilledCallbacks ++ r.onRejectedCallbacks,
      t.sparesCells a c = true ∧ (A p = false → t.spares A = true)

/-- From `s` to `s1` the instances at the addresses in `A` kept state, value and reason,
the array `a` and the counter `c` kept their contents, the heap stayed sealed, and the
queue grew by mild timers only; given that the addresses exist in `s` and that the heap
of `s` is sealed. -/
def Sealed (A : Nat → Bool) (a c : Nat) (s s1 : State) : Prop :=
  (∀ p, A p = true → p < s.promises.length) → SealedHeap A a c s →
    (s.promises.length ≤ s1.promises.length ∧ s.arrays.length ≤ s1.arrays.length ∧
      s.counters.length ≤ s1.counters.length) ∧
    (∀ p, A p = true → coreOf s1 p = coreOf s p) ∧
    s1.arrays[a]? = s.arrays[a]? ∧ s1.counters[c]? = s.counters[c]? ∧
    SealedHeap A a c s1 ∧
    ∃ new, s1.timers = s.timers ++ new ∧ ∀ t ∈ new, Task.mild A a c t = true

/-! ## The state after `MyPromise.all` -/

/-- The timers that the `forEach` of `all` queues: for the item at index `idx`, whose
wrapper `MyPromise.resolve(item)` is at address `L`, the handler callback of line 106 on
the wrapper; the instance returned by that `then` call is at `L + 1`, the one returned by
`catch` at `L + 2`. -/
def itemTimers (results completed length this : Nat) : Nat → Nat → List Val → List Task
  | _, _, [] => []
  | idx, L, _ :: rest =>
    Task.fulfilledTask L (FnRef.allItem results completed length (FnRef.resolveCap this) idx)
        (L + 1) ::
      itemTimers results completed length this (idx + 1) (L + 3) rest

/-- The instances that the `forEach` of `all` creates, three per item: the wrapper
(fulfilled with the item), the instance returned by `then` (pending, with the two
closures that `catch(reject)` registered), and the instance returned by `catch`. -/
def itemRecords (this : Nat) : Nat → List Val → List PromiseRec
  | _, [] => []
  | L, x :: rest =>
    PromiseRec.fulfilledWith x ::
      PromiseRec.fresh.addCallbacks (Task.fulfilledTask (L + 1) FnRef.identity (L + 2))
        (Task.rejectedTask (L + 1) (FnRef.rejectCap this) (L + 2)) ::
      PromiseRec.fresh :: itemRecords this (L + 3) rest

/-- The wrappers of the items `xs`, the first one at address `L`, are fulfilled with the
items. -/
def wrappersHold (s : State) : Nat → List Val → Prop
  | _, [] => True
  | L, x :: rest =>
    (∃ r, s.promises[L]? = some r ∧ r.state = PState.fulfilled ∧ r.value = x) ∧
      wrappersHold s (L + 3) rest

/-- No timer and no registered callback of the state holds a capability of an address
that is not allocated yet, or writes the array or the counter that will be allocated
next. -/
def Closed (s : State) : Prop :=
  (∀ t ∈ s.timers,
    Task.mild (fun p => decide (s.promises.length ≤ p)) s.arrays.length s.counters.length t =
      true) ∧
  ∀ r ∈ s.promises, ∀ t ∈ r.onFulfilledCallbacks ++ r.onRejectedCallbacks,
    Task.mild (fun p => decide (s.promises.length ≤ p)) s.arrays.length s.counters.length t =
      true

/-- The timers that the `forEach` of `race` queues: for the item whose wrapper
`MyPromise.resolve(item)` is at address `L`, the callback of `then(resolve)` on the
wrapper. -/
def raceTimers (this : Nat) : Nat → List Val → List Task
  | _, [] => []
  | L, _ :: rest =>
    Task.fulfilledTask L (FnRef.resolveCap this) (L + 1) :: raceTimers this (L + 3) rest

/-! ## The gate on `value` and `reason` -/

/-- The fields of an instance respect the gate: while it is pending, `value` and `reason`
are `undefined`; when it is fulfilled, `reason` is `undefined`; when it is rejected,
`value` is `undefined`. -/
def PromiseRec.gated (r : PromiseRec) : Prop :=
  (r.state = PState.pending → r.value = Val.undefined ∧ r.reason = Val.undefined) ∧
  (r.state = PState.fulfilled → r.reason = Val.undefined) ∧
  (r.state = PState.rejected → r.value = Val.undefined)

/-- Every instance of the heap respects the gate. -/
def Gated (s : State) : Prop :=
  ∀ r ∈ s.promises, r.gated

/-- The first call of `resolve` or `reject` that the executor makes during its own call. -/
def firstSettle : List ExecAct → Option ExecAct
  | [] => none
  | ExecAct.resolve v :: _ => some (ExecAct.resolve v)
  | ExecAct.reject r :: _ => some (ExecAct.reject r)
  | ExecAct.resolveLater _ :: rest => firstSettle rest
  | ExecAct.rejectLater _ :: rest => firstSettle rest

/-! ## Callback lists only grow at the end -/

/-- From `s` to `s1` every instance of `s` is still there, and each of its two callback
lists in `s` is an initial segment of the same list in `s1`. -/
def ListsGrow (s s1 : State) : Prop :=
  ∀ (p : Nat) (r : PromiseRec), s.promises[p]? = some r →
    ∃ r1 : PromiseRec, s1.promises[p]? = some r1 ∧
      r.onFulfilledCallbacks <+: r1.onFulfilledCallbacks ∧
      r.onRejectedCallbacks <+: r1.onRejectedCallbacks

/-! ## Instances whose capabilities nobody holds -/

/-- The address `a` is allocated, and no registered callback and no queued timer can
settle the instance there. -/
def Quiet (a : Nat) (s : State) : Prop :=
  a < s.promises.length ∧ QuietHeap a s ∧ QuietQueue a s

/-- The operation neither calls a closure that can settle the instance at `a` nor hands
one to `then` or `catch` as a handler. -/
def Op.quiet (a : Nat) : Op → Bool
  | Op.then_ _ f g => !(asOnFulfilled f).settles a && !(asOnRejected g).settles a
  | Op.catch_ _ g => !(asOnRejected g).settles a
  | Op.call f _ => !f.settles a
  | _ => true

/-! ## Every operation is a sequence of primitive changes -/

theorem Steps.stay (F : Nat → Bool) (s : State) : Steps F s s :=
  Relation.ReflTransGen.refl

theorem Steps.one {F : Nat → Bool} {s s1 : State} (h : Prim F s s1) : Steps F s s1 :=
  Relation.ReflTransGen.single h

theorem Steps.andThen {F : Nat → Bool} {s s1 s2 : State} (h1 : Steps F s s1)
    (h2 : Steps F s1 s2) : Steps F s s2 :=
  Relation.ReflTransGen.trans h1 h2

theorem discard_snd (r : Completion × State) : (discard r).2 = r.2 := by
  unfold discard
  split <;> rfl

theorem construct_steps (F : Nat → Bool) (executor : Nat → State → State × Option Val)
    (s : State) (h : ∀ p s1, Steps F s1 (executor p s1).1) :
    Steps F s (MyPromise.construct executor s).2 := by
  unfold MyPromise.construct
  have h1 : Steps F s (allocPromise s).2 := Steps.one (Prim.alloc s)
  have h2 := h (allocPromise s).1 (allocPromise s).2
  split
  · next s2 heq =>
    rw [heq] at h2
    exact h1.andThen h2
  · next s2 err heq =>
    rw [heq] at h2
    exact (h1.andThen h2).andThen (Steps.one (Prim.settleReject _ _ _))

theorem thenExecutor_steps (F : Nat → Bool) (self : Nat) (onF onR : FnRef) (p2 : Nat)
    (s : State) (hF : onF.avoids F = true) (hR : onR.avoids F = true) :
    Steps F s (MyPromise.thenExecutor self onF onR p2 s).1 := by
  unfold MyPromise.thenExecutor
  split
  · next r hr =>
    split
    · exact Steps.one (Prim.timeout _ _ (by simpa [Task.avoids] using hF))
    · exact Steps.one (Prim.timeout _ _ (by simpa [Task.avoids] using hR))
    · next hp =>
      exact Steps.one (Prim.push _ _ _ _ r hr hp (by simpa [Task.avoids] using hF)
        (by simpa [Task.avoids] using hR))
  · exact Steps.stay F s

theorem then_steps (F : Nat → Bool) (self : Nat) (a b : Val) (s : State)
    (ha : (asOnFulfilled a).avoids F = true) (hb : (asOnRejected b).avoids F = true) :
    Steps F s (MyPromise.then_ self a b s).2 :=
  construct_steps F _ s (fun p s1 => thenExecutor_steps F self _ _ p s1 ha hb)

theorem catch_steps (F : Nat → Bool) (self : Nat) (b : Val) (s : State)
    (hb : (asOnRejected b).avoids F = true) :
    Steps F s (MyPromise.catch_ self b s).2 :=
  then_steps F self Val.null b s (by simp [asOnFulfilled, FnRef.avoids]) hb

theorem resolve_steps (F : Nat → Bool) (v : Val) (s : State) :
    Steps F s (MyPromise.resolve v s).2 :=
  construct_steps F _ s (fun _ _ => Steps.one (Prim.settleResolve _ _ _))

theorem reject_steps (F : Nat → Bool) (r : Val) (s : State) :
    Steps F s (MyPromise.reject r s).2 :=
  construct_steps F _ s (fun _ _ => Steps.one (Prim.settleReject _ _ _))

theorem runExecActs_steps (F : Nat → Bool) (this : Nat) (acts : List ExecAct) :
    ∀ s, Steps F s (runExecActs this acts s) := by
  induction acts with
  | nil => intro s; exact Steps.stay F s
  | cons a rest ih =>
    intro s
    cases a with
    | resolve v => exact (Steps.one (Prim.settleResolve _ _ _)).andThen (ih _)
    | reject r => exact (Steps.one (Prim.settleReject _ _ _)).andThen (ih _)
    | resolveLater v =>
      exact (Steps.one (Prim.timeout _ _ (by simp [Task.avoids, FnRef.avoids]))).andThen (ih _)
    | rejectLater r =>
      exact (Steps.one (Prim.timeout _ _ (by simp [Task.avoids, FnRef.avoids]))).andThen (ih _)

theorem userConstruct_steps (F : Nat → Bool) (ex : UserExecutor) (s : State) :
    Steps F s (MyPromise.construct ex.run s).2 :=
  construct_steps F _ s (fun p s1 => runExecActs_steps F p ex.acts s1)

theorem allEach_steps (F : Nat → Bool) (results completed length this : Nat)
    (ps : List Val) : ∀ index s,
    Steps F s (MyPromise.allEach results completed length this ps index s) := by
  induction ps with
  | nil => intro _ s; exact Steps.stay F s
  | cons p rest ih =>
    intro index s
    unfold MyPromise.allEach
    refine ((resolve_steps F p s).andThen (then_steps F _ _ _ _ ?_ ?_)).andThen
      ((catch_steps F _ _ _ ?_).andThen (ih _ _))
    all_goals simp [asOnFulfilled, asOnRejected, FnRef.avoids]

theorem all_steps (F : Nat → Bool) (ps : List Val) (s : State) :
    Steps F s (MyPromise.all ps s).2 := by
  refine construct_steps F _ s (fun p s1 => ?_)
  unfold MyPromise.allExecutor
  split
  · exact (Steps.one (Prim.newArray s1)).andThen (Steps.one (Prim.settleResolve _ _ _))
  · exact ((Steps.one (Prim.newArray s1)).andThen (Steps.one (Prim.newCounter _))).andThen
      (allEach_steps F _ _ _ _ _ _ _)

theorem raceEach_steps (F : Nat → Bool) (this : Nat) (ps : List Val) :
    ∀ s, Steps F s (MyPromise.raceEach this ps s) := by
  induction ps with
  | nil => intro s; exact Steps.stay F s
  | cons p rest ih =>
    intro s
    unfold MyPromise.raceEach
    refine ((resolve_steps F p s).andThen (then_steps F _ _ _ _ ?_ ?_)).andThen
      ((catch_steps F _ _ _ ?_).andThen (ih _))
    all_goals simp [asOnFulfilled, asOnRejected, FnRef.avoids]

theorem race_steps (F : Nat → Bool) (ps : List Val) (s : State) :
    Steps F s (MyPromise.race ps s).2 :=
  construct_steps F _ s (fun p s1 => raceEach_steps F p ps s1)


theorem callFn_steps (F : Nat → Bool) (env : Env) :
    ∀ (f : FnRef) (arg : Val) (s : State), f.avoids F = true →
      Steps F s (callFn env f arg s).2 := by
  intro f
  induction f with
  | user id =>
    intro arg s hf
    exact Steps.one (Prim.call _ _ _ _ (by simpa [FnRef.avoids] using hf))
  | identity => intro arg s _; exact Steps.stay F _
  | thrower => intro arg s _; exact Steps.stay F _
  | resolveCap p => intro arg s _; exact Steps.one (Prim.settleResolve _ _ _)
  | rejectCap p => intro arg s _; exact Steps.one (Prim.settleReject _ _ _)
  | rpResolve called p2 res rej _ _ =>
    intro arg s _
    simp only [callFn]
    split
    · exact Steps.stay F _
    · exact Steps.one (Prim.setLatch _ _)
  | rpReject called rej ih =>
    intro arg s hf
    simp only [FnRef.avoids] at hf
    simp only [callFn]
    split
    · exact Steps.stay F _
    · rw [discard_snd]
      exact (Steps.one (Prim.setLatch _ _)).andThen (ih _ _ hf)
  | allItem results completed length res index ih =>
    intro arg s hf
    simp only [FnRef.avoids] at hf
    have h12 : Steps F s (bumpCounter completed (storeResult results index arg s)) :=
      (Steps.one (Prim.store _ _ _ _)).andThen (Steps.one (Prim.bump _ _))
    simp only [callFn]
    split
    · rw [discard_snd]
      exact h12.andThen (ih _ _ hf)
    · exact h12

theorem runActs_steps (F : Nat → Bool) (env : Env) (onF onR : FnRef)
    (hF : onF.avoids F = true) (hR : onR.avoids F = true) (acts : List TAct) :
    ∀ s, Steps F s (runActs env onF onR acts s).2 := by
  induction acts with
  | nil => intro s; exact Steps.stay F _
  | cons a rest ih =>
    intro s
    cases a with
    | resolveNow y =>
      simp only [runActs]
      have h := callFn_steps F env onF y s hF
      split
      · next v s1 heq => rw [heq] at h; exact h.andThen (ih _)
      · exact h
    | rejectNow r =>
      simp only [runActs]
      have h := callFn_steps F env onR r s hR
      split
      · next v s1 heq => rw [heq] at h; exact h.andThen (ih _)
      · exact h
    | resolveLater y =>
      simp only [runActs]
      exact (Steps.one (Prim.timeout _ _ (by simpa [Task.avoids] using hF))).andThen (ih _)
    | rejectLater r =>
      simp only [runActs]
      exact (Steps.one (Prim.timeout _ _ (by simpa [Task.avoids] using hR))).andThen (ih _)

theorem runThenMethod_steps (F : Nat → Bool) (env : Env) (acts : List TAct)
    (throws : Option Val) (onF onR : FnRef) (hF : onF.avoids F = true)
    (hR : onR.avoids F = true) (s : State) :
    Steps F s (runThenMethod env acts throws onF onR s).2 := by
  unfold runThenMethod
  have h := runActs_steps F env onF onR hF hR acts s
  split
  · next v s1 heq =>
    rw [heq] at h
    split <;> exact h
  · exact h

theorem rpTry_steps (F : Nat → Bool) (env : Env) (called p2 : Nat) (x : Val)
    (res rej : FnRef) (hres : res.avoids F = true) (hrej : rej.avoids F = true) (s : State) :
    Steps F s (rpTry env called p2 x res rej s).2 := by
  have h0 : Steps F s (recordThenRead x s) := Steps.one (Prim.thenRead _ _)
  have hA : (FnRef.rpResolve called p2 res rej).avoids F = true := by
    simp [FnRef.avoids, hres, hrej]
  have hB : (FnRef.rpReject called rej).avoids F = true := by
    simp [FnRef.avoids, hrej]
  unfold rpTry
  split
  · exact h0
  · exact h0.andThen (then_steps F _ _ _ _ (by simpa [asOnFulfilled] using hA)
      (by simpa [asOnRejected] using hB))
  · exact h0.andThen (runThenMethod_steps F env _ _ _ _ hA hB _)
  · exact h0.andThen (callFn_steps F env _ _ _ hres)

theorem rpCatch_steps (F : Nat → Bool) (env : Env) (called : Nat) (rej : FnRef)
    (hrej : rej.avoids F = true) (e : Val) (s : State) :
    Steps F s (rpCatch env called rej e s).2 := by
  unfold rpCatch
  split
  · exact Steps.stay F _
  · rw [discard_snd]
    exact (Steps.one (Prim.setLatch _ _)).andThen (callFn_steps F env _ _ _ hrej)

theorem resolvePromise_steps (F : Nat → Bool) (env : Env) (p2 : Nat) (x : Val)
    (res rej : FnRef) (hres : res.avoids F = true) (hrej : rej.avoids F = true) (s : State) :
    Steps F s (resolvePromise env p2 x res rej s).2 := by
  unfold resolvePromise
  split
  · exact callFn_steps F env _ _ _ hrej
  · have h0 : Steps F s (newLatch s).2 := Steps.one (Prim.newLatch s)
    split
    · have h1 := rpTry_steps F env (newLatch s).1 p2 x res rej hres hrej (newLatch s).2
      split
      · next e s2 heq =>
        rw [heq] at h1
        exact (h0.andThen h1).andThen (rpCatch_steps F env _ _ hrej _ _)
      · rw [discard_snd]
        exact h0.andThen h1
    · rw [discard_snd]
      exact h0.andThen (callFn_steps F env _ _ _ hres)

theorem catchReject_steps (F : Nat → Bool) (p2 : Nat) (r : Completion × State) :
    Steps F r.2 (catchReject p2 r) := by
  unfold catchReject
  split
  · exact Steps.one (Prim.settleReject _ _ _)
  · exact Steps.stay F _

theorem runHandler_steps (F : Nat → Bool) (env : Env) (h : FnRef) (arg : Val) (p2 : Nat)
    (s : State) (hh : h.avoids F = true) : Steps F s (runHandler env h arg p2 s) := by
  unfold runHandler
  have h1 := callFn_steps F env h arg s hh
  split
  · next x s1 heq =>
    rw [heq] at h1
    exact (h1.andThen (resolvePromise_steps F env p2 x _ _ (by simp [FnRef.avoids])
      (by simp [FnRef.avoids]) s1)).andThen (catchReject_steps F p2 _)
  · exact h1.andThen (catchReject_steps F p2 _)

theorem runTask_steps (F : Nat → Bool) (env : Env) (t : Task) (s : State)
    (ht : t.avoids F = true) : Steps F s (runTask env t s) := by
  cases t with
  | fulfilledTask self h p2 => exact runHandler_steps F env _ _ _ _ ht
  | rejectedTask self h p2 => exact runHandler_steps F env _ _ _ _ ht
  | callback f arg =>
    simp only [runTask]
    have h := callFn_steps F env f arg s ht
    split
    · next v s1 heq => rw [heq] at h; exact h
    · next e s1 heq =>
      rw [heq] at h
      exact h.andThen (Steps.one (Prim.uncaught _ _))

theorem Frame.same (s : State) : Frame s s :=
  ⟨fun _ _ h _ => h, fun _ h => h, Nat.le_refl _⟩

theorem Frame.comp {s s1 s2 : State} (h1 : Frame s s1) (h2 : Frame s1 s2) : Frame s s2 :=
  ⟨fun p r hr hs => h2.1 p r (h1.1 p r hr hs) hs, fun l hl => h2.2.1 l (h1.2.1 l hl),
    Nat.le_trans h1.2.2 h2.2.2⟩

theorem Frame.ofFields {s s1 : State} (hp : s1.promises = s.promises)
    (hl : s1.latches = s.latches) : Frame s s1 :=
  ⟨fun _ _ h _ => by rw [hp]; exact h, fun _ h => by unfold latchSet at *; rw [hl]; exact h,
    by rw [hp]⟩

theorem settleResolve_settled (p : Nat) (v : Val) (s : State) (r : PromiseRec)
    (hr : s.promises[p]? = some r) (hs : r.state ≠ PState.pending) :
    settleResolve p v s = s := by
  unfold settleResolve
  rw [hr]
  simp [hs]

theorem settleReject_settled (p : Nat) (v : Val) (s : State) (r : PromiseRec)
    (hr : s.promises[p]? = some r) (hs : r.state ≠ PState.pending) :
    settleReject p v s = s := by
  unfold settleReject
  rw [hr]
  simp [hs]

theorem settleResolve_pending (p : Nat) (v : Val) (s : State) (r : PromiseRec)
    (hr : s.promises[p]? = some r) (hs : r.state = PState.pending) :
    settleResolve p v s =
      { s with
        promises := s.promises.set p { r with state := PState.fulfilled, value := v }
        timers := s.timers ++ r.onFulfilledCallbacks } := by
  unfold settleResolve
  rw [hr]
  simp [hs, runCallbacks]

theorem settleReject_pending (p : Nat) (v : Val) (s : State) (r : PromiseRec)
    (hr : s.promises[p]? = some r) (hs : r.state = PState.pending) :
    settleReject p v s =
      { s with
        promises := s.promises.set p { r with state := PState.rejected, reason := v }
        timers := s.timers ++ r.onRejectedCallbacks } := by
  unfold settleReject
  rw [hr]
  simp [hs, runCallbacks]

theorem settleResolve_none (p : Nat) (v : Val) (s : State) (hr : s.promises[p]? = none) :
    settleResolve p v s = s := by
  unfold settleResolve
  rw [hr]

theorem settleReject_none (p : Nat) (v : Val) (s : State) (hr : s.promises[p]? = none) :
    settleReject p v s = s := by
  unfold settleReject
  rw [hr]

theorem frame_set_pending (s : State) (p : Nat) (r r1 : PromiseRec) (ts : List Task)
    (hr : s.promises[p]? = some r) (hs : r.state = PState.pending) :
    Frame s { s with promises := s.promises.set p r1, timers := ts } := by
  refine ⟨fun q rq hq hqs => ?_, fun _ h => h, by simp⟩
  have hne : p ≠ q := by
    rintro rfl
    rw [hr] at hq
    cases hq
    exact hqs hs
  simp [List.getElem?_set_ne hne, hq]

theorem settleResolve_frame (p : Nat) (v : Val) (s : State) : Frame s (settleResolve p v s) := by
  cases hr : s.promises[p]? with
  | none => rw [settleResolve_none p v s hr]; exact Frame.same s
  | some r =>
    by_cases hs : r.state = PState.pending
    · rw [settleResolve_pending p v s r hr hs]
      exact frame_set_pending s p r _ _ hr hs
    · rw [settleResolve_settled p v s r hr hs]; exact Frame.same s

theorem settleReject_frame (p : Nat) (v : Val) (s : State) : Frame s (settleReject p v s) := by
  cases hr : s.promises[p]? with
  | none => rw [settleReject_none p v s hr]; exact Frame.same s
  | some r =>
    by_cases hs : r.state = PState.pending
    · rw [settleReject_pending p v s r hr hs]
      exact frame_set_pending s p r _ _ hr hs
    · rw [settleReject_settled p v s r hr hs]; exact Frame.same s

theorem Prim.oneFrame {F : Nat → Bool} {s s1 : State} (h : Prim F s s1) : Frame s s1 := by
  cases h with
  | alloc =>
    refine ⟨fun q rq hq _ => ?_, fun _ h => h, by simp [allocPromise]⟩
    have hlt : q < s.promises.length := (List.getElem?_eq_some.mp hq).1
    simp [allocPromise, List.getElem?_append_left hlt, hq]
  | settleResolve p v => exact settleResolve_frame p v s
  | settleReject p r => exact settleReject_frame p r s
  | push p a b _ r hr hp ha hb =>
    unfold pushCallbacks
    rw [hr]
    exact frame_set_pending s p r _ s.timers hr hp
  | timeout t _ ht => exact Frame.ofFields rfl rfl
  | newLatch =>
    refine ⟨fun _ _ h _ => h, fun l hl => ?_, Nat.le_refl _⟩
    simp only [latchSet, List.getD_eq_getElem?_getD, PlanToPro.newLatch] at hl ⊢
    have hlt : l < s.latches.length := by
      by_contra hge
      rw [List.getElem?_eq_none (Nat.le_of_not_lt hge)] at hl
      simp at hl
    rw [List.getElem?_append_left hlt]
    exact hl
  | setLatch l =>
    refine ⟨fun _ _ h _ => h, fun l1 hl => ?_, Nat.le_refl _⟩
    simp only [latchSet, List.getD_eq_getElem?_getD, PlanToPro.setLatch] at hl ⊢
    by_cases hll : l = l1
    · subst hll
      have hlt : l < s.latches.length := by
        by_contra hge
        rw [List.getElem?_eq_none (Nat.le_of_not_lt hge)] at hl
        simp at hl
      simp [List.getElem?_set_self hlt]
    · rw [List.getElem?_set_ne hll]
      exact hl
  | newArray => exact Frame.ofFields rfl rfl
  | newCounter => exact Frame.ofFields rfl rfl
  | store a i v => exact Frame.ofFields rfl rfl
  | bump c => exact Frame.ofFields rfl rfl
  | call id arg lg _ hid => exact Frame.ofFields rfl rfl
  | thenRead x => exact Frame.ofFields rfl rfl
  | uncaught e => exact Frame.ofFields rfl rfl

theorem Steps.toFrame {F : Nat → Bool} {s s1 : State} (h : Steps F s s1) : Frame s s1 := by
  induction h with
  | refl => exact Frame.same s
  | tail _ hp ih => exact ih.comp hp.oneFrame

theorem Move.moveFrame {s s1 : State} (h : Move s s1) : Frame s s1 := by
  cases h with
  | prim _ h => exact h.oneFrame
  | dequeue t rest h => exact Frame.ofFields rfl rfl
  | say v => exact Frame.ofFields rfl rfl

theorem Moves.runFrame {s s1 : State} (h : Moves s s1) : Frame s s1 := by
  induction h with
  | refl => exact Frame.same s
  | tail _ hp ih => exact ih.comp hp.moveFrame

theorem avoids_none (f : FnRef) : f.avoids (fun _ => false) = true := by
  induction f <;> simp_all [FnRef.avoids]

theorem Steps.moves {s s1 : State} (h : Steps (fun _ => false) s s1) : Moves s s1 := by
  induction h with
  | refl => exact Relation.ReflTransGen.refl
  | tail _ hp ih => exact Relation.ReflTransGen.tail ih (Move.prim _ _ hp)


theorem Op.run_moves (env : Env) (op : Op) (s : State) : Moves s (op.run env s) := by
  cases op with
  | construct ex => exact (userConstruct_steps _ ex s).moves
  | then_ self a b => exact (then_steps _ self a b s (avoids_none _) (avoids_none _)).moves
  | catch_ self b => exact (catch_steps _ self b s (avoids_none _)).moves
  | resolve v => exact (resolve_steps _ v s).moves
  | reject r => exact (reject_steps _ r s).moves
  | all ps => exact (all_steps _ ps s).moves
  | race ps => exact (race_steps _ ps s).moves
  | call f arg => exact (callFn_steps _ env f arg s (avoids_none f)).moves
  | say v => exact Relation.ReflTransGen.single (Move.say s v)
  | tick =>
    simp only [Op.run, PlanToPro.tick]
    split
    · exact Relation.ReflTransGen.refl
    · next t rest heq =>
      have hT : t.avoids (fun _ => false) = true := by
        cases t <;> simp [Task.avoids, avoids_none]
      exact Relation.ReflTransGen.trans
        (Relation.ReflTransGen.single (Move.dequeue s t rest heq))
        (runTask_steps _ env t _ hT).moves

theorem runOps_moves (env : Env) (ops : List Op) : ∀ s, Moves s (runOps env ops s) := by
  induction ops with
  | nil => intro s; exact Relation.ReflTransGen.refl
  | cons op rest ih =>
    intro s
    exact Relation.ReflTransGen.trans (Op.run_moves env op s) (ih _)

/-! ## Calls of user functions -/

theorem settleResolve_shape (p : Nat) (v : Val) (s : State) :
    ∃ ps ts, settleResolve p v s = { s with promises := ps, timers := ts } := by
  cases hr : s.promises[p]? with
  | none => exact ⟨s.promises, s.timers, by rw [settleResolve_none p v s hr]⟩
  | some r =>
    by_cases hs : r.state = PState.pending
    · exact ⟨_, _, settleResolve_pending p v s r hr hs⟩
    · exact ⟨s.promises, s.timers, by rw [settleResolve_settled p v s r hr hs]⟩

theorem settleReject_shape (p : Nat) (v : Val) (s : State) :
    ∃ ps ts, settleReject p v s = { s with promises := ps, timers := ts } := by
  cases hr : s.promises[p]? with
  | none => exact ⟨s.promises, s.timers, by rw [settleReject_none p v s hr]⟩
  | some r =>
    by_cases hs : r.state = PState.pending
    · exact ⟨_, _, settleReject_pending p v s r hr hs⟩
    · exact ⟨s.promises, s.timers, by rw [settleReject_settled p v s r hr hs]⟩

theorem Prim.oneCalls {F : Nat → Bool} {s s1 : State} (h : Prim F s s1) :
    callsOf F s1 = callsOf F s := by
  cases h with
  | alloc => rfl
  | settleResolve p v =>
    obtain ⟨ps, ts, h⟩ := settleResolve_shape p v s
    rw [h]
    rfl
  | settleReject p r =>
    obtain ⟨ps, ts, h⟩ := settleReject_shape p r s
    rw [h]
    rfl
  | push p a b _ r hr hp ha hb =>
    unfold pushCallbacks
    rw [hr]
    rfl
  | timeout t _ ht => rfl
  | newLatch => rfl
  | setLatch l => rfl
  | newArray => rfl
  | newCounter => rfl
  | store a i v => rfl
  | bump c => rfl
  | call id arg lg _ hid => simp [callsOf, recordCall, hid]
  | thenRead x => rfl
  | uncaught e => rfl

theorem Steps.keepsCalls {F : Nat → Bool} {s s1 : State} (h : Steps F s s1) :
    callsOf F s1 = callsOf F s := by
  induction h with
  | refl => rfl
  | tail _ hp ih => rw [hp.oneCalls, ih]

theorem Grows.none_added (F : Nat → Bool) (s : State) : Grows F s s :=
  ⟨[], by simp, by simp⟩

theorem Grows.ofTimers {F : Nat → Bool} {s s1 : State} (h : s1.timers = s.timers) :
    Grows F s s1 :=
  ⟨[], by simp [h], by simp⟩

theorem Grows.chain {F : Nat → Bool} {s s1 s2 : State} (h1 : Grows F s s1)
    (h2 : Grows F s1 s2) : Grows F s s2 := by
  obtain ⟨n1, e1, c1⟩ := h1
  obtain ⟨n2, e2, c2⟩ := h2
  refine ⟨n1 ++ n2, by rw [e2, e1, List.append_assoc], fun t ht => ?_⟩
  rcases List.mem_append.mp ht with h | h
  · exact c1 t h
  · exact c2 t h

theorem CleanHeap.ofPromises {F : Nat → Bool} {s s1 : State} (h : s1.promises = s.promises)
    (hc : CleanHeap F s) : CleanHeap F s1 := by
  unfold CleanHeap at *
  rw [h]
  exact hc

theorem CleanHeap.set_settled {F : Nat → Bool} {s : State} (hc : CleanHeap F s) (p : Nat)
    (r1 : PromiseRec) (ts : List Task) (h1 : r1.state ≠ PState.pending) :
    CleanHeap F { s with promises := s.promises.set p r1, timers := ts } := by
  intro r hr hp
  rcases List.mem_or_eq_of_mem_set hr with h | h
  · exact hc r h hp
  · subst h
    exact absurd hp h1

theorem CleanHeap.alloc {F : Nat → Bool} {s : State} (hc : CleanHeap F s) :
    CleanHeap F (allocPromise s).2 := by
  intro r hr hp
  simp only [allocPromise, List.mem_append, List.mem_singleton] at hr
  rcases hr with h | h
  · exact hc r h hp
  · subst h
    simp [PromiseRec.fresh]

theorem Prim.oneClean {F : Nat → Bool} {s s1 : State} (h : Prim F s s1) (hc : CleanHeap F s) :
    CleanHeap F s1 ∧ Grows F s s1 := by
  cases h with
  | alloc => exact ⟨hc.alloc, Grows.ofTimers rfl⟩
  | settleResolve p v =>
    cases hr : s.promises[p]? with
    | none => rw [settleResolve_none p v s hr]; exact ⟨hc, Grows.none_added F s⟩
    | some r =>
      by_cases hs : r.state = PState.pending
      · rw [settleResolve_pending p v s r hr hs]
        exact ⟨hc.set_settled p _ _ (by simp),
          ⟨r.onFulfilledCallbacks, rfl, (hc r (List.getElem?_mem hr) hs).1⟩⟩
      · rw [settleResolve_settled p v s r hr hs]; exact ⟨hc, Grows.none_added F s⟩
  | settleReject p v =>
    cases hr : s.promises[p]? with
    | none => rw [settleReject_none p v s hr]; exact ⟨hc, Grows.none_added F s⟩
    | some r =>
      by_cases hs : r.state = PState.pending
      · rw [settleReject_pending p v s r hr hs]
        exact ⟨hc.set_settled p _ _ (by simp),
          ⟨r.onRejectedCallbacks, rfl, (hc r (List.getElem?_mem hr) hs).2⟩⟩
      · rw [settleReject_settled p v s r hr hs]; exact ⟨hc, Grows.none_added F s⟩
  | push p a b _ r hr hp ha hb =>
    unfold pushCallbacks
    rw [hr]
    refine ⟨fun r1 hr1 hp1 => ?_, Grows.ofTimers rfl⟩
    rcases List.mem_or_eq_of_mem_set hr1 with h | h
    · exact hc r1 h hp1
    · subst h
      have hcr := hc r (List.getElem?_mem hr) hp
      constructor
      · intro t ht
        rcases List.mem_append.mp ht with h | h
        · exact hcr.1 t h
        · rw [List.mem_singleton.mp h]; exact ha
      · intro t ht
        rcases List.mem_append.mp ht with h | h
        · exact hcr.2 t h
        · rw [List.mem_singleton.mp h]; exact hb
  | timeout t _ ht =>
    exact ⟨hc.ofPromises rfl, ⟨[t], rfl, by simpa using ht⟩⟩
  | newLatch => exact ⟨hc.ofPromises rfl, Grows.ofTimers rfl⟩
  | setLatch l => exact ⟨hc.ofPromises rfl, Grows.ofTimers rfl⟩
  | newArray => exact ⟨hc.ofPromises rfl, Grows.ofTimers rfl⟩
  | newCounter => exact ⟨hc.ofPromises rfl, Grows.ofTimers rfl⟩
  | store a i v => exact ⟨hc.ofPromises rfl, Grows.ofTimers rfl⟩
  | bump c => exact ⟨hc.ofPromises rfl, Grows.ofTimers rfl⟩
  | call id arg lg _ hid => exact ⟨hc.ofPromises rfl, Grows.ofTimers rfl⟩
  | thenRead x => exact ⟨hc.ofPromises rfl, Grows.ofTimers rfl⟩
  | uncaught e => exact ⟨hc.ofPromises rfl, Grows.ofTimers rfl⟩

theorem Steps.keepsClean {F : Nat → Bool} {s s1 : State} (h : Steps F s s1)
    (hc : CleanHeap F s) : CleanHeap F s1 ∧ Grows F s s1 := by
  induction h with
  | refl => exact ⟨hc, Grows.none_added F s⟩
  | tail _ hp ih =>
    have h2 := hp.oneClean ih.1
    exact ⟨h2.1, ih.2.chain h2.2⟩

theorem Fires.persist {s s1 : State} {t : Task} {c : Nat × Val} (h : Fires s t c)
    (hf : Frame s s1) : Fires s1 t c := by
  obtain ⟨self, p2, r, hr, h⟩ := h
  refine ⟨self, p2, r, hf.1 self r hr ?_, h⟩
  rcases h with ⟨_, hs, _⟩ | ⟨_, hs, _⟩ <;> simp [hs]

theorem runHandler_user_eq (env : Env) (f : Nat) (arg : Val) (p2 : Nat) (s : State) :
    runHandler env (FnRef.user f) arg p2 s =
      match (env.userFn f s.log arg).2 with
      | Completion.normal x =>
        catchReject p2 (resolvePromise env p2 x (FnRef.resolveCap p2) (FnRef.rejectCap p2)
          (recordCall f arg (env.userFn f s.log arg).1 s))
      | Completion.throw e =>
        settleReject p2 e (recordCall f arg (env.userFn f s.log arg).1 s) := by
  unfold runHandler
  simp only [callFn]
  cases (env.userFn f s.log arg).2 <;> rfl

/-- Running a handler callback whose handler is a user function: the function is called,
and the rest is a sequence of primitive changes that involve no user function. -/
theorem runHandler_user (F : Nat → Bool) (env : Env) (f : Nat) (arg : Val) (p2 : Nat)
    (s : State) :
    Steps F (recordCall f arg (env.userFn f s.log arg).1 s)
      (runHandler env (FnRef.user f) arg p2 s) := by
  rw [runHandler_user_eq]
  split
  · exact (resolvePromise_steps F env p2 _ _ _ (by simp [FnRef.avoids])
      (by simp [FnRef.avoids]) _).andThen (catchReject_steps F p2 _)
  · exact Steps.one (Prim.settleReject _ _ _)

theorem runTask_fires (F : Nat → Bool) (env : Env) (t : Task) (c : Nat × Val) (s : State)
    (hf : Fires s t c) :
    Steps F (recordCall c.1 c.2 (env.userFn c.1 s.log c.2).1 s) (runTask env t s) := by
  obtain ⟨self, p2, r, hr, ⟨rfl, _, hv⟩ | ⟨rfl, _, hv⟩⟩ := hf
  · simp only [runTask, fieldValue, hr, hv]
    exact runHandler_user F env _ _ _ _
  · simp only [runTask, fieldReason, hr, hv]
    exact runHandler_user F env _ _ _ _

theorem Fires.all_frame {F : Nat → Bool} {s s1 : State} {ts : List Task}
    {cs : List (Nat × Val)}
    (h : List.Forall₂ (fun t c => F c.1 = true ∧ Fires s t c) ts cs) (hf : Frame s s1) :
    List.Forall₂ (fun t c => F c.1 = true ∧ Fires s1 t c) ts cs :=
  h.imp (fun _ _ hx => ⟨hx.1, hx.2.persist hf⟩)

/-- Draining a queue that consists of timers avoiding `F`, with the handler callbacks
`ts` somewhere in the middle: the calls of the functions of `F` are those of `ts`, in
order. -/
theorem drain_callsOf (F : Nat → Bool) (env : Env) :
    ∀ (fuel : Nat) (s s1 : State) (pre ts : List Task) (cs : List (Nat × Val))
      (post : List Task),
      CleanHeap F s → s.timers = pre ++ ts ++ post →
      (∀ t ∈ pre, t.avoids F = true) → (∀ t ∈ post, t.avoids F = true) →
      List.Forall₂ (fun t c => F c.1 = true ∧ Fires s t c) ts cs →
      drain env fuel s = some s1 → callsOf F s1 = callsOf F s ++ cs := by
  intro fuel
  induction fuel with
  | zero =>
    intro s s1 pre ts cs post _ ht _ _ hfs hd
    simp only [drain] at hd
    split at hd
    · next hnil =>
      simp only [Option.some.injEq] at hd
      subst hd
      rw [hnil] at ht
      have hts : ts = [] := by
        have := congrArg List.length ht
        simp only [List.length_nil, List.length_append] at this
        exact List.length_eq_zero.mp (by omega)
      subst hts
      cases hfs
      simp
    · simp at hd
  | succ n ih =>
    intro s s1 pre ts cs post hc ht hpre hpost hfs hd
    simp only [drain] at hd
    split at hd
    · next hnil =>
      simp only [Option.some.injEq] at hd
      subst hd
      rw [hnil] at ht
      have hts : ts = [] := by
        have := congrArg List.length ht
        simp only [List.length_nil, List.length_append] at this
        exact List.length_eq_zero.mp (by omega)
      subst hts
      cases hfs
      simp
    · next t rest hcons =>
      -- the first timer avoids `F`
      have hclean : t.avoids F = true → ∀ (pre1 ts1 : List Task) (cs1 : List (Nat × Val))
          (post1 : List Task), rest = pre1 ++ ts1 ++ post1 →
          (∀ t ∈ pre1, t.avoids F = true) → (∀ t ∈ post1, t.avoids F = true) →
          List.Forall₂ (fun t c => F c.1 = true ∧ Fires s t c) ts1 cs1 →
          callsOf F s1 = callsOf F s ++ cs1 := by
        intro hta pre1 ts1 cs1 post1 hrest hpre1 hpost1 hfs1
        have hst := runTask_steps F env t { s with timers := rest } hta
        have hcl := hst.keepsClean (hc.ofPromises rfl)
        obtain ⟨new, hnew, hnewc⟩ := hcl.2
        have hfr : Frame s (runTask env t { s with timers := rest }) :=
          (Frame.ofFields rfl rfl).comp hst.toFrame
        have := ih _ s1 pre1 ts1 cs1 (post1 ++ new) hcl.1
          (by rw [hnew]; simp [hrest]) hpre1
          (fun t ht => by
            rcases List.mem_append.mp ht with h | h
            · exact hpost1 t h
            · exact hnewc t h)
          (Fires.all_frame hfs1 hfr) hd
        rw [this, hst.keepsCalls]
        rfl
      cases pre with
      | cons t1 pre1 =>
        rw [hcons] at ht
        simp only [List.cons_append, List.cons.injEq] at ht
        obtain ⟨rfl, hrest⟩ := ht
        exact hclean (hpre t (by simp)) pre1 ts cs post hrest
          (fun t ht => hpre t (by simp [ht])) hpost hfs
      | nil =>
        cases hfs with
        | nil =>
          rw [hcons] at ht
          simp only [List.nil_append] at ht
          cases post with
          | nil => simp at ht
          | cons t1 post1 =>
            simp only [List.cons.injEq] at ht
            obtain ⟨rfl, hrest⟩ := ht
            exact hclean (hpost t (by simp)) post1 [] [] [] (by simp [hrest])
              (fun t ht => hpost t (by simp [ht])) (by simp) List.Forall₂.nil
        | @cons t1 c ts1 cs1 h1 hrest1 =>
          rw [hcons] at ht
          simp only [List.nil_append, List.cons_append, List.cons.injEq] at ht
          obtain ⟨rfl, hrest⟩ := ht
          have hfire : Fires { s with timers := rest } t c :=
            h1.2.persist (Frame.ofFields rfl rfl)
          have hst := runTask_fires F env t c _ hfire
          have hcl := hst.keepsClean (hc.ofPromises rfl)
          obtain ⟨new, hnew, hnewc⟩ := hcl.2
          have hfr : Frame s (runTask env t { s with timers := rest }) :=
            ((Frame.ofFields rfl rfl).comp (Frame.ofFields rfl rfl)).comp hst.toFrame
          have := ih _ s1 [] ts1 cs1 (post ++ new) hcl.1
            (by rw [hnew]; simp [recordCall, hrest]) (by simp)
            (fun t ht => by
              rcases List.mem_append.mp ht with h | h
              · exact hpost t h
              · exact hnewc t h)
            (Fires.all_frame hrest1 hfr) hd
          rw [this, hst.keepsCalls]
          simp [callsOf, recordCall, h1.1]

/-! ## What the library calls compute -/

theorem construct_noThrow (executor : Nat → State → State × Option Val) (s : State)
    (h : ∀ p s1, (executor p s1).2 = none) :
    MyPromise.construct executor s =
      ((allocPromise s).1, (executor (allocPromise s).1 (allocPromise s).2).1) := by
  unfold MyPromise.construct
  have h1 := h (allocPromise s).1 (allocPromise s).2
  split
  · next s2 heq => rw [heq]
  · next s2 err heq => rw [heq] at h1; simp at h1

theorem thenExecutor_noThrow (self : Nat) (onF onR : FnRef) (p2 : Nat) (s : State) :
    (MyPromise.thenExecutor self onF onR p2 s).2 = none := by
  unfold MyPromise.thenExecutor
  split
  · split <;> rfl
  · rfl

theorem set_concat_length {α : Type} (l : List α) (a b : α) :
    (l ++ [a]).set l.length b = l ++ [b] := by
  induction l with
  | nil => rfl
  | cons x xs ih => simp [ih]

theorem then_fulfilled (p : Nat) (a b : Val) (s : State) (r : PromiseRec)
    (hr : s.promises[p]? = some r) (hs : r.state = PState.fulfilled) :
    MyPromise.then_ p a b s =
      (s.promises.length,
        { s with
          promises := s.promises ++ [PromiseRec.fresh]
          timers := s.timers ++ [Task.fulfilledTask p (asOnFulfilled a) s.promises.length] }) := by
  have hlt : p < s.promises.length := (List.getElem?_eq_some.mp hr).1
  unfold MyPromise.then_
  rw [construct_noThrow _ _ (thenExecutor_noThrow _ _ _)]
  simp [MyPromise.thenExecutor, allocPromise, List.getElem?_append_left hlt, hr, hs, setTimeout]

theorem then_rejected (p : Nat) (a b : Val) (s : State) (r : PromiseRec)
    (hr : s.promises[p]? = some r) (hs : r.state = PState.rejected) :
    MyPromise.then_ p a b s =
      (s.promises.length,
        { s with
          promises := s.promises ++ [PromiseRec.fresh]
          timers := s.timers ++ [Task.rejectedTask p (asOnRejected b) s.promises.length] }) := by
  have hlt : p < s.promises.length := (List.getElem?_eq_some.mp hr).1
  unfold MyPromise.then_
  rw [construct_noThrow _ _ (thenExecutor_noThrow _ _ _)]
  simp [MyPromise.thenExecutor, allocPromise, List.getElem?_append_left hlt, hr, hs, setTimeout]

theorem then_pending (p : Nat) (a b : Val) (s : State) (r : PromiseRec)
    (hr : s.promises[p]? = some r) (hs : r.state = PState.pending) :
    MyPromise.then_ p a b s =
      (s.promises.length,
        { s with
          promises := (s.promises ++ [PromiseRec.fresh]).set p
            { r with
              onFulfilledCallbacks := r.onFulfilledCallbacks ++
                [Task.fulfilledTask p (asOnFulfilled a) s.promises.length]
              onRejectedCallbacks := r.onRejectedCallbacks ++
                [Task.rejectedTask p (asOnRejected b) s.promises.length] } }) := by
  have hlt : p < s.promises.length := (List.getElem?_eq_some.mp hr).1
  unfold MyPromise.then_
  rw [construct_noThrow _ _ (thenExecutor_noThrow _ _ _)]
  simp [MyPromise.thenExecutor, allocPromise, List.getElem?_append_left hlt, hr, hs,
    pushCallbacks]

theorem resolve_eq (v : Val) (s : State) :
    MyPromise.resolve v s =
      (s.promises.length,
        { s with promises := s.promises ++
            [PromiseRec.fulfilledWith v] }) := by
  unfold MyPromise.resolve
  rw [construct_noThrow _ _ (fun _ _ => rfl)]
  have h : (allocPromise s).2.promises[(allocPromise s).1]? = some PromiseRec.fresh := by
    simp [allocPromise]
  rw [settleResolve_pending _ _ _ _ h rfl]
  simp [allocPromise, set_concat_length, PromiseRec.fresh, PromiseRec.fulfilledWith,
    PromiseRec.rejectedWith]

theorem reject_eq (v : Val) (s : State) :
    MyPromise.reject v s =
      (s.promises.length,
        { s with promises := s.promises ++
            [PromiseRec.rejectedWith v] }) := by
  unfold MyPromise.reject
  rw [construct_noThrow _ _ (fun _ _ => rfl)]
  have h : (allocPromise s).2.promises[(allocPromise s).1]? = some PromiseRec.fresh := by
    simp [allocPromise]
  rw [settleReject_pending _ _ _ _ h rfl]
  simp [allocPromise, set_concat_length, PromiseRec.fresh, PromiseRec.fulfilledWith,
    PromiseRec.rejectedWith]

theorem CleanHeap.extend {F : Nat → Bool} {s : State} (hc : CleanHeap F s)
    (extra : List PromiseRec) (ts : List Task)
    (hx : ∀ r ∈ extra, r.state = PState.pending →
      r.onFulfilledCallbacks = [] ∧ r.onRejectedCallbacks = []) :
    CleanHeap F { s with promises := s.promises ++ extra, timers := ts } := by
  intro r hr hp
  rcases List.mem_append.mp hr with h | h
  · exact hc r h hp
  · obtain ⟨h1, h2⟩ := hx r h hp
    simp [h1, h2]

theorem drain_nil (env : Env) (fuel : Nat) (s : State) (h : s.timers = []) :
    drain env fuel s = some s := by
  cases fuel <;> simp [drain, h]

/-- The plain-value branch of the resolution procedure, for the capabilities of
`promise2`: the instance is resolved with `x` itself. -/
theorem resolvePromise_plain (env : Env) (p2 : Nat) (x : Val) (s : State)
    (hx : isPlain env x = true) :
    resolvePromise env p2 x (FnRef.resolveCap p2) (FnRef.rejectCap p2) s =
      (Completion.normal Val.undefined,
        settleResolve p2 x
          (if isObjectLike x then recordThenRead x (newLatch s).2 else (newLatch s).2)) := by
  have hne : x ≠ Val.promise p2 := by
    rintro rfl
    simp [isPlain, isObjectLike, readThen] at hx
  simp only [resolvePromise, hne, if_false]
  by_cases hobj : isObjectLike x = true
  · have hread : readThen env x = ThenValue.notFunction := by
      simpa [isPlain, hobj] using hx
    simp [hobj, rpTry, hread, callFn, discard]
  · simp [hobj, callFn, discard]

theorem getElem?_append_cons_length {α : Type} (l : List α) (a : α) (rest : List α) :
    (l ++ a :: rest)[l.length]? = some a := by
  rw [List.getElem?_append_right (Nat.le_refl _)]
  simp


theorem drain_cons (env : Env) (n : Nat) (s : State) (t : Task) (rest : List Task)
    (h : s.timers = t :: rest) :
    drain env (n + 1) s = drain env n (runTask env t { s with timers := rest }) := by
  simp only [drain]
  split
  · next hnil => rw [hnil] at h; cases h
  · next t1 rest1 hcons =>
    rw [hcons] at h
    cases h
    rfl

theorem fieldValue_eq (s : State) (p : Nat) (r : PromiseRec) (h : s.promises[p]? = some r) :
    fieldValue s p = r.value := by
  simp [fieldValue, h]

theorem fieldReason_eq (s : State) (p : Nat) (r : PromiseRec) (h : s.promises[p]? = some r) :
    fieldReason s p = r.reason := by
  simp [fieldReason, h]

/-- A handler that throws or returns a plain value settles `promise2` within its timer
callback. -/
theorem runHandler_direct (env : Env) (h : FnRef) (arg : Val) (p2 : Nat) (s s1 : State)
    (c : Completion) (hcall : callFn env h arg s = (c, s1))
    (hdir : settlesDirectly env c = true) :
    ∃ s2, runHandler env h arg p2 s = settleWith c p2 s2 ∧ SameVisible s1 s2 := by
  unfold runHandler
  rw [hcall]
  cases c with
  | throw e => exact ⟨s1, rfl, rfl, rfl, rfl, rfl, rfl⟩
  | normal x =>
    simp only
    rw [resolvePromise_plain env p2 x s1 hdir]
    refine ⟨_, rfl, ?_⟩
    split <;> exact ⟨rfl, rfl, rfl, rfl, rfl⟩

/-! ## The queue is always drained -/

theorem heapCount_append (P : Task → Bool) (a b : List PromiseRec) :
    heapCount P (a ++ b) = heapCount P a + heapCount P b := by
  induction a with
  | nil => simp [heapCount]
  | cons r rs ih => simp [heapCount, ih, Nat.add_assoc]

theorem heapCount_set (P : Task → Bool) (ps : List PromiseRec) :
    ∀ (p : Nat) (r r1 : PromiseRec), ps[p]? = some r →
      heapCount P (ps.set p r1) + r.waiting.countP P =
        heapCount P ps + r1.waiting.countP P := by
  induction ps with
  | nil => intro p r r1 h; simp at h
  | cons q qs ih =>
    intro p r r1 h
    cases p with
    | zero =>
      simp only [List.getElem?_cons_zero, Option.some.injEq] at h
      subst h
      simp only [List.set_cons_zero, heapCount]
      omega
    | succ n =>
      simp only [List.getElem?_cons_succ] at h
      have := ih n r r1 h
      simp only [List.set_cons_succ, heapCount]
      omega

theorem settleResolve_work (P : Task → Bool) (p : Nat) (v : Val) (s : State) :
    workCount P (settleResolve p v s) ≤ workCount P s := by
  unfold settleResolve
  split
  · next r hr =>
    split
    · next hs =>
      have h := heapCount_set P s.promises p r
        { r with state := PState.fulfilled, value := v } hr
      simp only [workCount, runCallbacks, List.countP_append]
      simp only [PromiseRec.waiting, hs, if_true, List.countP_append] at h
      simp at h
      omega
    · exact Nat.le_refl _
  · exact Nat.le_refl _

theorem settleReject_work (P : Task → Bool) (p : Nat) (v : Val) (s : State) :
    workCount P (settleReject p v s) ≤ workCount P s := by
  unfold settleReject
  split
  · next r hr =>
    split
    · next hs =>
      have h := heapCount_set P s.promises p r
        { r with state := PState.rejected, reason := v } hr
      simp only [workCount, runCallbacks, List.countP_append]
      simp only [PromiseRec.waiting, hs, if_true, List.countP_append] at h
      simp at h
      omega
    · exact Nat.le_refl _
  · exact Nat.le_refl _

theorem discard_work (P : Task → Bool) (r : Completion × State) :
    workCount P (discard r).2 = workCount P r.2 := by
  rw [discard_snd]

/-- A call of a function value queues no timer that was not registered before. -/
theorem callFn_work (P : Task → Bool) (env : Env) (f : FnRef) :
    ∀ arg s, workCount P (callFn env f arg s).2 ≤ workCount P s := by
  induction f with
  | user id => intro arg s; exact Nat.le_refl _
  | identity => intro arg s; exact Nat.le_refl _
  | thrower => intro arg s; exact Nat.le_refl _
  | resolveCap p => intro arg s; exact settleResolve_work P p arg s
  | rejectCap p => intro arg s; exact settleReject_work P p arg s
  | rpResolve called p2 res rej _ _ =>
    intro arg s
    simp only [callFn]
    split <;> exact Nat.le_refl _
  | rpReject called rej ih =>
    intro arg s
    simp only [callFn]
    split
    · exact Nat.le_refl _
    · rw [discard_work]
      exact ih arg (setLatch called s)
  | allItem results completed length resolve index ih =>
    intro arg s
    simp only [callFn]
    split
    · rw [discard_work]
      exact ih _ _
    · exact Nat.le_refl _

theorem setTimeout_work (P : Task → Bool) (t : Task) (s : State) (h : P t = false) :
    workCount P (setTimeout t s) = workCount P s := by
  simp [workCount, setTimeout, List.countP_append, List.countP_cons, h]

theorem runActs_work (P : Task → Bool) (env : Env) (onF onR : FnRef)
    (hP : ∀ f a, P (Task.callback f a) = false) (acts : List TAct) :
    ∀ s, workCount P (runActs env onF onR acts s).2 ≤ workCount P s := by
  induction acts with
  | nil => intro s; exact Nat.le_refl _
  | cons a rest ih =>
    intro s
    cases a with
    | resolveNow y =>
      simp only [runActs]
      have h := callFn_work P env onF y s
      split
      · next v s1 heq =>
        rw [heq] at h
        exact Nat.le_trans (ih s1) h
      · exact h
    | rejectNow r =>
      simp only [runActs]
      have h := callFn_work P env onR r s
      split
      · next v s1 heq =>
        rw [heq] at h
        exact Nat.le_trans (ih s1) h
      · exact h
    | resolveLater y =>
      simp only [runActs]
      exact Nat.le_trans (ih _) (Nat.le_of_eq (setTimeout_work P _ s (hP _ _)))
    | rejectLater r =>
      simp only [runActs]
      exact Nat.le_trans (ih _) (Nat.le_of_eq (setTimeout_work P _ s (hP _ _)))

theorem runThenMethod_work (P : Task → Bool) (env : Env) (onF onR : FnRef)
    (hP : ∀ f a, P (Task.callback f a) = false) (acts : List TAct) (throws : Option Val)
    (s : State) : workCount P (runThenMethod env acts throws onF onR s).2 ≤ workCount P s := by
  have h := runActs_work P env onF onR hP acts s
  unfold runThenMethod
  split
  · next v s1 heq =>
    rw [heq] at h
    split <;> exact h
  · exact h

/-- A call of `then` with handlers that are closures of the library adds no timer of the
kind `P`, when `P` holds of no timer with such a handler. -/
theorem then_work (P : Task → Bool) (q : Nat) (a b : Val) (s : State)
    (ha : ∀ p2, P (Task.fulfilledTask q (asOnFulfilled a) p2) = false)
    (hb : ∀ p2, P (Task.rejectedTask q (asOnRejected b) p2) = false) :
    workCount P (MyPromise.then_ q a b s).2 ≤ workCount P s := by
  unfold MyPromise.then_
  rw [construct_noThrow _ _ (thenExecutor_noThrow _ _ _)]
  have halloc : workCount P (allocPromise s).2 = workCount P s := by
    simp [workCount, allocPromise, heapCount_append, heapCount, PromiseRec.waiting,
      PromiseRec.fresh]
  rw [← halloc]
  generalize (allocPromise s).2 = s1
  generalize (allocPromise s).1 = p2
  unfold MyPromise.thenExecutor
  split
  · next r hr =>
    split
    · exact Nat.le_of_eq (setTimeout_work P _ s1 (ha p2))
    · exact Nat.le_of_eq (setTimeout_work P _ s1 (hb p2))
    · next hs =>
      unfold pushCallbacks
      rw [hr]
      have h := heapCount_set P s1.promises q r
        { r with
          onFulfilledCallbacks := r.onFulfilledCallbacks ++
            [Task.fulfilledTask q (asOnFulfilled a) p2]
          onRejectedCallbacks := r.onRejectedCallbacks ++
            [Task.rejectedTask q (asOnRejected b) p2] } hr
      have hw : (PromiseRec.waiting
          { r with
            onFulfilledCallbacks := r.onFulfilledCallbacks ++
              [Task.fulfilledTask q (asOnFulfilled a) p2]
            onRejectedCallbacks := r.onRejectedCallbacks ++
              [Task.rejectedTask q (asOnRejected b) p2] }).countP P = r.waiting.countP P := by
        simp [PromiseRec.waiting, hs, List.countP_append, List.countP_cons, ha p2, hb p2]
      rw [hw] at h
      simp only [workCount]
      omega
  · exact Nat.le_refl _

theorem rpTry_high (env : Env) (called p2 : Nat) (x : Val) (res rej : FnRef) (s : State) :
    workCount Task.high (rpTry env called p2 x res rej s).2 ≤ workCount Task.high s := by
  unfold rpTry
  split
  · exact Nat.le_refl _
  · exact then_work Task.high _ _ _ _ (fun _ => rfl) (fun _ => rfl)
  · exact runThenMethod_work Task.high env _ _ (fun _ _ => rfl) _ _ _
  · exact callFn_work Task.high env res x _

theorem rpCatch_work (P : Task → Bool) (env : Env) (called : Nat) (rej : FnRef) (e : Val)
    (s : State) : workCount P (rpCatch env called rej e s).2 ≤ workCount P s := by
  unfold rpCatch
  split
  · exact Nat.le_refl _
  · rw [discard_work]
    exact callFn_work P env rej e _

/-- The resolution procedure queues and registers only timers that are not high. -/
theorem resolvePromise_high (env : Env) (p2 : Nat) (x : Val) (res rej : FnRef) (s : State) :
    workCount Task.high (resolvePromise env p2 x res rej s).2 ≤ workCount Task.high s := by
  unfold resolvePromise
  split
  · exact callFn_work Task.high env rej _ s
  · split
    · have h := rpTry_high env (newLatch s).1 p2 x res rej (newLatch s).2
      split
      · next e s2 heq =>
        rw [heq] at h
        exact Nat.le_trans (rpCatch_work Task.high env _ rej e s2) h
      · rw [discard_work]
        exact h
    · rw [discard_work]
      exact callFn_work Task.high env res x _

theorem catchReject_work (P : Task → Bool) (p2 : Nat) (r : Completion × State) :
    workCount P (catchReject p2 r) ≤ workCount P r.2 := by
  unfold catchReject
  split
  · exact settleReject_work P p2 _ _
  · exact Nat.le_refl _

theorem runHandler_high (env : Env) (h : FnRef) (arg : Val) (p2 : Nat) (s : State) :
    workCount Task.high (runHandler env h arg p2 s) ≤ workCount Task.high s := by
  have hc := callFn_work Task.high env h arg s
  unfold runHandler
  split
  · next x s1 heq =>
    rw [heq] at hc
    exact Nat.le_trans (catchReject_work Task.high p2 _)
      (Nat.le_trans (resolvePromise_high env p2 x _ _ s1) hc)
  · exact Nat.le_trans (catchReject_work Task.high p2 _) hc

/-- A closure of the library returns `undefined` when it returns. -/
theorem callFn_returns_undefined (env : Env) (f : FnRef) (hf : f.returnsValue = false)
    (arg x : Val) (s s1 : State) (h : callFn env f arg s = (Completion.normal x, s1)) :
    x = Val.undefined := by
  cases f with
  | user id => simp [FnRef.returnsValue] at hf
  | identity => simp [FnRef.returnsValue] at hf
  | thrower => simp [callFn] at h
  | resolveCap p =>
    simp only [callFn, Prod.mk.injEq, Completion.normal.injEq] at h
    exact h.1.symm
  | rejectCap p =>
    simp only [callFn, Prod.mk.injEq, Completion.normal.injEq] at h
    exact h.1.symm
  | rpResolve called q res rej =>
    simp only [callFn] at h
    split at h <;>
    · simp only [Prod.mk.injEq, Completion.normal.injEq] at h
      exact h.1.symm
  | rpReject called rej =>
    simp only [callFn] at h
    split at h
    · simp only [Prod.mk.injEq, Completion.normal.injEq] at h
      exact h.1.symm
    · generalize callFn env rej arg (setLatch called s) = r at h
      obtain ⟨c, s2⟩ := r
      cases c <;> simp [discard] at h
      exact h.1.symm
  | allItem results completed length resolve index =>
    simp only [callFn] at h
    split at h
    · generalize callFn env resolve _ _ = r at h
      obtain ⟨c, s2⟩ := r
      cases c <;> simp [discard] at h
      exact h.1.symm
    · simp only [Prod.mk.injEq, Completion.normal.injEq] at h
      exact h.1.symm

/-- A handler that is a closure of the library: running it adds no timer at all. -/
theorem runHandler_low (P : Task → Bool) (env : Env) (h : FnRef) (hlow : h.returnsValue = false)
    (arg : Val) (p2 : Nat) (s : State) :
    workCount P (runHandler env h arg p2 s) ≤ workCount P s := by
  have hc := callFn_work P env h arg s
  unfold runHandler
  split
  · next x s1 heq =>
    rw [heq] at hc
    have hx := callFn_returns_undefined env h hlow arg x s s1 heq
    subst hx
    refine Nat.le_trans (catchReject_work P p2 _) (Nat.le_trans ?_ hc)
    simp only [resolvePromise, isObjectLike]
    rw [if_neg (by simp), if_neg (by simp), discard_work]
    exact callFn_work P env _ _ _
  · exact Nat.le_trans (catchReject_work P p2 _) hc

theorem runTask_high (env : Env) (t : Task) (s : State) :
    workCount Task.high (runTask env t s) ≤ workCount Task.high s := by
  cases t with
  | fulfilledTask self h p2 => exact runHandler_high env h _ p2 s
  | rejectedTask self h p2 => exact runHandler_high env h _ p2 s
  | callback f arg =>
    have hc := callFn_work Task.high env f arg s
    simp only [runTask]
    split
    · next v s1 heq => rw [heq] at hc; exact hc
    · next e s1 heq => rw [heq] at hc; exact hc

theorem runTask_low (P : Task → Bool) (env : Env) (t : Task) (ht : t.high = false)
    (s : State) : workCount P (runTask env t s) ≤ workCount P s := by
  cases t with
  | fulfilledTask self h p2 => exact runHandler_low P env h ht _ p2 s
  | rejectedTask self h p2 => exact runHandler_low P env h ht _ p2 s
  | callback f arg =>
    have hc := callFn_work P env f arg s
    simp only [runTask]
    split
    · next v s1 heq => rw [heq] at hc; exact hc
    · next e s1 heq => rw [heq] at hc; exact hc

theorem workCount_cons (P : Task → Bool) (s : State) (t : Task) (rest : List Task)
    (h : s.timers = t :: rest) :
    workCount P s = workCount P { s with timers := rest } + (if P t then 1 else 0) := by
  simp only [workCount, h, List.countP_cons]
  omega

theorem drain_returns_aux (env : Env) :
    ∀ (n m : Nat) (s : State), workCount Task.high s = n → workCount (fun _ => true) s = m →
      ∃ fuel s3, drain env fuel s = some s3 := by
  intro n
  induction n using Nat.strong_induction_on with
  | _ n ihn =>
    intro m
    induction m using Nat.strong_induction_on with
    | _ m ihm =>
      intro s hn hm
      cases hq : s.timers with
      | nil => exact ⟨0, s, drain_nil env 0 s hq⟩
      | cons t rest =>
        have hh := workCount_cons Task.high s t rest hq
        have ha := workCount_cons (fun _ => true) s t rest hq
        have h1 := runTask_high env t { s with timers := rest }
        have step : ∃ fuel s3,
            drain env fuel (runTask env t { s with timers := rest }) = some s3 := by
          cases ht : t.high with
          | true =>
            rw [ht] at hh
            exact ihn _ (by simp at hh; omega) _ _ rfl rfl
          | false =>
            rw [ht] at hh
            have h2 := runTask_low (fun _ => true) env t ht { s with timers := rest }
            simp at hh ha
            rcases Nat.lt_or_ge (workCount Task.high (runTask env t { s with timers := rest }))
              n with hlt | hge
            · exact ihn _ hlt _ _ rfl rfl
            · exact ihm _ (by omega) _ (by omega) rfl
        obtain ⟨fuel, s3, hd⟩ := step
        exact ⟨fuel + 1, s3, by rw [drain_cons env fuel s t rest hq]; exact hd⟩

/-- More fuel does not change the result of a drain that returned. -/
theorem drain_more (env : Env) (fuel : Nat) :
    ∀ (s s3 : State), drain env fuel s = some s3 → ∀ k, drain env (fuel + k) s = some s3 := by
  induction fuel with
  | zero =>
    intro s s3 h k
    simp only [drain] at h
    split at h
    · next hq =>
      rw [drain_nil env _ s hq]
      exact h
    · cases h
  | succ n ih =>
    intro s s3 h k
    cases hq : s.timers with
    | nil =>
      rw [drain_nil env _ s hq] at h
      rw [drain_nil env _ s hq]
      exact h
    | cons t rest =>
      rw [drain_cons env n s t rest hq] at h
      rw [show n + 1 + k = (n + k) + 1 by omega, drain_cons env (n + k) s t rest hq]
      exact ih _ _ h k

/-- The host loop always empties the queue: from every state, the drain returns for
every sufficiently large fuel, and with the same final state. -/
theorem drain_returns (env : Env) (s : State) :
    ∃ fuel s3, ∀ k, drain env (fuel + k) s = some s3 := by
  obtain ⟨fuel, s3, h⟩ := drain_returns_aux env _ _ s rfl rfl
  exact ⟨fuel, s3, drain_more env fuel s s3 h⟩

/-! ## Timers that cannot settle an instance leave it as it is -/

theorem Apart.rfl_same (a : Nat) (s : State) : Apart a s s :=
  fun _ hq => ⟨Nat.le_refl _, rfl, hq, [], by simp, by simp⟩

theorem Apart.seq {a : Nat} {s s1 s2 : State} (h1 : Apart a s s1) (h2 : Apart a s1 s2) :
    Apart a s s2 := by
  intro ha hq
  obtain ⟨hl1, hc1, hq1, new1, ht1, hn1⟩ := h1 ha hq
  obtain ⟨hl2, hc2, hq2, new2, ht2, hn2⟩ := h2 (Nat.lt_of_lt_of_le ha hl1) hq1
  refine ⟨Nat.le_trans hl1 hl2, hc2.trans hc1, hq2, new1 ++ new2, ?_, ?_⟩
  · rw [ht2, ht1, List.append_assoc]
  · intro t ht
    rcases List.mem_append.mp ht with h | h
    · exact hn1 t h
    · exact hn2 t h

/-- A change of fields other than the heap and the queue. -/
theorem Apart.ofSame {a : Nat} {s s1 : State} (hp : s1.promises = s.promises)
    (ht : s1.timers = s.timers) : Apart a s s1 := by
  intro _ hq
  refine ⟨by rw [hp], by simp [coreOf, hp], ?_, [], by simp [ht], by simp⟩
  intro r hr
  rw [hp] at hr
  exact hq r hr

theorem allocPromise_apart (a : Nat) (s : State) : Apart a s (allocPromise s).2 := by
  intro ha hq
  refine ⟨by simp [allocPromise], ?_, ?_, [], by simp [allocPromise], by simp⟩
  · simp [coreOf, allocPromise, List.getElem?_append_left ha]
  · intro r hr
    simp only [allocPromise, List.mem_append, List.mem_singleton] at hr
    rcases hr with h | h
    · exact hq r h
    · subst h
      simp [PromiseRec.fresh]

theorem setTimeout_apart (a : Nat) (t : Task) (s : State) (h : t.settles a = false) :
    Apart a s (setTimeout t s) := by
  intro _ hq
  exact ⟨Nat.le_refl _, rfl, hq, [t], rfl, by simpa using h⟩

theorem mem_set_cases {α : Type} (l : List α) (p : Nat) (x y : α) (h : y ∈ l.set p x) :
    y = x ∨ y ∈ l := by
  rcases List.mem_or_eq_of_mem_set h with h1 | h1
  · exact Or.inr h1
  · exact Or.inl h1

theorem settleResolve_apart (a p : Nat) (v : Val) (s : State) (hp : p ≠ a) :
    Apart a s (settleResolve p v s) := by
  unfold settleResolve
  split
  · next r hr =>
    split
    · intro ha hq
      refine ⟨by simp [runCallbacks], ?_, ?_, r.onFulfilledCallbacks, rfl, ?_⟩
      · simp [coreOf, runCallbacks, List.getElem?_set_ne hp]
      · intro m hm
        simp only [runCallbacks] at hm
        rcases mem_set_cases _ _ _ _ hm with h | h
        · subst h
          exact hq r (List.getElem?_mem hr)
        · exact hq m h
      · intro t ht
        exact hq r (List.getElem?_mem hr) t (List.mem_append_left _ ht)
    · exact Apart.rfl_same a s
  · exact Apart.rfl_same a s

theorem settleReject_apart (a p : Nat) (v : Val) (s : State) (hp : p ≠ a) :
    Apart a s (settleReject p v s) := by
  unfold settleReject
  split
  · next r hr =>
    split
    · intro ha hq
      refine ⟨by simp [runCallbacks], ?_, ?_, r.onRejectedCallbacks, rfl, ?_⟩
      · simp [coreOf, runCallbacks, List.getElem?_set_ne hp]
      · intro m hm
        simp only [runCallbacks] at hm
        rcases mem_set_cases _ _ _ _ hm with h | h
        · subst h
          exact hq r (List.getElem?_mem hr)
        · exact hq m h
      · intro t ht
        exact hq r (List.getElem?_mem hr) t (List.mem_append_right _ ht)
    · exact Apart.rfl_same a s
  · exact Apart.rfl_same a s

theorem pushCallbacks_apart (a p : Nat) (ta tb : Task) (s : State)
    (hta : ta.settles a = false) (htb : tb.settles a = false) :
    Apart a s (pushCallbacks p ta tb s) := by
  unfold pushCallbacks
  split
  · next r hr =>
    intro ha hq
    refine ⟨by simp, ?_, ?_, [], by simp, by simp⟩
    · by_cases hpa : p = a
      · subst hpa
        simp [coreOf, hr, List.getElem?_set_self (List.getElem?_eq_some.mp hr).1]
      · simp [coreOf, List.getElem?_set_ne hpa]
    · intro m hm
      rcases mem_set_cases _ _ _ _ hm with h | h
      · subst h
        intro t ht
        have hr0 := hq r (List.getElem?_mem hr)
        simp only [List.mem_append, List.mem_singleton] at ht hr0
        rcases ht with (h1 | h1) | (h1 | h1)
        · exact hr0 t (Or.inl h1)
        · rw [h1]; exact hta
        · exact hr0 t (Or.inr h1)
        · rw [h1]; exact htb
      · exact hq m h
  · exact Apart.rfl_same a s

theorem discard_apart {a : Nat} {s : State} {r : Completion × State} (h : Apart a s r.2) :
    Apart a s (discard r).2 := by
  rw [discard_snd]
  exact h

/-- A call of a closure that holds no capability of `a`. -/
theorem callFn_apart (a : Nat) (env : Env) (f : FnRef) :
    ∀ arg s, f.settles a = false → Apart a s (callFn env f arg s).2 := by
  induction f with
  | user id => intro arg s _; exact Apart.ofSame rfl rfl
  | identity => intro arg s _; exact Apart.rfl_same a s
  | thrower => intro arg s _; exact Apart.rfl_same a s
  | resolveCap p =>
    intro arg s h
    exact settleResolve_apart a p arg s (by simpa [FnRef.settles] using h)
  | rejectCap p =>
    intro arg s h
    exact settleReject_apart a p arg s (by simpa [FnRef.settles] using h)
  | rpResolve called p2 res rej _ _ =>
    intro arg s _
    simp only [callFn]
    split
    · exact Apart.rfl_same a s
    · exact Apart.ofSame rfl rfl
  | rpReject called rej ih =>
    intro arg s h
    simp only [callFn]
    split
    · exact Apart.rfl_same a s
    · have h0 : Apart a s (setLatch called s) := Apart.ofSame rfl rfl
      exact discard_apart (h0.seq (ih arg (setLatch called s) h))
  | allItem results completed length resolve index ih =>
    intro arg s h
    simp only [callFn]
    split
    · have h0 : Apart a s (bumpCounter completed (storeResult results index arg s)) :=
        Apart.ofSame rfl rfl
      exact discard_apart (h0.seq (ih _ _ h))
    · exact Apart.ofSame rfl rfl

theorem runActs_apart (a : Nat) (env : Env) (onF onR : FnRef)
    (hF : onF.settles a = false) (hR : onR.settles a = false) (acts : List TAct) :
    ∀ s, Apart a s (runActs env onF onR acts s).2 := by
  induction acts with
  | nil => intro s; exact Apart.rfl_same a s
  | cons act rest ih =>
    intro s
    cases act with
    | resolveNow y =>
      simp only [runActs]
      have h := callFn_apart a env onF y s hF
      split
      · next v s1 heq =>
        rw [heq] at h
        exact h.seq (ih s1)
      · exact h
    | rejectNow r =>
      simp only [runActs]
      have h := callFn_apart a env onR r s hR
      split
      · next v s1 heq =>
        rw [heq] at h
        exact h.seq (ih s1)
      · exact h
    | resolveLater y =>
      simp only [runActs]
      exact (setTimeout_apart a (Task.callback onF y) s hF).seq (ih _)
    | rejectLater r =>
      simp only [runActs]
      exact (setTimeout_apart a (Task.callback onR r) s hR).seq (ih _)

theorem runThenMethod_apart (a : Nat) (env : Env) (onF onR : FnRef)
    (hF : onF.settles a = false) (hR : onR.settles a = false) (acts : List TAct)
    (throws : Option Val) (s : State) :
    Apart a s (runThenMethod env acts throws onF onR s).2 := by
  have h := runActs_apart a env onF onR hF hR acts s
  unfold runThenMethod
  split
  · next v s1 heq =>
    rw [heq] at h
    split <;> exact h
  · exact h

/-- A call of `then` with handlers that hold no capability of `a`: the instance it
returns is a new one. -/
theorem then_apart (a q : Nat) (x y : Val) (s : State)
    (hx : (asOnFulfilled x).settles a = false) (hy : (asOnRejected y).settles a = false) :
    Apart a s (MyPromise.then_ q x y s).2 := by
  intro ha hq
  have hne : s.promises.length ≠ a := Nat.ne_of_gt ha
  have h2 : Apart a (allocPromise s).2
      (MyPromise.thenExecutor q (asOnFulfilled x) (asOnRejected y) (allocPromise s).1
        (allocPromise s).2).1 := by
    have hta : (Task.fulfilledTask q (asOnFulfilled x) (allocPromise s).1).settles a = false := by
      simp [Task.settles, hx, allocPromise, hne]
    have htb : (Task.rejectedTask q (asOnRejected y) (allocPromise s).1).settles a = false := by
      simp [Task.settles, hy, allocPromise, hne]
    unfold MyPromise.thenExecutor
    split
    · split
      · exact setTimeout_apart a _ _ hta
      · exact setTimeout_apart a _ _ htb
      · exact pushCallbacks_apart a q _ _ _ hta htb
    · exact Apart.rfl_same a _
  unfold MyPromise.then_
  rw [construct_noThrow _ _ (thenExecutor_noThrow _ _ _)]
  exact ((allocPromise_apart a s).seq h2) ha hq

theorem rpTry_apart (a : Nat) (env : Env) (called p2 : Nat) (x : Val) (res rej : FnRef)
    (hres : res.settles a = false) (hrej : rej.settles a = false) (s : State) :
    Apart a s (rpTry env called p2 x res rej s).2 := by
  have h0 : Apart a s (recordThenRead x s) := Apart.ofSame rfl rfl
  have hF : (FnRef.rpResolve called p2 res rej).settles a = false := by
    simp [FnRef.settles, hres, hrej]
  have hR : (FnRef.rpReject called rej).settles a = false := by
    simp [FnRef.settles, hrej]
  unfold rpTry
  split
  · exact h0
  · next q _ =>
    exact h0.seq (then_apart a q (Val.fn (FnRef.rpResolve called p2 res rej))
      (Val.fn (FnRef.rpReject called rej)) _ hF hR)
  · exact h0.seq (runThenMethod_apart a env _ _ hF hR _ _ _)
  · exact h0.seq (callFn_apart a env res x _ hres)

theorem rpCatch_apart (a : Nat) (env : Env) (called : Nat) (rej : FnRef) (e : Val)
    (hrej : rej.settles a = false) (s : State) :
    Apart a s (rpCatch env called rej e s).2 := by
  unfold rpCatch
  split
  · exact Apart.rfl_same a s
  · have h0 : Apart a s (setLatch called s) := Apart.ofSame rfl rfl
    exact discard_apart (h0.seq (callFn_apart a env rej e _ hrej))

theorem resolvePromise_apart (a : Nat) (env : Env) (p2 : Nat) (x : Val) (res rej : FnRef)
    (hres : res.settles a = false) (hrej : rej.settles a = false) (s : State) :
    Apart a s (resolvePromise env p2 x res rej s).2 := by
  have h0 : Apart a s (newLatch s).2 := Apart.ofSame rfl rfl
  unfold resolvePromise
  split
  · exact callFn_apart a env rej _ s hrej
  · split
    · have h : Apart a s (rpTry env (newLatch s).1 p2 x res rej (newLatch s).2).2 :=
        h0.seq (rpTry_apart a env _ p2 x res rej hres hrej _)
      split
      · next e s2 heq =>
        rw [heq] at h
        exact h.seq (rpCatch_apart a env _ rej e hrej s2)
      · exact discard_apart h
    · exact discard_apart (h0.seq (callFn_apart a env res x _ hres))

theorem catchReject_apart (a p2 : Nat) (hp : p2 ≠ a) (r : Completion × State) :
    Apart a r.2 (catchReject p2 r) := by
  unfold catchReject
  split
  · exact settleReject_apart a p2 _ _ hp
  · exact Apart.rfl_same a _

theorem runHandler_apart (a : Nat) (env : Env) (h : FnRef) (arg : Val) (p2 : Nat) (s : State)
    (hh : h.settles a = false) (hp : p2 ≠ a) : Apart a s (runHandler env h arg p2 s) := by
  have hc := callFn_apart a env h arg s hh
  unfold runHandler
  split
  · next x s1 heq =>
    rw [heq] at hc
    exact (hc.seq (resolvePromise_apart a env p2 x _ _ (by simp [FnRef.settles, hp])
      (by simp [FnRef.settles, hp]) s1)).seq (catchReject_apart a p2 hp _)
  · exact hc.seq (catchReject_apart a p2 hp _)

/-- A timer that cannot settle the instance at `a` leaves it as it is. -/
theorem runTask_apart (a : Nat) (env : Env) (t : Task) (s : State)
    (ht : t.settles a = false) : Apart a s (runTask env t s) := by
  cases t with
  | fulfilledTask self h p2 =>
    simp only [Task.settles, Bool.or_eq_false_iff, decide_eq_false_iff_not] at ht
    exact runHandler_apart a env h _ p2 s ht.1 ht.2
  | rejectedTask self h p2 =>
    simp only [Task.settles, Bool.or_eq_false_iff, decide_eq_false_iff_not] at ht
    exact runHandler_apart a env h _ p2 s ht.1 ht.2
  | callback f arg =>
    have hc := callFn_apart a env f arg s ht
    simp only [runTask]
    split
    · next v s1 heq => rw [heq] at hc; exact hc
    · next e s1 heq =>
      rw [heq] at hc
      have h1 : Apart a s1 (recordUncaught e s1) := Apart.ofSame rfl rfl
      exact hc.seq h1

theorem tick_nil (env : Env) (s : State) (h : s.timers = []) : tick env s = s := by
  simp [tick, h]

theorem tick_cons (env : Env) (s : State) (t : Task) (rest : List Task)
    (h : s.timers = t :: rest) : tick env s = runTask env t { s with timers := rest } := by
  simp [tick, h]

theorem drain_tick (env : Env) (n : Nat) (s : State) :
    drain env (n + 1) s = drain env n (tick env s) := by
  cases hq : s.timers with
  | nil => rw [tick_nil env s hq, drain_nil env _ s hq, drain_nil env _ s hq]
  | cons t rest => rw [tick_cons env s t rest hq, drain_cons env n s t rest hq]

/-- A drain is a number of single timer runs followed by a drain. -/
theorem drain_ticks (env : Env) (k : Nat) :
    ∀ (n : Nat) (s : State), drain env (n + k) s = drain env k (ticks env n s) := by
  intro n
  induction n with
  | zero => intro s; simp [ticks]
  | succ n ih =>
    intro s
    rw [show n + 1 + k = (n + k) + 1 by omega, drain_tick, ih]
    rfl

theorem ticks_succ (env : Env) :
    ∀ (n : Nat) (s : State), ticks env (n + 1) s = tick env (ticks env n s) := by
  intro n
  induction n with
  | zero => intro s; rfl
  | succ n ih =>
    intro s
    show ticks env (n + 1) (tick env s) = tick env (ticks env (n + 1) s)
    rw [ih (tick env s)]
    rfl

theorem tick_moves (env : Env) (s : State) : Moves s (tick env s) := by
  cases hq : s.timers with
  | nil => rw [tick_nil env s hq]; exact Relation.ReflTransGen.refl
  | cons t rest =>
    rw [tick_cons env s t rest hq]
    exact Relation.ReflTransGen.trans
      (Relation.ReflTransGen.single (Move.dequeue s t rest hq))
      (runTask_steps _ env t _ (by cases t <;> simp [Task.avoids, avoids_none])).moves

theorem ticks_moves (env : Env) : ∀ (n : Nat) (s : State), Moves s (ticks env n s) := by
  intro n
  induction n with
  | zero => intro s; exact Relation.ReflTransGen.refl
  | succ n ih => intro s; exact Relation.ReflTransGen.trans (tick_moves env s) (ih _)

theorem drain_moves (env : Env) :
    ∀ (n : Nat) (s s3 : State), drain env n s = some s3 → Moves s s3 := by
  intro n
  induction n with
  | zero =>
    intro s s3 h
    simp only [drain] at h
    split at h
    · cases h; exact Relation.ReflTransGen.refl
    · cases h
  | succ n ih =>
    intro s s3 h
    rw [drain_tick] at h
    exact Relation.ReflTransGen.trans (tick_moves env s) (ih _ _ h)

/-- Running the timers at the head of the queue, none of which can settle the instance
at `a`: the instance is as before, and the queue is what followed them, then new timers
that cannot settle it either. -/
theorem ticks_apart (a : Nat) (env : Env) (pre : List Task) :
    ∀ (rest : List Task) (s : State), s.timers = pre ++ rest →
      (∀ t ∈ pre, t.settles a = false) → a < s.promises.length → QuietHeap a s →
      coreOf (ticks env pre.length s) a = coreOf s a ∧
      QuietHeap a (ticks env pre.length s) ∧
      ∃ new, (ticks env pre.length s).timers = rest ++ new ∧
        ∀ t ∈ new, t.settles a = false := by
  induction pre with
  | nil =>
    intro rest s ht _ _ hq
    exact ⟨rfl, hq, [], by simp [ticks, ht], by simp⟩
  | cons t pre ih =>
    intro rest s ht hpre ha hq
    have hstep := runTask_apart a env t { s with timers := pre ++ rest }
      (hpre t (by simp)) ha hq
    obtain ⟨hlen, hcore, hq1, new1, ht1, hn1⟩ := hstep
    have htick : tick env s = runTask env t { s with timers := pre ++ rest } :=
      tick_cons env s t (pre ++ rest) (by simpa using ht)
    obtain ⟨hc2, hq2, new2, ht2, hn2⟩ := ih (rest ++ new1) (tick env s)
      (by rw [htick, ht1]; simp)
      (fun t1 h1 => hpre t1 (by simp [h1]))
      (by rw [htick]; exact Nat.lt_of_lt_of_le ha hlen)
      (by rw [htick]; exact hq1)
    refine ⟨?_, hq2, new1 ++ new2, ?_, ?_⟩
    · show coreOf (ticks env pre.length (tick env s)) a = coreOf s a
      rw [hc2, htick]
      exact hcore
    · show (ticks env pre.length (tick env s)).timers = rest ++ (new1 ++ new2)
      rw [ht2, List.append_assoc]
    · intro t1 h1
      rcases List.mem_append.mp h1 with h | h
      · exact hn1 t1 h
      · exact hn2 t1 h

theorem coreOf_settled_frame {s s1 : State} (hf : Frame s s1) (a : Nat)
    (c : PState × Val × Val) (hc : coreOf s a = some c) (hp : c.1 ≠ PState.pending) :
    coreOf s1 a = some c := by
  simp only [coreOf, Option.map_eq_some'] at hc
  obtain ⟨r, hr, hrc⟩ := hc
  have := hf.1 a r hr (by rw [← hrc] at hp; exact hp)
  simp [coreOf, this, hrc]

/-- The instance that a `then` call returns is settled by the timer that this call
queued (or registered), and by nothing else: when no callback or timer of the state
before the call can settle the new address, and the timer `T` that the call queues
settles the still pending instance with `target`, then the drain of the queue returns
and the instance is settled with `target` at the end. -/
theorem then_drain_core (env : Env) (s : State) (p : Nat) (r : PromiseRec) (a b : Val)
    (T : Task) (target : PState × Val × Val)
    (hr : s.promises[p]? = some r) (hsettled : r.state ≠ PState.pending)
    (hT : (MyPromise.then_ p a b s).2 =
      { s with promises := s.promises ++ [PromiseRec.fresh], timers := s.timers ++ [T] })
    (htarget : target.1 ≠ PState.pending)
    (hrun : ∀ s1, coreOf s1 s.promises.length =
        some (PState.pending, Val.undefined, Val.undefined) →
      s1.promises[p]? = some r → coreOf (runTask env T s1) s.promises.length = some target)
    (hheap : QuietHeap s.promises.length s) (hqueue : QuietQueue s.promises.length s) :
    ∃ fuel s3, (∀ k, drain env (fuel + k) (MyPromise.then_ p a b s).2 = some s3) ∧
      coreOf s3 s.promises.length = some target := by
  rw [hT]
  generalize hs0 : (⟨s.promises ++ [PromiseRec.fresh], s.latches, s.arrays, s.counters,
    s.timers ++ [T], s.log, s.calls, s.thenReads, s.uncaught⟩ : State) = s0
  have hprom0 : s0.promises = s.promises ++ [PromiseRec.fresh] := by rw [← hs0]
  have htim0 : s0.timers = s.timers ++ [T] := by rw [← hs0]
  have hlt : p < s.promises.length := (List.getElem?_eq_some.mp hr).1
  have hr0 : s0.promises[p]? = some r := by
    rw [hprom0, List.getElem?_append_left hlt]
    exact hr
  have hcore0 : coreOf s0 s.promises.length =
      some (PState.pending, Val.undefined, Val.undefined) := by
    simp [coreOf, hprom0, PromiseRec.fresh]
  have hq0 : QuietHeap s.promises.length s0 := by
    intro m hm
    rw [hprom0] at hm
    rcases List.mem_append.mp hm with h | h
    · exact hheap m h
    · simp only [List.mem_singleton] at h
      subst h
      simp [PromiseRec.fresh]
  obtain ⟨hc1, hq1, new, ht1, hn1⟩ := ticks_apart s.promises.length env s.timers [T] s0 htim0
    hqueue (by rw [hprom0]; simp) hq0
  have hr1 : (ticks env s.timers.length s0).promises[p]? = some r :=
    (ticks_moves env s.timers.length s0).runFrame.1 p r hr0 hsettled
  have htick : tick env (ticks env s.timers.length s0) =
      runTask env T { ticks env s.timers.length s0 with timers := new } :=
    tick_cons env _ T new (by simpa using ht1)
  have hcore2 : coreOf (ticks env (s.timers.length + 1) s0) s.promises.length = some target := by
    rw [ticks_succ, htick]
    exact hrun _ (by rw [← hcore0, ← hc1]; rfl) hr1
  obtain ⟨fuel, s3, hd⟩ := drain_returns env s0
  refine ⟨fuel, s3, hd, ?_⟩
  have hd2 := hd (s.timers.length + 1)
  rw [Nat.add_comm, drain_ticks] at hd2
  exact coreOf_settled_frame (drain_moves env _ _ _ hd2).runFrame _ _ hcore2 htarget

theorem settleWith_core (c : Completion) (p2 : Nat) (s : State)
    (h : coreOf s p2 = some (PState.pending, Val.undefined, Val.undefined)) :
    coreOf (settleWith c p2 s) p2 = some (coreAfter c) := by
  simp only [coreOf, Option.map_eq_some', Prod.mk.injEq] at h
  obtain ⟨r, hr, hs, hv, hrs⟩ := h
  have hlt := (List.getElem?_eq_some.mp hr).1
  cases c with
  | normal x =>
    simp only [settleWith, coreAfter]
    rw [settleResolve_pending _ _ _ _ hr hs]
    simp [coreOf, runCallbacks, List.getElem?_set_self hlt, hrs]
  | throw e =>
    simp only [settleWith, coreAfter]
    rw [settleReject_pending _ _ _ _ hr hs]
    simp [coreOf, runCallbacks, List.getElem?_set_self hlt, hv]

/-- The timer of a handler that throws or returns a plain value, run while `promise2` is
pending: `promise2` is settled with the completion of the handler. -/
theorem runHandler_core (env : Env) (h : FnRef) (arg : Val) (p2 : Nat) (s s1 : State)
    (c : Completion) (hcall : callFn env h arg s = (c, s1)) (hprom : s1.promises = s.promises)
    (hdir : settlesDirectly env c = true)
    (hcore : coreOf s p2 = some (PState.pending, Val.undefined, Val.undefined)) :
    coreOf (runHandler env h arg p2 s) p2 = some (coreAfter c) := by
  obtain ⟨s2, hrun, hp2, _⟩ := runHandler_direct env h arg p2 s s1 c hcall hdir
  rw [hrun]
  apply settleWith_core
  simp only [coreOf, hp2, hprom]
  exact hcore

theorem coreAfter_settled (c : Completion) : (coreAfter c).1 ≠ PState.pending := by
  cases c <;> simp [coreAfter]

/-! ## The claims -/

/-- C1: on an instance that is no longer pending, `resolve` and `reject` return normally
and change nothing at all; and whatever the program and the host do afterwards, that
settled instance keeps its state, value and reason (all its fields), so a state changes
at most once, and only away from `pending`. -/
theorem C1_settled_is_final (env : Env) (s : State) (p : Nat) (r : PromiseRec)
    (hr : s.promises[p]? = some r) (hs : r.state ≠ PState.pending) :
    (∀ arg, callFn env (FnRef.resolveCap p) arg s = (Completion.normal Val.undefined, s)) ∧
    (∀ arg, callFn env (FnRef.rejectCap p) arg s = (Completion.normal Val.undefined, s)) ∧
    (∀ ops, (runOps env ops s).promises[p]? = some r) := by
  refine ⟨fun arg => ?_, fun arg => ?_, fun ops => ?_⟩
  · simp [callFn, settleResolve_settled p arg s r hr hs]
  · simp [callFn, settleReject_settled p arg s r hr hs]
  · exact (runOps_moves env ops s).runFrame.1 p r hr hs

theorem C1_settled_is_final_witness :
    (MyPromise.reject (Val.str "boom") State.init).2.promises[0]? =
      some (PromiseRec.rejectedWith (Val.str "boom")) ∧
    callFn sampleEnv (FnRef.resolveCap 0) (Val.num 7)
        (MyPromise.reject (Val.str "boom") State.init).2 =
      (Completion.normal Val.undefined, (MyPromise.reject (Val.str "boom") State.init).2) ∧
    (runOps sampleEnv
        [Op.call (FnRef.resolveCap 0) (Val.num 7), Op.then_ 0 Val.undefined Val.undefined,
          Op.tick, Op.call (FnRef.rejectCap 0) (Val.num 8)]
        (MyPromise.reject (Val.str "boom") State.init).2).promises[0]? =
      some (PromiseRec.rejectedWith (Val.str "boom")) := by
  have h := C1_settled_is_final sampleEnv (MyPromise.reject (Val.str "boom") State.init).2 0
    (PromiseRec.rejectedWith (Val.str "boom")) (by decide) (by decide)
  exact ⟨by decide, h.1 (Val.num 7), h.2.2 _⟩

theorem runExecActs_later (this : Nat) (acts : List ExecAct) :
    ∀ s, (∀ a ∈ acts, a.settlesNow = false) →
      ∃ ts, runExecActs this acts s = { s with timers := s.timers ++ ts } := by
  induction acts with
  | nil => intro s _; exact ⟨[], by simp [runExecActs]⟩
  | cons a rest ih =>
    intro s h
    have hrest : ∀ a ∈ rest, a.settlesNow = false := fun a ha => h a (by simp [ha])
    have ha := h a (by simp)
    cases a with
    | resolve v => simp [ExecAct.settlesNow] at ha
    | reject r => simp [ExecAct.settlesNow] at ha
    | resolveLater v =>
      obtain ⟨ts, hts⟩ := ih (setTimeout (Task.callback (FnRef.resolveCap this) v) s) hrest
      refine ⟨Task.callback (FnRef.resolveCap this) v :: ts, ?_⟩
      simp only [runExecActs]
      rw [hts]
      simp [setTimeout]
    | rejectLater r =>
      obtain ⟨ts, hts⟩ := ih (setTimeout (Task.callback (FnRef.rejectCap this) r) s) hrest
      refine ⟨Task.callback (FnRef.rejectCap this) r :: ts, ?_⟩
      simp only [runExecActs]
      rw [hts]
      simp [setTimeout]

/-- C2: when the executor throws `e` and has not called `resolve` or `reject` before, the
constructor still gives an instance (at the next free address), and that instance is
rejected with reason `e` (its value stays `undefined`, its callback lists are empty). -/
theorem C2_executor_throw_rejects (ex : UserExecutor) (e : Val) (s : State)
    (hacts : ∀ a ∈ ex.acts, a.settlesNow = false) (hthrow : ex.throws = some e) :
    (MyPromise.construct ex.run s).1 = s.promises.length ∧
    (MyPromise.construct ex.run s).2.promises[s.promises.length]? =
      some (PromiseRec.rejectedWith e) := by
  obtain ⟨ts, hts⟩ := runExecActs_later (allocPromise s).1 ex.acts (allocPromise s).2 hacts
  have hrun : ex.run (allocPromise s).1 (allocPromise s).2 =
      ({ (allocPromise s).2 with timers := (allocPromise s).2.timers ++ ts }, some e) := by
    simp [UserExecutor.run, hts, hthrow]
  have hfresh : ({ (allocPromise s).2 with
      timers := (allocPromise s).2.timers ++ ts } : State).promises[(allocPromise s).1]? =
      some PromiseRec.fresh := by
    simp [allocPromise]
  unfold MyPromise.construct
  rw [hrun]
  simp only
  rw [settleReject_pending _ _ _ _ hfresh rfl]
  simp [allocPromise, set_concat_length, PromiseRec.fresh, PromiseRec.fulfilledWith,
    PromiseRec.rejectedWith]

theorem C2_executor_throw_rejects_witness :
    (∀ a ∈ [ExecAct.resolveLater (Val.num 1)], a.settlesNow = false) ∧
    (MyPromise.construct
      (UserExecutor.run ⟨[ExecAct.resolveLater (Val.num 1)], some (Val.str "oops")⟩)
      State.init).1 = 0 ∧
    (MyPromise.construct
      (UserExecutor.run ⟨[ExecAct.resolveLater (Val.num 1)], some (Val.str "oops")⟩)
      State.init).2.promises[0]? =
      some (PromiseRec.rejectedWith (Val.str "oops")) :=
  ⟨by decide,
    C2_executor_throw_rejects ⟨[ExecAct.resolveLater (Val.num 1)], some (Val.str "oops")⟩
      (Val.str "oops") State.init (by decide) rfl⟩

theorem then_shape (p : Nat) (a b : Val) (s : State) :
    ∃ ps ts, (MyPromise.then_ p a b s).2 = { s with promises := ps, timers := ts } := by
  unfold MyPromise.then_
  rw [construct_noThrow _ _ (thenExecutor_noThrow _ _ _)]
  unfold MyPromise.thenExecutor
  split
  · next r hr =>
    split
    · exact ⟨_, _, rfl⟩
    · exact ⟨_, _, rfl⟩
    · unfold pushCallbacks
      rw [hr]
      exact ⟨_, _, rfl⟩
  · exact ⟨_, _, rfl⟩

/-- C3: no user function runs during a call of `then` (in any state of the instance),
and none runs during the `resolve` or `reject` call that settles an instance: the trace
of calls and the log of the user are as before.  Handlers run when the host runs the
timers: after `p = MyPromise.resolve(1); p.then(() => log.push('x')); log.push('y')` the
log is `['y']` with no call made, and draining the queue makes it `['y', 'x']`. -/
theorem C3_handlers_run_later (env : Env) :
    (∀ p f g s, (MyPromise.then_ p f g s).2.calls = s.calls ∧
      (MyPromise.then_ p f g s).2.log = s.log) ∧
    (∀ p v s, (callFn env (FnRef.resolveCap p) v s).2.calls = s.calls ∧
      (callFn env (FnRef.resolveCap p) v s).2.log = s.log) ∧
    (∀ p v s, (callFn env (FnRef.rejectCap p) v s).2.calls = s.calls ∧
      (callFn env (FnRef.rejectCap p) v s).2.log = s.log) ∧
    ((runOps sampleEnv
        [Op.resolve (Val.num 1), Op.then_ 0 (Val.fn (FnRef.user 0)) Val.undefined,
          Op.say (Val.str "y")] State.init).log = [Val.str "y"] ∧
      (runOps sampleEnv
        [Op.resolve (Val.num 1), Op.then_ 0 (Val.fn (FnRef.user 0)) Val.undefined,
          Op.say (Val.str "y")] State.init).calls = []) ∧
    ∀ fuel,
      (drain sampleEnv (fuel + 1) (runOps sampleEnv
        [Op.resolve (Val.num 1), Op.then_ 0 (Val.fn (FnRef.user 0)) Val.undefined,
          Op.say (Val.str "y")] State.init)).map (fun s1 => (s1.log, s1.calls)) =
        some ([Val.str "y", Val.str "x"], [(0, Val.num 1)]) := by
  refine ⟨fun p f g s => ?_, fun p v s => ?_, fun p v s => ?_, by decide, ?_⟩
  · obtain ⟨ps, ts, h⟩ := then_shape p f g s
    rw [h]
    exact ⟨rfl, rfl⟩
  · obtain ⟨ps, ts, h⟩ := settleResolve_shape p v s
    simp only [callFn]
    rw [h]
    exact ⟨rfl, rfl⟩
  · obtain ⟨ps, ts, h⟩ := settleReject_shape p v s
    simp only [callFn]
    rw [h]
    exact ⟨rfl, rfl⟩
  · intro fuel
    cases fuel <;> rfl

theorem resolveThen_eq (v f : Val) (s : State) :
    resolveThen v f s =
      { s with
        promises := s.promises ++ [PromiseRec.fulfilledWith v, PromiseRec.fresh]
        timers := s.timers ++
          [Task.fulfilledTask s.promises.length (asOnFulfilled f) (s.promises.length + 1)] } := by
  unfold resolveThen
  rw [resolve_eq]
  rw [then_fulfilled _ _ _ _ (PromiseRec.fulfilledWith v) (by simp) rfl]
  simp

/-- C4: after `MyPromise.resolve(v).then(f)`, for every value `v` and every user function
`f` that is not already registered as a handler or queued in a timer, the drain of the
queue returns (for every sufficiently large fuel, with the same final state), and it has
added exactly one call of `f` to the trace, with the argument `v`. -/
theorem C4_resolve_then_calls_once (env : Env) (f : Nat) (v : Val) (s : State)
    (hheap : CleanHeap (fun i => decide (i = f)) s)
    (hqueue : CleanQueue (fun i => decide (i = f)) s) :
    ∃ fuel s3, (∀ k, drain env (fuel + k) (resolveThen v (Val.fn (FnRef.user f)) s) = some s3) ∧
      callsOf (fun i => decide (i = f)) s3 =
        callsOf (fun i => decide (i = f)) s ++ [(f, v)] := by
  obtain ⟨fuel, s3, hd⟩ := drain_returns env (resolveThen v (Val.fn (FnRef.user f)) s)
  refine ⟨fuel, s3, hd, ?_⟩
  have hd0 := hd 0
  rw [resolveThen_eq] at hd0
  have hclean := hheap.extend [PromiseRec.fulfilledWith v, PromiseRec.fresh]
    (s.timers ++ [Task.fulfilledTask s.promises.length (asOnFulfilled (Val.fn (FnRef.user f)))
      (s.promises.length + 1)])
    (by simp [PromiseRec.fresh, PromiseRec.fulfilledWith])
  have := drain_callsOf (fun i => decide (i = f)) env (fuel + 0) _ s3 s.timers
    [Task.fulfilledTask s.promises.length (FnRef.user f) (s.promises.length + 1)] [(f, v)] []
    hclean (by simp [asOnFulfilled]) hqueue (by simp)
    (List.Forall₂.cons ⟨by simp, ⟨s.promises.length, s.promises.length + 1,
      PromiseRec.fulfilledWith v, getElem?_append_cons_length _ _ _,
      Or.inl ⟨rfl, rfl, rfl⟩⟩⟩ List.Forall₂.nil) hd0
  rw [this]
  rfl

theorem C4_resolve_then_calls_once_witness :
    CleanHeap (fun i => decide (i = 0)) State.init ∧
    CleanQueue (fun i => decide (i = 0)) State.init ∧
    ∃ fuel s3,
      (∀ k, drain sampleEnv (fuel + k)
        (resolveThen (Val.num 1) (Val.fn (FnRef.user 0)) State.init) = some s3) ∧
      callsOf (fun i => decide (i = 0)) s3 =
        callsOf (fun i => decide (i = 0)) State.init ++ [(0, Val.num 1)] := by
  have hheap : CleanHeap (fun i => decide (i = 0)) State.init := by
    intro r hr
    simp [State.init] at hr
  have hqueue : CleanQueue (fun i => decide (i = 0)) State.init := by
    intro t ht
    simp [State.init] at ht
  exact ⟨hheap, hqueue,
    C4_resolve_then_calls_once sampleEnv 0 (Val.num 1) State.init hheap hqueue⟩


theorem then_pending_eq (p : Nat) (a b : Val) (s : State) (r : PromiseRec)
    (hr : s.promises[p]? = some r) (hs : r.state = PState.pending) :
    (MyPromise.then_ p a b s).2 =
      { s with
        promises := s.promises.set p
            (r.addCallbacks (Task.fulfilledTask p (asOnFulfilled a) s.promises.length)
              (Task.rejectedTask p (asOnRejected b) s.promises.length)) ++
          [PromiseRec.fresh] } := by
  have hlt : p < s.promises.length := (List.getElem?_eq_some.mp hr).1
  rw [then_pending p a b s r hr hs]
  simp [List.set_append_left _ _ hlt, PromiseRec.addCallbacks]

theorem getElem?_set_append_self {α : Type} (l rest : List α) (p : Nat) (x : α)
    (h : p < l.length) : (l.set p x ++ rest)[p]? = some x := by
  rw [List.getElem?_append_left (by simpa using h)]
  exact List.getElem?_set_self h

theorem set_set_append {α : Type} (l rest : List α) (p : Nat) (x y : α) (h : p < l.length) :
    (l.set p x ++ rest).set p y = l.set p y ++ rest := by
  rw [List.set_append_left _ _ (by simpa using h), List.set_set]

theorem settleResolve_pending_eq (p : Nat) (v : Val) (s : State) (r : PromiseRec)
    (hr : s.promises[p]? = some r) (hs : r.state = PState.pending) :
    settleResolve p v s =
      { s with
        promises := s.promises.set p (r.toFulfilled v)
        timers := s.timers ++ r.onFulfilledCallbacks } :=
  settleResolve_pending p v s r hr hs

theorem settleReject_pending_eq (p : Nat) (v : Val) (s : State) (r : PromiseRec)
    (hr : s.promises[p]? = some r) (hs : r.state = PState.pending) :
    settleReject p v s =
      { s with
        promises := s.promises.set p (r.toRejected v)
        timers := s.timers ++ r.onRejectedCallbacks } :=
  settleReject_pending p v s r hr hs

/-- Both handlers are registered while the instance is pending, then it is fulfilled. -/
theorem scenario_register_register_resolve (p : Nat) (a1 b1 a2 b2 v : Val) (s : State)
    (r : PromiseRec) (hr : s.promises[p]? = some r) (hs : r.state = PState.pending) :
    ∃ rF, rF.state = PState.fulfilled ∧ rF.value = v ∧
      settleResolve p v (MyPromise.then_ p a2 b2 (MyPromise.then_ p a1 b1 s).2).2 =
        { s with
          promises := s.promises.set p rF ++ [PromiseRec.fresh, PromiseRec.fresh]
          timers := (s.timers ++ r.onFulfilledCallbacks) ++
            [Task.fulfilledTask p (asOnFulfilled a1) s.promises.length,
              Task.fulfilledTask p (asOnFulfilled a2) (s.promises.length + 1)] } := by
  have hlt : p < s.promises.length := (List.getElem?_eq_some.mp hr).1
  rw [then_pending_eq p a1 b1 s r hr hs]
  rw [then_pending_eq p a2 b2 _
    (r.addCallbacks (Task.fulfilledTask p (asOnFulfilled a1) s.promises.length)
      (Task.rejectedTask p (asOnRejected b1) s.promises.length))
    (getElem?_set_append_self _ _ _ _ hlt) hs]
  simp only [set_set_append _ _ _ _ _ hlt, List.length_append, List.length_set,
    List.length_singleton]
  rw [settleResolve_pending_eq p v _
    ((r.addCallbacks (Task.fulfilledTask p (asOnFulfilled a1) s.promises.length)
      (Task.rejectedTask p (asOnRejected b1) s.promises.length)).addCallbacks
      (Task.fulfilledTask p (asOnFulfilled a2) (s.promises.length + 1))
      (Task.rejectedTask p (asOnRejected b2) (s.promises.length + 1)))
    (by simp only [List.append_assoc]
        exact getElem?_set_append_self _ _ _ _ hlt) hs]
  refine ⟨((r.addCallbacks (Task.fulfilledTask p (asOnFulfilled a1) s.promises.length)
      (Task.rejectedTask p (asOnRejected b1) s.promises.length)).addCallbacks
      (Task.fulfilledTask p (asOnFulfilled a2) (s.promises.length + 1))
      (Task.rejectedTask p (asOnRejected b2) (s.promises.length + 1))).toFulfilled v,
    rfl, rfl, ?_⟩
  simp only [List.append_assoc, set_set_append _ _ _ _ _ hlt, PromiseRec.addCallbacks,
    List.singleton_append]


/-- The first handler is registered while the instance is pending, the instance is
fulfilled, then the second handler is registered. -/
theorem scenario_register_resolve_register (p : Nat) (a1 b1 a2 b2 v : Val) (s : State)
    (r : PromiseRec) (hr : s.promises[p]? = some r) (hs : r.state = PState.pending) :
    ∃ rF, rF.state = PState.fulfilled ∧ rF.value = v ∧
      (MyPromise.then_ p a2 b2 (settleResolve p v (MyPromise.then_ p a1 b1 s).2)).2 =
        { s with
          promises := s.promises.set p rF ++ [PromiseRec.fresh, PromiseRec.fresh]
          timers := (s.timers ++ r.onFulfilledCallbacks) ++
            [Task.fulfilledTask p (asOnFulfilled a1) s.promises.length,
              Task.fulfilledTask p (asOnFulfilled a2) (s.promises.length + 1)] } := by
  have hlt : p < s.promises.length := (List.getElem?_eq_some.mp hr).1
  rw [then_pending_eq p a1 b1 s r hr hs]
  rw [settleResolve_pending_eq p v _
    (r.addCallbacks (Task.fulfilledTask p (asOnFulfilled a1) s.promises.length)
      (Task.rejectedTask p (asOnRejected b1) s.promises.length))
    (getElem?_set_append_self _ _ _ _ hlt) hs]
  simp only [set_set_append _ _ _ _ _ hlt]
  rw [then_fulfilled p a2 b2 _
    ((r.addCallbacks (Task.fulfilledTask p (asOnFulfilled a1) s.promises.length)
      (Task.rejectedTask p (asOnRejected b1) s.promises.length)).toFulfilled v)
    (getElem?_set_append_self _ _ _ _ hlt) rfl]
  refine ⟨(r.addCallbacks (Task.fulfilledTask p (asOnFulfilled a1) s.promises.length)
      (Task.rejectedTask p (asOnRejected b1) s.promises.length)).toFulfilled v, rfl, rfl, ?_⟩
  simp only [List.append_assoc, PromiseRec.addCallbacks, List.singleton_append,
    List.length_append, List.length_set, List.length_singleton]

/-- Both handlers are registered after the instance was fulfilled. -/
theorem scenario_fulfilled_register_register (p : Nat) (a1 b1 a2 b2 : Val) (s : State)
    (r : PromiseRec) (hr : s.promises[p]? = some r) (hs : r.state = PState.fulfilled) :
    (MyPromise.then_ p a2 b2 (MyPromise.then_ p a1 b1 s).2).2 =
      { s with
        promises := s.promises ++ [PromiseRec.fresh, PromiseRec.fresh]
        timers := s.timers ++
          [Task.fulfilledTask p (asOnFulfilled a1) s.promises.length,
            Task.fulfilledTask p (asOnFulfilled a2) (s.promises.length + 1)] } := by
  have hlt : p < s.promises.length := (List.getElem?_eq_some.mp hr).1
  rw [then_fulfilled p a1 b1 s r hr hs]
  rw [then_fulfilled p a2 b2 _ r
    (by simp only [List.getElem?_append_left hlt]; exact hr) hs]
  simp only [List.append_assoc, List.singleton_append, List.length_append,
    List.length_singleton]

/-- Draining a queue whose last two timers are handler callbacks for the user functions
`f1` and `f2`, everything else avoiding `F`: the calls of functions of `F` are those of
`f1` and `f2`, in this order. -/
theorem drain_two_handlers (F : Nat → Bool) (env : Env) (s : State) (base : List PromiseRec)
    (pre : List Task) (t1 t2 : Task) (c1 c2 : Nat × Val) (fuel : Nat) (s3 : State)
    (hbase : ∀ m ∈ base, m.state = PState.pending →
      (∀ t ∈ m.onFulfilledCallbacks, t.avoids F = true) ∧
      (∀ t ∈ m.onRejectedCallbacks, t.avoids F = true))
    (hpre : ∀ t ∈ pre, t.avoids F = true)
    (hF1 : F c1.1 = true) (hF2 : F c2.1 = true)
    (h1 : Fires
      { s with
        promises := base ++ [PromiseRec.fresh, PromiseRec.fresh]
        timers := pre ++ [t1, t2] } t1 c1)
    (h2 : Fires
      { s with
        promises := base ++ [PromiseRec.fresh, PromiseRec.fresh]
        timers := pre ++ [t1, t2] } t2 c2)
    (hd : drain env fuel
      { s with
        promises := base ++ [PromiseRec.fresh, PromiseRec.fresh]
        timers := pre ++ [t1, t2] } = some s3) :
    callsOf F s3 = callsOf F s ++ [c1, c2] := by
  have hclean : CleanHeap F
      { s with
        promises := base ++ [PromiseRec.fresh, PromiseRec.fresh]
        timers := pre ++ [t1, t2] } := by
    intro m hm hp
    rcases List.mem_append.mp hm with h | h
    · exact hbase m h hp
    · simp only [List.mem_cons, List.mem_singleton, List.not_mem_nil, or_false, or_self] at h
      subst h
      simp [PromiseRec.fresh]
  have := drain_callsOf F env fuel _ s3 pre [t1, t2] [c1, c2] [] hclean (by simp) hpre
    (by simp) (List.Forall₂.cons ⟨hF1, h1⟩ (List.Forall₂.cons ⟨hF2, h2⟩ List.Forall₂.nil)) hd
  rw [this]
  rfl

theorem clean_set_settled (F : Nat → Bool) (s : State) (hheap : CleanHeap F s) (p : Nat)
    (rF : PromiseRec) (hrF : rF.state ≠ PState.pending) :
    ∀ m ∈ s.promises.set p rF, m.state = PState.pending →
      (∀ t ∈ m.onFulfilledCallbacks, t.avoids F = true) ∧
      (∀ t ∈ m.onRejectedCallbacks, t.avoids F = true) := by
  intro m hm hp
  rcases List.mem_or_eq_of_mem_set hm with h | h
  · exact hheap m h hp
  · subst h
    exact absurd hp hrF

/-- Both handlers are registered while the instance is pending, then it is rejected. -/
theorem scenario_register_register_reject (p : Nat) (a1 b1 a2 b2 v : Val) (s : State)
    (r : PromiseRec) (hr : s.promises[p]? = some r) (hs : r.state = PState.pending) :
    ∃ rF, rF.state = PState.rejected ∧ rF.reason = v ∧
      settleReject p v (MyPromise.then_ p a2 b2 (MyPromise.then_ p a1 b1 s).2).2 =
        { s with
          promises := s.promises.set p rF ++ [PromiseRec.fresh, PromiseRec.fresh]
          timers := (s.timers ++ r.onRejectedCallbacks) ++
            [Task.rejectedTask p (asOnRejected b1) s.promises.length,
              Task.rejectedTask p (asOnRejected b2) (s.promises.length + 1)] } := by
  have hlt : p < s.promises.length := (List.getElem?_eq_some.mp hr).1
  rw [then_pending_eq p a1 b1 s r hr hs]
  rw [then_pending_eq p a2 b2 _
    (r.addCallbacks (Task.fulfilledTask p (asOnFulfilled a1) s.promises.length)
      (Task.rejectedTask p (asOnRejected b1) s.promises.length))
    (getElem?_set_append_self _ _ _ _ hlt) hs]
  simp only [set_set_append _ _ _ _ _ hlt, List.length_append, List.length_set,
    List.length_singleton]
  rw [settleReject_pending_eq p v _
    ((r.addCallbacks (Task.fulfilledTask p (asOnFulfilled a1) s.promises.length)
      (Task.rejectedTask p (asOnRejected b1) s.promises.length)).addCallbacks
      (Task.fulfilledTask p (asOnFulfilled a2) (s.promises.length + 1))
      (Task.rejectedTask p (asOnRejected b2) (s.promises.length + 1)))
    (by simp only [List.append_assoc]
        exact getElem?_set_append_self _ _ _ _ hlt) hs]
  refine ⟨((r.addCallbacks (Task.fulfilledTask p (asOnFulfilled a1) s.promises.length)
      (Task.rejectedTask p (asOnRejected b1) s.promises.length)).addCallbacks
      (Task.fulfilledTask p (asOnFulfilled a2) (s.promises.length + 1))
      (Task.rejectedTask p (asOnRejected b2) (s.promises.length + 1))).toRejected v,
    rfl, rfl, ?_⟩
  simp only [List.append_assoc, set_set_append _ _ _ _ _ hlt, PromiseRec.addCallbacks,
    List.singleton_append]

/-- The first handler is registered while the instance is pending, the instance is
rejected, then the second handler is registered. -/
theorem scenario_register_reject_register (p : Nat) (a1 b1 a2 b2 v : Val) (s : State)
    (r : PromiseRec) (hr : s.promises[p]? = some r) (hs : r.state = PState.pending) :
    ∃ rF, rF.state = PState.rejected ∧ rF.reason = v ∧
      (MyPromise.then_ p a2 b2 (settleReject p v (MyPromise.then_ p a1 b1 s).2)).2 =
        { s with
          promises := s.promises.set p rF ++ [PromiseRec.fresh, PromiseRec.fresh]
          timers := (s.timers ++ r.onRejectedCallbacks) ++
            [Task.rejectedTask p (asOnRejected b1) s.promises.length,
              Task.rejectedTask p (asOnRejected b2) (s.promises.length + 1)] } := by
  have hlt : p < s.promises.length := (List.getElem?_eq_some.mp hr).1
  rw [then_pending_eq p a1 b1 s r hr hs]
  rw [settleReject_pending_eq p v _
    (r.addCallbacks (Task.fulfilledTask p (asOnFulfilled a1) s.promises.length)
      (Task.rejectedTask p (asOnRejected b1) s.promises.length))
    (getElem?_set_append_self _ _ _ _ hlt) hs]
  simp only [set_set_append _ _ _ _ _ hlt]
  rw [then_rejected p a2 b2 _
    ((r.addCallbacks (Task.fulfilledTask p (asOnFulfilled a1) s.promises.length)
      (Task.rejectedTask p (asOnRejected b1) s.promises.length)).toRejected v)
    (getElem?_set_append_self _ _ _ _ hlt) rfl]
  refine ⟨(r.addCallbacks (Task.fulfilledTask p (asOnFulfilled a1) s.promises.length)
      (Task.rejectedTask p (asOnRejected b1) s.promises.length)).toRejected v, rfl, rfl, ?_⟩
  simp only [List.append_assoc, PromiseRec.addCallbacks, List.singleton_append,
    List.length_append, List.length_set, List.length_singleton]

/-- Both handlers are registered after the instance was rejected. -/
theorem scenario_rejected_register_register (p : Nat) (a1 b1 a2 b2 : Val) (s : State)
    (r : PromiseRec) (hr : s.promises[p]? = some r) (hs : r.state = PState.rejected) :
    (MyPromise.then_ p a2 b2 (MyPromise.then_ p a1 b1 s).2).2 =
      { s with
        promises := s.promises ++ [PromiseRec.fresh, PromiseRec.fresh]
        timers := s.timers ++
          [Task.rejectedTask p (asOnRejected b1) s.promises.length,
            Task.rejectedTask p (asOnRejected b2) (s.promises.length + 1)] } := by
  have hlt : p < s.promises.length := (List.getElem?_eq_some.mp hr).1
  rw [then_rejected p a1 b1 s r hr hs]
  rw [then_rejected p a2 b2 _ r
    (by simp only [List.getElem?_append_left hlt]; exact hr) hs]
  simp only [List.append_assoc, List.singleton_append, List.length_append,
    List.length_singleton]

theorem IsHandlerTask.fires {t : Task} {p : Nat} {rp : PromiseRec} {f : Nat} {v : Val}
    {p2 : Nat} (h : IsHandlerTask t p rp f v p2) (s : State)
    (hp : s.promises[p]? = some rp) : Fires s t (f, v) :=
  ⟨p, p2, rp, hp, h⟩

/-- The state before the drain in each of the scenarios of two registrations: the queue
ends with the two handler callbacks. -/
theorem drainsInOrder_two (env : Env) (F : Nat → Bool) (s : State)
    (base : List PromiseRec) (pre : List Task) (t1 t2 : Task) (f1 f2 : Nat) (v : Val)
    (p : Nat) (rp : PromiseRec)
    (hbase : ∀ m ∈ base, m.state = PState.pending →
      (∀ t ∈ m.onFulfilledCallbacks, t.avoids F = true) ∧
      (∀ t ∈ m.onRejectedCallbacks, t.avoids F = true))
    (hpre : ∀ t ∈ pre, t.avoids F = true)
    (hF1 : F f1 = true) (hF2 : F f2 = true) (hp : base[p]? = some rp)
    (h1 : IsHandlerTask t1 p rp f1 v base.length)
    (h2 : IsHandlerTask t2 p rp f2 v (base.length + 1)) :
    DrainsInOrder env F s
      { s with
        promises := base ++ [PromiseRec.fresh, PromiseRec.fresh]
        timers := pre ++ [t1, t2] } [(f1, v), (f2, v)] := by
  have hlt : p < base.length := (List.getElem?_eq_some.mp hp).1
  have hpa : (base ++ [PromiseRec.fresh, PromiseRec.fresh])[p]? = some rp := by
    rw [List.getElem?_append_left hlt]
    exact hp
  obtain ⟨fuel, s3, hd⟩ := drain_returns env
    { s with
      promises := base ++ [PromiseRec.fresh, PromiseRec.fresh]
      timers := pre ++ [t1, t2] }
  exact ⟨fuel, s3, hd,
    drain_two_handlers F env s base pre t1 t2 (f1, v) (f2, v) (fuel + 0) s3 hbase hpre hF1 hF2
      (h1.fires _ hpa) (h2.fires _ hpa) (hd 0)⟩

/-- C5: two handlers `f1`, `f2` registered on the same instance `p` by two `then` calls in
this order are each called once with the value, `f1` before `f2`, when the queue is
drained: the drain returns, and the trace of the calls of `f1` and `f2` has grown by
exactly `(f1, v), (f2, v)`.  This holds when both are registered before `p` is fulfilled,
when `p` is fulfilled between the two registrations, and when `p` was fulfilled before
both; and in the same three cases for rejection handlers and a rejected `p`.  (The two
functions are not registered or queued anywhere before.) -/
theorem C5_two_handlers_in_order (env : Env) (f1 f2 p : Nat) (r : PromiseRec)
    (v g1 g2 : Val) (s : State)
    (hheap : CleanHeap (eitherOf f1 f2) s) (hqueue : CleanQueue (eitherOf f1 f2) s)
    (hr : s.promises[p]? = some r) :
    (r.state = PState.pending →
      DrainsInOrder env (eitherOf f1 f2) s
        (settleResolve p v (MyPromise.then_ p (Val.fn (FnRef.user f2)) g2
          (MyPromise.then_ p (Val.fn (FnRef.user f1)) g1 s).2).2)
        [(f1, v), (f2, v)]) ∧
    (r.state = PState.pending →
      DrainsInOrder env (eitherOf f1 f2) s
        (MyPromise.then_ p (Val.fn (FnRef.user f2)) g2
          (settleResolve p v (MyPromise.then_ p (Val.fn (FnRef.user f1)) g1 s).2)).2
        [(f1, v), (f2, v)]) ∧
    (r.state = PState.fulfilled → r.value = v →
      DrainsInOrder env (eitherOf f1 f2) s
        (MyPromise.then_ p (Val.fn (FnRef.user f2)) g2
          (MyPromise.then_ p (Val.fn (FnRef.user f1)) g1 s).2).2
        [(f1, v), (f2, v)]) ∧
    (r.state = PState.pending →
      DrainsInOrder env (eitherOf f1 f2) s
        (settleReject p v (MyPromise.then_ p g2 (Val.fn (FnRef.user f2))
          (MyPromise.then_ p g1 (Val.fn (FnRef.user f1)) s).2).2)
        [(f1, v), (f2, v)]) ∧
    (r.state = PState.pending →
      DrainsInOrder env (eitherOf f1 f2) s
        (MyPromise.then_ p g2 (Val.fn (FnRef.user f2))
          (settleReject p v (MyPromise.then_ p g1 (Val.fn (FnRef.user f1)) s).2)).2
        [(f1, v), (f2, v)]) ∧
    (r.state = PState.rejected → r.reason = v →
      DrainsInOrder env (eitherOf f1 f2) s
        (MyPromise.then_ p g2 (Val.fn (FnRef.user f2))
          (MyPromise.then_ p g1 (Val.fn (FnRef.user f1)) s).2).2
        [(f1, v), (f2, v)]) := by
  have hlt : p < s.promises.length := (List.getElem?_eq_some.mp hr).1
  have hF1 : eitherOf f1 f2 f1 = true := by simp [eitherOf]
  have hF2 : eitherOf f1 f2 f2 = true := by simp [eitherOf]
  have hpreF : r.state = PState.pending →
      ∀ t ∈ s.timers ++ r.onFulfilledCallbacks, t.avoids (eitherOf f1 f2) = true := by
    intro hs t ht
    rcases List.mem_append.mp ht with h | h
    · exact hqueue t h
    · exact (hheap r (List.getElem?_mem hr) hs).1 t h
  have hpreR : r.state = PState.pending →
      ∀ t ∈ s.timers ++ r.onRejectedCallbacks, t.avoids (eitherOf f1 f2) = true := by
    intro hs t ht
    rcases List.mem_append.mp ht with h | h
    · exact hqueue t h
    · exact (hheap r (List.getElem?_mem hr) hs).2 t h
  refine ⟨?_, ?_, ?_, ?_, ?_, ?_⟩
  · intro hs
    obtain ⟨rF, hst, hval, heq⟩ := scenario_register_register_resolve p
      (Val.fn (FnRef.user f1)) g1 (Val.fn (FnRef.user f2)) g2 v s r hr hs
    rw [heq]
    exact drainsInOrder_two env _ s _ _ _ _ f1 f2 v p rF
      (clean_set_settled _ s hheap p rF (by simp [hst])) (hpreF hs) hF1 hF2
      (List.getElem?_set_self hlt)
      (Or.inl ⟨by simp [asOnFulfilled], hst, hval⟩) (Or.inl ⟨by simp [asOnFulfilled], hst, hval⟩)
  · intro hs
    obtain ⟨rF, hst, hval, heq⟩ := scenario_register_resolve_register p
      (Val.fn (FnRef.user f1)) g1 (Val.fn (FnRef.user f2)) g2 v s r hr hs
    rw [heq]
    exact drainsInOrder_two env _ s _ _ _ _ f1 f2 v p rF
      (clean_set_settled _ s hheap p rF (by simp [hst])) (hpreF hs) hF1 hF2
      (List.getElem?_set_self hlt)
      (Or.inl ⟨by simp [asOnFulfilled], hst, hval⟩) (Or.inl ⟨by simp [asOnFulfilled], hst, hval⟩)
  · intro hs hv
    rw [scenario_fulfilled_register_register p _ g1 _ g2 s r hr hs]
    exact drainsInOrder_two env _ s _ _ _ _ f1 f2 v p r
      (fun m hm hp => hheap m hm hp) hqueue hF1 hF2 hr
      (Or.inl ⟨rfl, hs, hv⟩) (Or.inl ⟨rfl, hs, hv⟩)
  · intro hs
    obtain ⟨rF, hst, hval, heq⟩ := scenario_register_register_reject p
      g1 (Val.fn (FnRef.user f1)) g2 (Val.fn (FnRef.user f2)) v s r hr hs
    rw [heq]
    exact drainsInOrder_two env _ s _ _ _ _ f1 f2 v p rF
      (clean_set_settled _ s hheap p rF (by simp [hst])) (hpreR hs) hF1 hF2
      (List.getElem?_set_self hlt)
      (Or.inr ⟨by simp [asOnRejected], hst, hval⟩) (Or.inr ⟨by simp [asOnRejected], hst, hval⟩)
  · intro hs
    obtain ⟨rF, hst, hval, heq⟩ := scenario_register_reject_register p
      g1 (Val.fn (FnRef.user f1)) g2 (Val.fn (FnRef.user f2)) v s r hr hs
    rw [heq]
    exact drainsInOrder_two env _ s _ _ _ _ f1 f2 v p rF
      (clean_set_settled _ s hheap p rF (by simp [hst])) (hpreR hs) hF1 hF2
      (List.getElem?_set_self hlt)
      (Or.inr ⟨by simp [asOnRejected], hst, hval⟩) (Or.inr ⟨by simp [asOnRejected], hst, hval⟩)
  · intro hs hv
    rw [scenario_rejected_register_register p g1 _ g2 _ s r hr hs]
    exact drainsInOrder_two env _ s _ _ _ _ f1 f2 v p r
      (fun m hm hp => hheap m hm hp) hqueue hF1 hF2 hr
      (Or.inr ⟨rfl, hs, hv⟩) (Or.inr ⟨rfl, hs, hv⟩)

theorem C5_two_handlers_in_order_witness :
    CleanHeap (eitherOf 0 4) (MyPromise.construct (UserExecutor.run ⟨[], none⟩) State.init).2 ∧
    CleanQueue (eitherOf 0 4) (MyPromise.construct (UserExecutor.run ⟨[], none⟩) State.init).2 ∧
    (MyPromise.construct (UserExecutor.run ⟨[], none⟩) State.init).2.promises[0]? =
      some PromiseRec.fresh ∧
    DrainsInOrder sampleEnv (eitherOf 0 4)
      (MyPromise.construct (UserExecutor.run ⟨[], none⟩) State.init).2
      (settleResolve 0 (Val.num 7) (MyPromise.then_ 0 (Val.fn (FnRef.user 4)) Val.undefined
        (MyPromise.then_ 0 (Val.fn (FnRef.user 0)) Val.undefined
          (MyPromise.construct (UserExecutor.run ⟨[], none⟩) State.init).2).2).2)
      [(0, Val.num 7), (4, Val.num 7)] := by
  have hheap : CleanHeap (eitherOf 0 4)
      (MyPromise.construct (UserExecutor.run ⟨[], none⟩) State.init).2 := by
    unfold CleanHeap
    decide
  have hqueue : CleanQueue (eitherOf 0 4)
      (MyPromise.construct (UserExecutor.run ⟨[], none⟩) State.init).2 := by
    unfold CleanQueue
    decide
  exact ⟨hheap, hqueue, rfl,
    (C5_two_handlers_in_order sampleEnv 0 4 0 PromiseRec.fresh (Val.num 7)
      Val.undefined Val.undefined _ hheap hqueue rfl).1 rfl⟩

theorem asOnFulfilled_not_fn (a : Val) (h : ∀ f, a ≠ Val.fn f) :
    asOnFulfilled a = FnRef.identity := by
  cases a <;> first | rfl | exact absurd rfl (h _)

theorem asOnRejected_not_fn (b : Val) (h : ∀ f, b ≠ Val.fn f) :
    asOnRejected b = FnRef.thrower := by
  cases b <;> first | rfl | exact absurd rfl (h _)

/-- The calls of the functions of `F` during the drain that follows a `then` call on a
settled instance, in a state that was clean for `F`: none when the timer `T` of the call
avoids `F`, the one call of its handler when that is a function of `F`. -/
theorem drain_calls_after_then (F : Nat → Bool) (env : Env) (s : State) (T : Task)
    (cs : List (Nat × Val)) (fuel : Nat) (s3 : State)
    (hheap : CleanHeap F s) (hqueue : CleanQueue F s)
    (hT : (cs = [] ∧ T.avoids F = true) ∨
      (∃ c, cs = [c] ∧ F c.1 = true ∧
        Fires ⟨s.promises ++ [PromiseRec.fresh], s.latches, s.arrays, s.counters,
          s.timers ++ [T], s.log, s.calls, s.thenReads, s.uncaught⟩ T c))
    (hd : drain env fuel ⟨s.promises ++ [PromiseRec.fresh], s.latches, s.arrays, s.counters,
      s.timers ++ [T], s.log, s.calls, s.thenReads, s.uncaught⟩ = some s3) :
    callsOf F s3 = callsOf F s ++ cs := by
  have hclean : CleanHeap F ⟨s.promises ++ [PromiseRec.fresh], s.latches, s.arrays,
      s.counters, s.timers ++ [T], s.log, s.calls, s.thenReads, s.uncaught⟩ :=
    hheap.extend [PromiseRec.fresh] (s.timers ++ [T]) (by simp [PromiseRec.fresh])
  rcases hT with ⟨rfl, hav⟩ | ⟨c, rfl, hF, hfire⟩
  · have := drain_callsOf F env fuel _ s3 s.timers [] [] [T] hclean (by simp) hqueue
      (by simpa using hav) List.Forall₂.nil hd
    rw [this]
    rfl
  · have := drain_callsOf F env fuel _ s3 s.timers [T] [c] [] hclean (by simp) hqueue
      (by simp) (List.Forall₂.cons ⟨hF, hfire⟩ List.Forall₂.nil) hd
    rw [this]
    rfl

theorem settleWith_uncaught (c : Completion) (p2 : Nat) (s : State) :
    (settleWith c p2 s).uncaught = s.uncaught := by
  cases c with
  | normal x =>
    obtain ⟨ps, ts, h⟩ := settleResolve_shape p2 x s
    simp only [settleWith]
    rw [h]
  | throw e =>
    obtain ⟨ps, ts, h⟩ := settleReject_shape p2 e s
    simp only [settleWith]
    rw [h]

/-- A call of `then` on a settled instance whose applicable handler `h` completes with
`c` in every state, where `c` is a throw or a plain value; no callback or timer of the
state can settle the address of the new instance.  The call queues one timer; that timer
lets no error escape; the drain of the queue returns, and the new instance is settled
with `c` at the end. -/
theorem then_settled_direct (env : Env) (s : State) (p : Nat) (r : PromiseRec) (a b : Val)
    (h : FnRef) (arg : Val) (c : Completion) (hr : s.promises[p]? = some r)
    (hsel : (r.state = PState.fulfilled ∧ h = asOnFulfilled a ∧ arg = r.value) ∨
      (r.state = PState.rejected ∧ h = asOnRejected b ∧ arg = r.reason))
    (hcall : ∀ s1, ∃ s2, callFn env h arg s1 = (c, s2) ∧ s2.promises = s1.promises ∧
      s2.uncaught = s1.uncaught)
    (hdir : settlesDirectly env c = true)
    (hheap : QuietHeap s.promises.length s) (hqueue : QuietQueue s.promises.length s) :
    (MyPromise.then_ p a b s).1 = s.promises.length ∧
    (∃ T, (MyPromise.then_ p a b s).2 =
        ⟨s.promises ++ [PromiseRec.fresh], s.latches, s.arrays, s.counters,
          s.timers ++ [T], s.log, s.calls, s.thenReads, s.uncaught⟩ ∧
      (T = Task.fulfilledTask p h s.promises.length ∨
        T = Task.rejectedTask p h s.promises.length) ∧
      ∀ s1, s1.promises[p]? = some r → (runTask env T s1).uncaught = s1.uncaught) ∧
    ∃ fuel s3, (∀ k, drain env (fuel + k) (MyPromise.then_ p a b s).2 = some s3) ∧
      coreOf s3 s.promises.length = some (coreAfter c) := by
  have hunc : ∀ s1, (runHandler env h arg s.promises.length s1).uncaught = s1.uncaught := by
    intro s1
    obtain ⟨s2, hc, _, hu⟩ := hcall s1
    obtain ⟨s4, hrun, _, _, _, _, hu4⟩ :=
      runHandler_direct env h arg s.promises.length s1 s2 c hc hdir
    rw [hrun, settleWith_uncaught, hu4, hu]
  have hcore : ∀ s1, coreOf s1 s.promises.length =
        some (PState.pending, Val.undefined, Val.undefined) →
      coreOf (runHandler env h arg s.promises.length s1) s.promises.length =
        some (coreAfter c) := by
    intro s1 h1
    obtain ⟨s2, hc, hp, _⟩ := hcall s1
    exact runHandler_core env h arg _ s1 s2 c hc hp hdir h1
  rcases hsel with ⟨hs, rfl, rfl⟩ | ⟨hs, rfl, rfl⟩
  · have hT := then_fulfilled p a b s r hr hs
    have hT2 : (MyPromise.then_ p a b s).2 =
        ⟨s.promises ++ [PromiseRec.fresh], s.latches, s.arrays, s.counters,
          s.timers ++ [Task.fulfilledTask p (asOnFulfilled a) s.promises.length], s.log,
          s.calls, s.thenReads, s.uncaught⟩ := by rw [hT]
    refine ⟨by rw [hT], ⟨_, hT2, Or.inl rfl, ?_⟩, ?_⟩
    · intro s1 h1
      simp only [runTask]
      rw [fieldValue_eq _ _ _ h1]
      exact hunc s1
    · refine then_drain_core env s p r a b _ _ hr (by simp [hs]) hT2 (coreAfter_settled c)
        ?_ hheap hqueue
      intro s1 h1 h2
      simp only [runTask]
      rw [fieldValue_eq _ _ _ h2]
      exact hcore s1 h1
  · have hT := then_rejected p a b s r hr hs
    have hT2 : (MyPromise.then_ p a b s).2 =
        ⟨s.promises ++ [PromiseRec.fresh], s.latches, s.arrays, s.counters,
          s.timers ++ [Task.rejectedTask p (asOnRejected b) s.promises.length], s.log,
          s.calls, s.thenReads, s.uncaught⟩ := by rw [hT]
    refine ⟨by rw [hT], ⟨_, hT2, Or.inr rfl, ?_⟩, ?_⟩
    · intro s1 h1
      simp only [runTask]
      rw [fieldReason_eq _ _ _ h1]
      exact hunc s1
    · refine then_drain_core env s p r a b _ _ hr (by simp [hs]) hT2 (coreAfter_settled c)
        ?_ hheap hqueue
      intro s1 h1 h2
      simp only [runTask]
      rw [fieldReason_eq _ _ _ h2]
      exact hcore s1 h1

/-- A user function that completes with `c` whatever the log of the user is. -/
theorem callFn_user_const (env : Env) (h : Nat) (arg : Val) (c : Completion)
    (hc : ∀ lg, (env.userFn h lg arg).2 = c) :
    ∀ s1, ∃ s2, callFn env (FnRef.user h) arg s1 = (c, s2) ∧ s2.promises = s1.promises ∧
      s2.uncaught = s1.uncaught :=
  fun s1 => ⟨recordCall h arg (env.userFn h s1.log arg).1 s1, by simp only [callFn, hc],
    rfl, rfl⟩

/-- C6: when `p` is fulfilled with a plain value `v`, the instance returned by
`p.then(a, g)` for a non-function `a` is fulfilled with `v` once the queue is drained (and
the drain returns); when `p` is rejected with `r`, the instance returned by
`p.then(f, b)` for a non-function `b` is rejected with `r`.  In both cases the drain calls
no user function that was not registered or queued before the `then` call, so the other
handler (`g`, `f`) is not called by it.  The state before the call is any state in which
no callback or timer can settle the address that the new instance will get. -/
theorem C6_missing_handler_passes_through (env : Env) (s : State) (p : Nat) (r : PromiseRec)
    (a b f g : Val) (hr : s.promises[p]? = some r)
    (ha : ∀ h, a ≠ Val.fn h) (hb : ∀ h, b ≠ Val.fn h)
    (hheap : QuietHeap s.promises.length s) (hqueue : QuietQueue s.promises.length s) :
    (r.state = PState.fulfilled → isPlain env r.value = true →
      ∃ fuel s3, (∀ k, drain env (fuel + k) (MyPromise.then_ p a g s).2 = some s3) ∧
        coreOf s3 (MyPromise.then_ p a g s).1 =
          some (PState.fulfilled, r.value, Val.undefined) ∧
        ∀ F, CleanHeap F s → CleanQueue F s → callsOf F s3 = callsOf F s) ∧
    (r.state = PState.rejected →
      ∃ fuel s3, (∀ k, drain env (fuel + k) (MyPromise.then_ p f b s).2 = some s3) ∧
        coreOf s3 (MyPromise.then_ p f b s).1 =
          some (PState.rejected, Val.undefined, r.reason) ∧
        ∀ F, CleanHeap F s → CleanQueue F s → callsOf F s3 = callsOf F s) := by
  constructor
  · intro hs hplain
    obtain ⟨h1, ⟨T, hT, hTk, _⟩, fuel, s3, hd, hcore⟩ := then_settled_direct env s p r a g
      FnRef.identity r.value (Completion.normal r.value) hr
      (Or.inl ⟨hs, (asOnFulfilled_not_fn a ha).symm, rfl⟩) (fun s1 => ⟨s1, rfl, rfl, rfl⟩)
      hplain hheap hqueue
    refine ⟨fuel, s3, hd, by rw [h1]; exact hcore, ?_⟩
    intro F hF1 hF2
    have hd0 := hd 0
    rw [hT] at hd0
    have := drain_calls_after_then F env s T [] _ s3 hF1 hF2
      (Or.inl ⟨rfl, by rcases hTk with rfl | rfl <;> rfl⟩) hd0
    simpa using this
  · intro hs
    obtain ⟨h1, ⟨T, hT, hTk, _⟩, fuel, s3, hd, hcore⟩ := then_settled_direct env s p r f b
      FnRef.thrower r.reason (Completion.throw r.reason) hr
      (Or.inr ⟨hs, (asOnRejected_not_fn b hb).symm, rfl⟩) (fun s1 => ⟨s1, rfl, rfl, rfl⟩)
      rfl hheap hqueue
    refine ⟨fuel, s3, hd, by rw [h1]; exact hcore, ?_⟩
    intro F hF1 hF2
    have hd0 := hd 0
    rw [hT] at hd0
    have := drain_calls_after_then F env s T [] _ s3 hF1 hF2
      (Or.inl ⟨rfl, by rcases hTk with rfl | rfl <;> rfl⟩) hd0
    simpa using this

theorem C6_missing_handler_passes_through_witness :
    (MyPromise.then_ 0 (Val.fn (FnRef.user 0)) Val.undefined
      (MyPromise.resolve (Val.num 5) State.init).2).2.timers =
        [Task.fulfilledTask 0 (FnRef.user 0) 1] ∧
    ∃ fuel s3,
      (∀ k, drain sampleEnv (fuel + k) (MyPromise.then_ 0 Val.undefined (Val.fn (FnRef.user 3))
        (MyPromise.then_ 0 (Val.fn (FnRef.user 0)) Val.undefined
          (MyPromise.resolve (Val.num 5) State.init).2).2).2 = some s3) ∧
      coreOf s3 (MyPromise.then_ 0 Val.undefined (Val.fn (FnRef.user 3))
        (MyPromise.then_ 0 (Val.fn (FnRef.user 0)) Val.undefined
          (MyPromise.resolve (Val.num 5) State.init).2).2).1 =
        some (PState.fulfilled, Val.num 5, Val.undefined) ∧
      ∀ F, CleanHeap F (MyPromise.then_ 0 (Val.fn (FnRef.user 0)) Val.undefined
          (MyPromise.resolve (Val.num 5) State.init).2).2 →
        CleanQueue F (MyPromise.then_ 0 (Val.fn (FnRef.user 0)) Val.undefined
          (MyPromise.resolve (Val.num 5) State.init).2).2 →
        callsOf F s3 = callsOf F (MyPromise.then_ 0 (Val.fn (FnRef.user 0)) Val.undefined
          (MyPromise.resolve (Val.num 5) State.init).2).2 :=
  ⟨rfl,
    (C6_missing_handler_passes_through sampleEnv
      (MyPromise.then_ 0 (Val.fn (FnRef.user 0)) Val.undefined
        (MyPromise.resolve (Val.num 5) State.init).2).2 0
      (PromiseRec.fulfilledWith (Val.num 5)) Val.undefined Val.null Val.undefined
      (Val.fn (FnRef.user 3)) rfl (by intro h; simp) (by intro h; simp)
      (by unfold QuietHeap; decide) (by unfold QuietQueue; decide)).1 rfl rfl⟩

/-- C7: when `p` is settled and the applicable handler (a user function `h`) throws `e`
when called with the value or reason of `p`, then the drain of the queue returns and
the instance returned by `then` is rejected with reason `e` at the end; the timer that the
`then` call queued lets no error escape, in whichever state it runs; and `h` was called
once with the value or reason, provided it was not registered or queued before.  The
state before the call is any state in which no callback or timer can settle the address
that the new instance will get. -/
theorem C7_handler_throw_rejects (env : Env) (s : State) (p : Nat) (r : PromiseRec)
    (h : Nat) (g e : Val) (hr : s.promises[p]? = some r)
    (hheap : QuietHeap s.promises.length s) (hqueue : QuietQueue s.promises.length s) :
    (r.state = PState.fulfilled → (∀ lg, (env.userFn h lg r.value).2 = Completion.throw e) →
      (∃ fuel s3,
        (∀ k, drain env (fuel + k) (MyPromise.then_ p (Val.fn (FnRef.user h)) g s).2 =
          some s3) ∧
        coreOf s3 (MyPromise.then_ p (Val.fn (FnRef.user h)) g s).1 =
          some (PState.rejected, Val.undefined, e) ∧
        (CleanHeap (fun i => decide (i = h)) s → CleanQueue (fun i => decide (i = h)) s →
          callsOf (fun i => decide (i = h)) s3 =
            callsOf (fun i => decide (i = h)) s ++ [(h, r.value)])) ∧
      ∃ T, (MyPromise.then_ p (Val.fn (FnRef.user h)) g s).2.timers = s.timers ++ [T] ∧
        ∀ s1, s1.promises[p]? = some r → (runTask env T s1).uncaught = s1.uncaught) ∧
    (r.state = PState.rejected → (∀ lg, (env.userFn h lg r.reason).2 = Completion.throw e) →
      (∃ fuel s3,
        (∀ k, drain env (fuel + k) (MyPromise.then_ p g (Val.fn (FnRef.user h)) s).2 =
          some s3) ∧
        coreOf s3 (MyPromise.then_ p g (Val.fn (FnRef.user h)) s).1 =
          some (PState.rejected, Val.undefined, e) ∧
        (CleanHeap (fun i => decide (i = h)) s → CleanQueue (fun i => decide (i = h)) s →
          callsOf (fun i => decide (i = h)) s3 =
            callsOf (fun i => decide (i = h)) s ++ [(h, r.reason)])) ∧
      ∃ T, (MyPromise.then_ p g (Val.fn (FnRef.user h)) s).2.timers = s.timers ++ [T] ∧
        ∀ s1, s1.promises[p]? = some r → (runTask env T s1).uncaught = s1.uncaught) := by
  have hlt : p < s.promises.length := (List.getElem?_eq_some.mp hr).1
  have hpa : (s.promises ++ [PromiseRec.fresh])[p]? = some r := by
    rw [List.getElem?_append_left hlt]
    exact hr
  constructor
  · intro hs hthrow
    obtain ⟨h1, ⟨T, hT, hTk, hunc⟩, fuel, s3, hd, hcore⟩ := then_settled_direct env s p r
      (Val.fn (FnRef.user h)) g (FnRef.user h) r.value (Completion.throw e) hr
      (Or.inl ⟨hs, rfl, rfl⟩)
      (callFn_user_const env h _ _ hthrow) rfl hheap hqueue
    refine ⟨⟨fuel, s3, hd, by rw [h1]; exact hcore, ?_⟩, T, by rw [hT], hunc⟩
    intro hF1 hF2
    have hd0 := hd 0
    rw [hT] at hd0
    have hTf : T = Task.fulfilledTask p (FnRef.user h) s.promises.length := by
      have := then_fulfilled p (Val.fn (FnRef.user h)) g s r hr hs
      rw [this] at hT
      simp only [State.mk.injEq, List.append_cancel_left_eq, List.cons.injEq, and_true,
        true_and] at hT
      simpa [asOnFulfilled] using hT.symm
    exact drain_calls_after_then _ env s T [(h, r.value)] _ s3 hF1 hF2
      (Or.inr ⟨(h, r.value), rfl, by simp, p, s.promises.length, r, hpa,
        Or.inl ⟨hTf, hs, rfl⟩⟩) hd0
  · intro hs hthrow
    obtain ⟨h1, ⟨T, hT, hTk, hunc⟩, fuel, s3, hd, hcore⟩ := then_settled_direct env s p r
      g (Val.fn (FnRef.user h)) (FnRef.user h) r.reason (Completion.throw e) hr
      (Or.inr ⟨hs, rfl, rfl⟩)
      (callFn_user_const env h _ _ hthrow) rfl hheap hqueue
    refine ⟨⟨fuel, s3, hd, by rw [h1]; exact hcore, ?_⟩, T, by rw [hT], hunc⟩
    intro hF1 hF2
    have hd0 := hd 0
    rw [hT] at hd0
    have hTf : T = Task.rejectedTask p (FnRef.user h) s.promises.length := by
      have := then_rejected p g (Val.fn (FnRef.user h)) s r hr hs
      rw [this] at hT
      simp only [State.mk.injEq, List.append_cancel_left_eq, List.cons.injEq, and_true,
        true_and] at hT
      simpa [asOnRejected] using hT.symm
    exact drain_calls_after_then _ env s T [(h, r.reason)] _ s3 hF1 hF2
      (Or.inr ⟨(h, r.reason), rfl, by simp, p, s.promises.length, r, hpa,
        Or.inr ⟨hTf, hs, rfl⟩⟩) hd0

theorem C7_handler_throw_rejects_witness :
    (MyPromise.resolve (Val.str "bad") State.init).2.promises[0]? =
      some (PromiseRec.fulfilledWith (Val.str "bad")) ∧
    (∀ lg, (sampleEnv.userFn 3 lg (Val.str "bad")).2 = Completion.throw (Val.str "bad")) ∧
    ∃ fuel s3,
      (∀ k, drain sampleEnv (fuel + k) (MyPromise.then_ 0 (Val.fn (FnRef.user 3)) Val.undefined
        (MyPromise.resolve (Val.str "bad") State.init).2).2 = some s3) ∧
      coreOf s3 (MyPromise.then_ 0 (Val.fn (FnRef.user 3)) Val.undefined
        (MyPromise.resolve (Val.str "bad") State.init).2).1 =
        some (PState.rejected, Val.undefined, Val.str "bad") ∧
      (CleanHeap (fun i => decide (i = 3)) (MyPromise.resolve (Val.str "bad") State.init).2 →
        CleanQueue (fun i => decide (i = 3)) (MyPromise.resolve (Val.str "bad") State.init).2 →
        callsOf (fun i => decide (i = 3)) s3 =
          callsOf (fun i => decide (i = 3)) (MyPromise.resolve (Val.str "bad") State.init).2 ++
            [(3, (PromiseRec.fulfilledWith (Val.str "bad")).value)]) :=
  ⟨rfl, fun _ => rfl,
    ((C7_handler_throw_rejects sampleEnv (MyPromise.resolve (Val.str "bad") State.init).2 0
      (PromiseRec.fulfilledWith (Val.str "bad")) 3 Val.undefined (Val.str "bad") rfl
      (by unfold QuietHeap; decide) (by unfold QuietQueue; decide)).1 rfl (fun _ => rfl)).1⟩

/-- C8: `p.catch(h)` is `p.then(undefined, h)`: the same instance is returned and the
same state results, for every `p`, `h` and state.  For every reason `r` and every user
function `h` that returns a plain value `x` when called with `r`, the drain of the queue
after `MyPromise.reject(r).catch(h)` returns, and the instance that `catch` returned is
fulfilled with `x` at the end (in any state in which no callback or timer can settle the
address that this instance will get); and `MyPromise.reject('boom').catch(r => r + '!')`
is fulfilled with `'boom!'`. -/
theorem C8_catch_is_then (env : Env) :
    (∀ p h s, MyPromise.catch_ p h s = MyPromise.then_ p Val.undefined h s) ∧
    (∀ (s : State) (r x : Val) (h : Nat), QuietHeap (s.promises.length + 1) s →
      QuietQueue (s.promises.length + 1) s →
      (∀ lg, (env.userFn h lg r).2 = Completion.normal x) → isPlain env x = true →
      ∃ fuel s3,
        (∀ k, drain env (fuel + k) (MyPromise.catch_ (MyPromise.reject r s).1
          (Val.fn (FnRef.user h)) (MyPromise.reject r s).2).2 = some s3) ∧
        coreOf s3 (MyPromise.catch_ (MyPromise.reject r s).1 (Val.fn (FnRef.user h))
          (MyPromise.reject r s).2).1 = some (PState.fulfilled, x, Val.undefined)) ∧
    (∀ fuel,
      (drain sampleEnv (fuel + 1) (MyPromise.catch_ 0 (Val.fn (FnRef.user 1))
        (MyPromise.reject (Val.str "boom") State.init).2).2).map (fun s3 => s3.promises[1]?) =
        some (some (PromiseRec.fulfilledWith (Val.str "boom!")))) := by
  refine ⟨fun p h s => rfl, ?_, fun fuel => by cases fuel <;> rfl⟩
  intro s r x h hheap hqueue hret hplain
  rw [reject_eq]
  have hheap1 : QuietHeap (s.promises.length + 1)
      { s with promises := s.promises ++ [PromiseRec.rejectedWith r] } := by
    intro m hm
    rcases List.mem_append.mp hm with h1 | h1
    · exact hheap m h1
    · simp only [List.mem_singleton] at h1
      subst h1
      simp [PromiseRec.rejectedWith]
  obtain ⟨h1, _, fuel, s3, hd, hcore⟩ := then_settled_direct env
    { s with promises := s.promises ++ [PromiseRec.rejectedWith r] } s.promises.length
    (PromiseRec.rejectedWith r) Val.null (Val.fn (FnRef.user h)) (FnRef.user h) r
    (Completion.normal x) (by simp) (Or.inr ⟨rfl, rfl, rfl⟩)
    (callFn_user_const env h _ _ hret) hplain
    (by simpa using hheap1) (by simpa using hqueue)
  refine ⟨fuel, s3, hd, ?_⟩
  unfold MyPromise.catch_
  rw [h1]
  exact hcore

theorem C8_catch_is_then_witness :
    QuietHeap 2 (MyPromise.resolve (Val.num 1) State.init).2 ∧
    QuietQueue 2 (MyPromise.resolve (Val.num 1) State.init).2 ∧
    ∃ fuel s3,
      (∀ k, drain sampleEnv (fuel + k)
        (MyPromise.catch_ (MyPromise.reject (Val.num 3)
            (MyPromise.resolve (Val.num 1) State.init).2).1 (Val.fn (FnRef.user 4))
          (MyPromise.reject (Val.num 3) (MyPromise.resolve (Val.num 1) State.init).2).2).2 =
        some s3) ∧
      coreOf s3 (MyPromise.catch_ (MyPromise.reject (Val.num 3)
            (MyPromise.resolve (Val.num 1) State.init).2).1 (Val.fn (FnRef.user 4))
          (MyPromise.reject (Val.num 3) (MyPromise.resolve (Val.num 1) State.init).2).2).1 =
        some (PState.fulfilled, Val.num 3, Val.undefined) :=
  ⟨by unfold QuietHeap; decide, by unfold QuietQueue; decide,
    (C8_catch_is_then sampleEnv).2.1 (MyPromise.resolve (Val.num 1) State.init).2 (Val.num 3)
      (Val.num 3) 4 (by unfold QuietHeap; decide) (by unfold QuietQueue; decide)
      (fun _ => rfl) rfl⟩

theorem resolvePromise_self (env : Env) (p2 : Nat) (res rej : FnRef) (s : State) :
    resolvePromise env p2 (Val.promise p2) res rej s = callFn env rej cycleError s := by
  simp [resolvePromise]

/-- C9: a call of `resolvePromise(promise2, x, resolve, reject)` with `x` the instance
`promise2` itself is exactly one call of `reject` with the `TypeError`, in the unchanged
state: with user functions as `resolve` and `reject`, the trace of calls grows by the one
call of `reject`, and no `then` member is read; with the capabilities of a pending
`promise2`, the instance ends rejected with the `TypeError`.  When `p` is fulfilled and
the handler of `p.then(h)` returns the very instance that this `then` call returned, the
drain of the queue returns and that instance is rejected with the `TypeError` at the end
(in any state in which no callback or timer can settle its address), and the timer of
the handler reads no `then` member. -/
theorem C9_cycle_is_rejected (env : Env) :
    (∀ p2 res rej s, resolvePromise env p2 (Val.promise p2) res rej s =
      callFn env rej cycleError s) ∧
    (∀ p2 i j s, ∃ c s1,
      resolvePromise env p2 (Val.promise p2) (FnRef.user i) (FnRef.user j) s = (c, s1) ∧
      s1.calls = s.calls ++ [(j, cycleError)] ∧ s1.thenReads = s.thenReads ∧
      s1.promises = s.promises) ∧
    (∀ p2 r2 s, s.promises[p2]? = some r2 → r2.state = PState.pending → ∃ s1,
      resolvePromise env p2 (Val.promise p2) (FnRef.resolveCap p2)
        (FnRef.rejectCap p2) s = (Completion.normal Val.undefined, s1) ∧
      s1.promises[p2]? = some (r2.toRejected cycleError) ∧ s1.thenReads = s.thenReads) ∧
    (∀ (s : State) p r h g, s.promises[p]? = some r → r.state = PState.fulfilled →
      QuietHeap s.promises.length s → QuietQueue s.promises.length s →
      (∀ lg, (env.userFn h lg r.value).2 = Completion.normal (Val.promise s.promises.length)) →
      (MyPromise.then_ p (Val.fn (FnRef.user h)) g s).1 = s.promises.length ∧
      (∃ fuel s3,
        (∀ k, drain env (fuel + k) (MyPromise.then_ p (Val.fn (FnRef.user h)) g s).2 =
          some s3) ∧
        coreOf s3 s.promises.length = some (PState.rejected, Val.undefined, cycleError)) ∧
      ∀ s1, s1.promises[p]? = some r →
        (runTask env (Task.fulfilledTask p (FnRef.user h) s.promises.length) s1).thenReads =
          s1.thenReads) := by
  refine ⟨resolvePromise_self env, ?_, ?_, ?_⟩
  · intro p2 i j s
    rw [resolvePromise_self]
    exact ⟨_, _, rfl, rfl, rfl, rfl⟩
  · intro p2 r2 s hr hs
    rw [resolvePromise_self]
    refine ⟨_, rfl, ?_, ?_⟩
    · rw [settleReject_pending_eq p2 _ s r2 hr hs]
      exact List.getElem?_set_self (List.getElem?_eq_some.mp hr).1
    · rw [settleReject_pending_eq p2 _ s r2 hr hs]
  · intro s p r h g hr hs hheap hqueue hret
    have hT := then_fulfilled p (Val.fn (FnRef.user h)) g s r hr hs
    have hrunT : ∀ s1, s1.promises[p]? = some r →
        runTask env (Task.fulfilledTask p (FnRef.user h) s.promises.length) s1 =
          settleReject s.promises.length cycleError
            (recordCall h r.value (env.userFn h s1.log r.value).1 s1) := by
      intro s1 h1
      simp only [runTask]
      rw [fieldValue_eq _ _ _ h1, runHandler_user_eq, hret]
      simp only
      rw [resolvePromise_self]
      rfl
    refine ⟨by rw [hT], ?_, ?_⟩
    · refine then_drain_core env s p r (Val.fn (FnRef.user h)) g
        (Task.fulfilledTask p (FnRef.user h) s.promises.length)
        (PState.rejected, Val.undefined, cycleError) hr (by simp [hs]) (by rw [hT]; rfl)
        (by simp) ?_ hheap hqueue
      intro s1 h1 h2
      rw [hrunT s1 h2]
      exact settleWith_core (Completion.throw cycleError) _ _ h1
    · intro s1 h1
      rw [hrunT s1 h1]
      obtain ⟨ps, ts, hsh⟩ := settleReject_shape s.promises.length cycleError
        (recordCall h r.value (env.userFn h s1.log r.value).1 s1)
      rw [hsh]
      rfl

theorem C9_cycle_is_rejected_witness :
    (MyPromise.resolve (Val.num 1) State.init).2.promises[0]? =
      some (PromiseRec.fulfilledWith (Val.num 1)) ∧
    QuietHeap 1 (MyPromise.resolve (Val.num 1) State.init).2 ∧
    QuietQueue 1 (MyPromise.resolve (Val.num 1) State.init).2 ∧
    (∀ lg, (sampleEnv.userFn 2 lg (Val.num 1)).2 = Completion.normal (Val.promise 1)) ∧
    (MyPromise.then_ 0 (Val.fn (FnRef.user 2)) Val.undefined
      (MyPromise.resolve (Val.num 1) State.init).2).1 = 1 ∧
    ∃ fuel s3,
      (∀ k, drain sampleEnv (fuel + k) (MyPromise.then_ 0 (Val.fn (FnRef.user 2)) Val.undefined
        (MyPromise.resolve (Val.num 1) State.init).2).2 = some s3) ∧
      coreOf s3 1 = some (PState.rejected, Val.undefined, cycleError) :=
  ⟨rfl, by unfold QuietHeap; decide, by unfold QuietQueue; decide, fun _ => rfl, rfl,
    ((C9_cycle_is_rejected sampleEnv).2.2.2 (MyPromise.resolve (Val.num 1) State.init).2 0
      (PromiseRec.fulfilledWith (Val.num 1)) 2 Val.undefined rfl rfl
      (by unfold QuietHeap; decide) (by unfold QuietQueue; decide) (fun _ => rfl)).2.1⟩

theorem latchSet_setLatch (l : Nat) (s : State) (h : l < s.latches.length) :
    latchSet l (setLatch l s) = true := by
  simp [latchSet, setLatch, List.getElem?_set_self h]

/-- Once the latch is set, the rest of a `then` method changes neither the heap nor the
latches: its direct calls of the two callbacks do nothing, its later calls are queued. -/
theorem runActs_latched (env : Env) (l p2 : Nat) (res rej : FnRef) (acts : List TAct) :
    ∀ s, latchSet l s = true →
      ∃ s1, runActs env (FnRef.rpResolve l p2 res rej) (FnRef.rpReject l rej) acts s =
          (Completion.normal Val.undefined, s1) ∧
        s1.promises = s.promises ∧ s1.latches = s.latches := by
  induction acts with
  | nil => intro s _; exact ⟨s, rfl, rfl, rfl⟩
  | cons a rest ih =>
    intro s hl
    cases a with
    | resolveNow y =>
      obtain ⟨s1, h1, h2, h3⟩ := ih s hl
      exact ⟨s1, by simp only [runActs, callFn, hl, if_true]; exact h1, h2, h3⟩
    | rejectNow r =>
      obtain ⟨s1, h1, h2, h3⟩ := ih s hl
      exact ⟨s1, by simp only [runActs, callFn, hl, if_true]; exact h1, h2, h3⟩
    | resolveLater y =>
      obtain ⟨s1, h1, h2, h3⟩ :=
        ih (setTimeout (Task.callback (FnRef.rpResolve l p2 res rej) y) s) hl
      exact ⟨s1, by simp only [runActs]; exact h1, h2, h3⟩
    | rejectLater r =>
      obtain ⟨s1, h1, h2, h3⟩ := ih (setTimeout (Task.callback (FnRef.rpReject l rej) r) s) hl
      exact ⟨s1, by simp only [runActs]; exact h1, h2, h3⟩

/-- The first direct callback invocation of a `then` method is a call of the first
callback: the latch is set and the heap is as before, whatever follows. -/
theorem runActs_first_resolve (env : Env) (l p2 : Nat) (res rej : FnRef) (a : Val)
    (acts : List TAct) :
    ∀ s, firstNow acts = some (TAct.resolveNow a) → l < s.latches.length →
      latchSet l s = false →
      ∃ s1, runActs env (FnRef.rpResolve l p2 res rej) (FnRef.rpReject l rej) acts s =
          (Completion.normal Val.undefined, s1) ∧
        s1.promises = s.promises ∧ latchSet l s1 = true := by
  induction acts with
  | nil => intro s hf; simp [firstNow] at hf
  | cons act rest ih =>
    intro s hf hlt hun
    cases act with
    | resolveNow y =>
      obtain ⟨s1, h1, h2, h3⟩ := runActs_latched env l p2 res rej rest (setLatch l s)
        (latchSet_setLatch l s hlt)
      refine ⟨s1, ?_, h2, ?_⟩
      · simp only [runActs, callFn, hun]
        exact h1
      · simp only [latchSet, h3]
        exact latchSet_setLatch l s hlt
    | rejectNow r => simp [firstNow] at hf
    | resolveLater y =>
      simp only [firstNow] at hf
      obtain ⟨s1, h1, h2, h3⟩ := ih (setTimeout (Task.callback _ y) s) hf hlt hun
      exact ⟨s1, by simp only [runActs]; exact h1, h2, h3⟩
    | rejectLater r =>
      simp only [firstNow] at hf
      obtain ⟨s1, h1, h2, h3⟩ := ih (setTimeout (Task.callback _ r) s) hf hlt hun
      exact ⟨s1, by simp only [runActs]; exact h1, h2, h3⟩

/-- C10: the latch does what is claimed for later invocations (when it is set, a call of
either callback returns with the state unchanged), and a first invocation of the reject
callback sets it and calls `reject`.  But a first invocation of the resolve callback only
sets the latch: the call `resolvePromise(promise2, y, resolve, reject)` of line 141 is
inside the function expression named `resolvePromise` (line 138), so it calls that
callback again, which returns at line 139.  So for every thenable whose `then` method
calls its resolve callback first, the heap after `resolvePromise` is the heap before,
and `promise2` is not fulfilled; for the thenable that calls the callback with 1 then 2,
`promise2` of `MyPromise.resolve(x).then(v => v)` is still pending after the drain. -/
theorem C10_first_call_wins (env : Env) :
    (∀ called p2 res rej y s, latchSet called s = true →
      callFn env (FnRef.rpResolve called p2 res rej) y s =
        (Completion.normal Val.undefined, s)) ∧
    (∀ called rej r s, latchSet called s = true →
      callFn env (FnRef.rpReject called rej) r s = (Completion.normal Val.undefined, s)) ∧
    (∀ called p2 r s, latchSet called s = false →
      callFn env (FnRef.rpReject called (FnRef.rejectCap p2)) r s =
        (Completion.normal Val.undefined, settleReject p2 r (setLatch called s))) ∧
    (∀ called p2 res rej y s, latchSet called s = false →
      callFn env (FnRef.rpResolve called p2 res rej) y s =
        (Completion.normal Val.undefined, setLatch called s)) ∧
    (∀ id acts throws a p2 s, env.thenOf id = ThenMember.method acts throws →
      firstNow acts = some (TAct.resolveNow a) →
      ∃ s1, resolvePromise env p2 (Val.obj id) (FnRef.resolveCap p2) (FnRef.rejectCap p2) s =
          (Completion.normal Val.undefined, s1) ∧
        s1.promises = s.promises) ∧
    (sampleEnv.thenOf 0 =
        ThenMember.method [TAct.resolveNow (Val.num 1), TAct.resolveNow (Val.num 2)] none ∧
      (MyPromise.then_ 0 (Val.fn (FnRef.user 4)) Val.undefined
        (MyPromise.resolve (Val.obj 0) State.init).2).1 = 1 ∧
      ∀ fuel, (drain sampleEnv (fuel + 1)
        (MyPromise.then_ 0 (Val.fn (FnRef.user 4)) Val.undefined
          (MyPromise.resolve (Val.obj 0) State.init).2).2).map
            (fun s3 => (s3.promises[1]?, s3.calls, s3.timers)) =
          some (some PromiseRec.fresh, [(4, Val.obj 0)], [])) := by
  refine ⟨?_, ?_, ?_, ?_, ?_, rfl, rfl, ?_⟩
  · intro called p2 res rej y s h
    simp [callFn, h]
  · intro called rej r s h
    simp [callFn, h]
  · intro called p2 r s h
    simp [callFn, h, discard]
  · intro called p2 res rej y s h
    simp [callFn, h]
  · intro id acts throws a p2 s hthen hfirst
    obtain ⟨s1, h1, h2, h3⟩ := runActs_first_resolve env s.latches.length p2
      (FnRef.resolveCap p2) (FnRef.rejectCap p2) a acts
      (recordThenRead (Val.obj id) (newLatch s).2) hfirst
      (by simp [recordThenRead, newLatch]) (by simp [latchSet, recordThenRead, newLatch])
    refine ⟨s1, ?_, by rw [h2]; rfl⟩
    simp only [resolvePromise, isObjectLike, rpTry, readThen, hthen, runThenMethod, newLatch]
    simp only [newLatch] at h1
    rw [if_neg (by simp), if_pos trivial, h1]
    cases throws with
    | none => rfl
    | some e =>
      simp only [rpCatch]
      rw [if_pos h3]
  · intro fuel
    cases fuel <;> rfl

theorem C10_first_call_wins_witness :
    latchSet 0 (setLatch 0 (newLatch State.init).2) = true ∧
    callFn sampleEnv (FnRef.rpResolve 0 0 (FnRef.resolveCap 0) (FnRef.rejectCap 0)) (Val.num 2)
        (setLatch 0 (newLatch State.init).2) =
      (Completion.normal Val.undefined, setLatch 0 (newLatch State.init).2) ∧
    latchSet 0 (newLatch State.init).2 = false ∧
    callFn sampleEnv (FnRef.rpResolve 0 0 (FnRef.resolveCap 0) (FnRef.rejectCap 0)) (Val.num 1)
        (newLatch State.init).2 =
      (Completion.normal Val.undefined, setLatch 0 (newLatch State.init).2) :=
  ⟨rfl, (C10_first_call_wins sampleEnv).1 0 0 _ _ (Val.num 2) _ rfl, rfl,
    (C10_first_call_wins sampleEnv).2.2.2.1 0 0 _ _ (Val.num 1) _ rfl⟩

/-- The first direct callback invocation of a `then` method sets the latch, and the latch
is still set when the method returns or throws. -/
theorem runActs_first_latches (env : Env) (l p2 : Nat) (res rej : FnRef) (act : TAct)
    (acts : List TAct) :
    ∀ s, firstNow acts = some act → l < s.latches.length →
      latchSet l (runActs env (FnRef.rpResolve l p2 res rej) (FnRef.rpReject l rej)
        acts s).2 = true := by
  induction acts with
  | nil => intro s hf; simp [firstNow] at hf
  | cons a rest ih =>
    intro s hf hlt
    have hfr : ∀ s1, Frame s1 (runActs env (FnRef.rpResolve l p2 res rej)
        (FnRef.rpReject l rej) rest s1).2 := fun s1 =>
      (runActs_steps (fun _ => false) env _ _ (avoids_none _) (avoids_none _) rest s1).toFrame
    cases a with
    | resolveNow y =>
      by_cases hl : latchSet l s = true
      · simp only [runActs, callFn, hl, if_true]
        exact (hfr s).2.1 l hl
      · simp only [runActs, callFn, hl, if_false]
        exact (hfr _).2.1 l (latchSet_setLatch l s hlt)
    | rejectNow r =>
      by_cases hl : latchSet l s = true
      · simp only [runActs, callFn, hl, if_true]
        exact (hfr s).2.1 l hl
      · have hset := latchSet_setLatch l s hlt
        have hc : Frame (setLatch l s) (callFn env rej r (setLatch l s)).2 :=
          (callFn_steps (fun _ => false) env rej r _ (avoids_none _)).toFrame
        have hl1 := hc.2.1 l hset
        simp only [runActs, callFn, hl, if_false]
        generalize callFn env rej r (setLatch l s) = cr at hl1
        obtain ⟨c, s1⟩ := cr
        cases c with
        | normal v => exact (hfr _).2.1 l hl1
        | throw e => exact hl1
    | resolveLater y =>
      simp only [firstNow] at hf
      simp only [runActs]
      exact ih _ hf (by simpa [setTimeout] using hlt)
    | rejectLater r =>
      simp only [firstNow] at hf
      simp only [runActs]
      exact ih _ hf (by simpa [setTimeout] using hlt)

/-- A `then` method that invokes no callback during its own call: the latch is as before,
and so is the heap. -/
theorem runActs_none_now (env : Env) (onF onR : FnRef) (acts : List TAct) :
    ∀ s, firstNow acts = none →
      ∃ ts, runActs env onF onR acts s =
        (Completion.normal Val.undefined, { s with timers := s.timers ++ ts }) := by
  induction acts with
  | nil => intro s _; exact ⟨[], by simp [runActs]⟩
  | cons a rest ih =>
    intro s hf
    cases a with
    | resolveNow y => simp [firstNow] at hf
    | rejectNow r => simp [firstNow] at hf
    | resolveLater y =>
      simp only [firstNow] at hf
      obtain ⟨ts, h⟩ := ih (setTimeout (Task.callback onF y) s) hf
      exact ⟨Task.callback onF y :: ts, by simp only [runActs]; rw [h]; simp [setTimeout]⟩
    | rejectLater r =>
      simp only [firstNow] at hf
      obtain ⟨ts, h⟩ := ih (setTimeout (Task.callback onR r) s) hf
      exact ⟨Task.callback onR r :: ts, by simp only [runActs]; rw [h]; simp [setTimeout]⟩

theorem latchSet_newLatch (x : Val) (s : State) :
    latchSet s.latches.length (recordThenRead x (newLatch s).2) = false := by
  simp [latchSet, recordThenRead, newLatch]

/-- The first direct callback invocation of a `then` method is a call of the reject
callback: `promise2` is rejected with its argument, whatever follows. -/
theorem runActs_first_reject (env : Env) (l p2 : Nat) (e : Val) (r2 : PromiseRec)
    (hs : r2.state = PState.pending) (acts : List TAct) :
    ∀ s, firstNow acts = some (TAct.rejectNow e) → l < s.latches.length →
      latchSet l s = false → s.promises[p2]? = some r2 →
      (runActs env (FnRef.rpResolve l p2 (FnRef.resolveCap p2) (FnRef.rejectCap p2))
        (FnRef.rpReject l (FnRef.rejectCap p2)) acts s).2.promises[p2]? =
          some (r2.toRejected e) := by
  induction acts with
  | nil => intro s hf; simp [firstNow] at hf
  | cons act rest ih =>
    intro s hf hlt hun hr2
    cases act with
    | resolveNow y => simp [firstNow] at hf
    | rejectNow r =>
      simp only [firstNow, Option.some.injEq, TAct.rejectNow.injEq] at hf
      subst hf
      have hmid : (setLatch l s).promises[p2]? = some r2 := hr2
      have hlatch : latchSet l (settleReject p2 r (setLatch l s)) = true := by
        obtain ⟨ps, ts, hsh⟩ := settleReject_shape p2 r (setLatch l s)
        rw [hsh]
        exact latchSet_setLatch l s hlt
      obtain ⟨s1, h1, h2, _⟩ := runActs_latched env l p2 (FnRef.resolveCap p2)
        (FnRef.rejectCap p2) rest _ hlatch
      simp only [runActs, callFn, hun, discard, Bool.false_eq_true, if_false]
      rw [h1]
      show s1.promises[p2]? = _
      rw [h2, settleReject_pending_eq p2 r _ r2 hmid hs]
      exact List.getElem?_set_self (List.getElem?_eq_some.mp hmid).1
    | resolveLater y =>
      simp only [firstNow] at hf
      simp only [runActs]
      exact ih _ hf (by simpa [setTimeout] using hlt) hun hr2
    | rejectLater r =>
      simp only [firstNow] at hf
      simp only [runActs]
      exact ih _ hf (by simpa [setTimeout] using hlt) hun hr2

/-- The resolution procedure on a foreign object whose `then` method invokes a callback
during its own call and throws afterwards: it returns normally, in the state in which
the steps of the method ended. -/
theorem resolvePromise_late_throw (env : Env) (id : Nat) (acts : List TAct) (e : Val)
    (act : TAct) (p2 : Nat) (res rej : FnRef) (s : State)
    (hthen : env.thenOf id = ThenMember.method acts (some e))
    (hfirst : firstNow acts = some act) :
    resolvePromise env p2 (Val.obj id) res rej s =
      (Completion.normal Val.undefined,
        (runActs env (FnRef.rpResolve s.latches.length p2 res rej)
          (FnRef.rpReject s.latches.length rej) acts
          (recordThenRead (Val.obj id) (newLatch s).2)).2) := by
  have hl := runActs_first_latches env s.latches.length p2 res rej act acts
    (recordThenRead (Val.obj id) (newLatch s).2) hfirst (by simp [recordThenRead, newLatch])
  simp only [resolvePromise, isObjectLike, rpTry, readThen, hthen, runThenMethod]
  rw [if_neg (by simp), if_pos trivial]
  simp only [newLatch] at hl ⊢
  generalize runActs env _ _ acts _ = ra at hl ⊢
  obtain ⟨c, s1⟩ := ra
  cases c with
  | normal v => simp only [rpCatch]; rw [if_pos hl]
  | throw e1 => simp only [rpCatch]; rw [if_pos hl]

/-- The resolution procedure on a foreign object whose `then` method throws `e` and has
invoked no callback during its call: `reject(e)` is called, in the state in which the
method ended (it may have scheduled calls of its callbacks). -/
theorem resolvePromise_early_throw (env : Env) (id : Nat) (acts : List TAct) (e : Val)
    (p2 : Nat) (res rej : FnRef) (s : State)
    (hthen : env.thenOf id = ThenMember.method acts (some e))
    (hfirst : firstNow acts = none) :
    ∃ ts, resolvePromise env p2 (Val.obj id) res rej s =
      discard (callFn env rej e
        (setLatch s.latches.length
          { recordThenRead (Val.obj id) (newLatch s).2 with timers := s.timers ++ ts })) := by
  obtain ⟨ts, h⟩ := runActs_none_now env (FnRef.rpResolve s.latches.length p2 res rej)
    (FnRef.rpReject s.latches.length rej) acts (recordThenRead (Val.obj id) (newLatch s).2)
    hfirst
  refine ⟨ts, ?_⟩
  simp only [resolvePromise, isObjectLike, rpTry, readThen, hthen, runThenMethod]
  rw [if_neg (by simp), if_pos trivial]
  simp only [newLatch] at h ⊢
  rw [h]
  simp only [rpCatch]
  rw [if_neg (by simp [latchSet, recordThenRead])]
  rfl

/-- The resolution procedure on a foreign object whose `then` member throws `e` when it
is read: `reject(e)` is called. -/
theorem resolvePromise_getter_throws (env : Env) (id : Nat) (e : Val) (p2 : Nat)
    (res rej : FnRef) (s : State) (hthen : env.thenOf id = ThenMember.getterThrows e) :
    resolvePromise env p2 (Val.obj id) res rej s =
      discard (callFn env rej e
        (setLatch s.latches.length (recordThenRead (Val.obj id) (newLatch s).2))) := by
  simp only [resolvePromise, isObjectLike, rpTry, readThen, hthen]
  rw [if_neg (by simp), if_pos trivial]
  simp only [rpCatch, newLatch]
  rw [if_neg (by simp [latchSet, recordThenRead])]

/-- C11: for a foreign object `x` and a pending `promise2` with its own capabilities: when
reading `x.then` throws `e`, and when the `then` method throws `e` without having invoked
a callback during its call, `resolvePromise` calls `reject(e)` (once, and `resolve` not at
all) and `promise2` is rejected with `e`.  When the method throws after it has invoked a
callback, `resolvePromise` returns normally in the state in which the steps of the method
ended, so the error is ignored; when that first callback was the reject callback with
`r`, `promise2` is rejected with `r`.  But when that first callback was the resolve
callback with `y`, no outcome was set that could stand: the callback of lines 138-142
only sets the latch (the call of line 141 is a call of that callback itself), so
`promise2` is left pending, with all its fields as before.  For the thenable
`{ then(res) { res(1); throw 'late' } }`, `promise2` of `MyPromise.resolve(x).then(v => v)`
is still pending after the drain, not fulfilled with 1. -/
theorem C11_thenable_failure_rejects (env : Env) (id p2 : Nat) (e : Val) (r2 : PromiseRec)
    (s : State) (hr : s.promises[p2]? = some r2) (hs : r2.state = PState.pending) :
    (env.thenOf id = ThenMember.getterThrows e →
      (∀ res rej, resolvePromise env p2 (Val.obj id) res rej s =
        discard (callFn env rej e
          (setLatch s.latches.length (recordThenRead (Val.obj id) (newLatch s).2)))) ∧
      (resolvePromise env p2 (Val.obj id) (FnRef.resolveCap p2) (FnRef.rejectCap p2)
        s).2.promises[p2]? = some (r2.toRejected e)) ∧
    (∀ acts, env.thenOf id = ThenMember.method acts (some e) → firstNow acts = none →
      (∀ res rej, ∃ ts, resolvePromise env p2 (Val.obj id) res rej s =
        discard (callFn env rej e
          (setLatch s.latches.length
            { recordThenRead (Val.obj id) (newLatch s).2 with timers := s.timers ++ ts }))) ∧
      (resolvePromise env p2 (Val.obj id) (FnRef.resolveCap p2) (FnRef.rejectCap p2)
        s).2.promises[p2]? = some (r2.toRejected e)) ∧
    (∀ acts act, env.thenOf id = ThenMember.method acts (some e) → firstNow acts = some act →
      (∀ res rej, resolvePromise env p2 (Val.obj id) res rej s =
        (Completion.normal Val.undefined,
          (runActs env (FnRef.rpResolve s.latches.length p2 res rej)
            (FnRef.rpReject s.latches.length rej) acts
            (recordThenRead (Val.obj id) (newLatch s).2)).2)) ∧
      (∀ r, act = TAct.rejectNow r →
        (resolvePromise env p2 (Val.obj id) (FnRef.resolveCap p2) (FnRef.rejectCap p2)
          s).2.promises[p2]? = some (r2.toRejected r)) ∧
      (∀ y, act = TAct.resolveNow y →
        (resolvePromise env p2 (Val.obj id) (FnRef.resolveCap p2) (FnRef.rejectCap p2)
          s).2.promises = s.promises ∧
        (resolvePromise env p2 (Val.obj id) (FnRef.resolveCap p2) (FnRef.rejectCap p2)
          s).2.promises[p2]? = some r2)) ∧
    (brokenEnv.thenOf 2 =
        ThenMember.method [TAct.resolveNow (Val.num 1)] (some (Val.str "late")) ∧
      (MyPromise.then_ 0 (Val.fn (FnRef.user 4)) Val.undefined
        (MyPromise.resolve (Val.obj 2) State.init).2).1 = 1 ∧
      ∀ fuel, (drain brokenEnv (fuel + 1)
        (MyPromise.then_ 0 (Val.fn (FnRef.user 4)) Val.undefined
          (MyPromise.resolve (Val.obj 2) State.init).2).2).map
            (fun s3 => (s3.promises[1]?, s3.calls, s3.timers, s3.uncaught)) =
          some (some PromiseRec.fresh, [(4, Val.obj 2)], [], [])) := by
  have key : ∀ s1 : State, s1.promises = s.promises →
      (callFn env (FnRef.rejectCap p2) e s1).2.promises[p2]? = some (r2.toRejected e) := by
    intro s1 h1
    simp only [callFn]
    rw [settleReject_pending_eq p2 e s1 r2 (by rw [h1]; exact hr) hs]
    show (s1.promises.set p2 (r2.toRejected e))[p2]? = _
    rw [h1]
    exact List.getElem?_set_self (List.getElem?_eq_some.mp hr).1
  refine ⟨fun hthen => ⟨fun res rej => resolvePromise_getter_throws env id e p2 res rej s hthen,
    ?_⟩, fun acts hthen hfirst => ⟨fun res rej =>
      resolvePromise_early_throw env id acts e p2 res rej s hthen hfirst, ?_⟩,
    fun acts act hthen hfirst => ⟨fun res rej =>
      resolvePromise_late_throw env id acts e act p2 res rej s hthen hfirst, ?_, ?_⟩,
    rfl, rfl, fun fuel => by cases fuel <;> rfl⟩
  · rw [resolvePromise_getter_throws env id e p2 _ _ s hthen, discard_snd]
    exact key _ rfl
  · obtain ⟨ts, h⟩ := resolvePromise_early_throw env id acts e p2 (FnRef.resolveCap p2)
      (FnRef.rejectCap p2) s hthen hfirst
    rw [h, discard_snd]
    exact key _ rfl
  · intro r hact
    subst hact
    rw [resolvePromise_late_throw env id acts e _ p2 _ _ s hthen hfirst]
    exact runActs_first_reject env s.latches.length p2 r r2 hs acts _ hfirst
      (by simp [recordThenRead, newLatch]) (latchSet_newLatch _ s) hr
  · intro y hact
    subst hact
    obtain ⟨s1, h1, h2, _⟩ := runActs_first_resolve env s.latches.length p2
      (FnRef.resolveCap p2) (FnRef.rejectCap p2) y acts
      (recordThenRead (Val.obj id) (newLatch s).2) hfirst
      (by simp [recordThenRead, newLatch]) (latchSet_newLatch _ s)
    have hp : (resolvePromise env p2 (Val.obj id) (FnRef.resolveCap p2) (FnRef.rejectCap p2)
        s).2.promises = s.promises := by
      rw [resolvePromise_late_throw env id acts e _ p2 _ _ s hthen hfirst, h1]
      exact h2
    exact ⟨hp, by rw [hp]; exact hr⟩

theorem C11_thenable_failure_rejects_witness :
    (MyPromise.construct (UserExecutor.run ⟨[], none⟩) State.init).2.promises[0]? =
      some PromiseRec.fresh ∧
    (resolvePromise brokenEnv 0 (Val.obj 0) (FnRef.resolveCap 0) (FnRef.rejectCap 0)
      (MyPromise.construct (UserExecutor.run ⟨[], none⟩) State.init).2).2.promises[0]? =
        some (PromiseRec.fresh.toRejected (Val.str "getter")) ∧
    (resolvePromise brokenEnv 0 (Val.obj 1) (FnRef.resolveCap 0) (FnRef.rejectCap 0)
      (MyPromise.construct (UserExecutor.run ⟨[], none⟩) State.init).2).2.promises[0]? =
        some (PromiseRec.fresh.toRejected (Val.str "early")) ∧
    (resolvePromise sampleEnv 0 (Val.obj 1) (FnRef.resolveCap 0) (FnRef.rejectCap 0)
      (MyPromise.construct (UserExecutor.run ⟨[], none⟩) State.init).2).2.promises[0]? =
        some (PromiseRec.fresh.toRejected (Val.str "no")) ∧
    (resolvePromise brokenEnv 0 (Val.obj 2) (FnRef.resolveCap 0) (FnRef.rejectCap 0)
      (MyPromise.construct (UserExecutor.run ⟨[], none⟩) State.init).2).2.promises[0]? =
        some PromiseRec.fresh :=
  ⟨rfl,
    ((C11_thenable_failure_rejects brokenEnv 0 0 (Val.str "getter") PromiseRec.fresh
      (MyPromise.construct (UserExecutor.run ⟨[], none⟩) State.init).2 rfl rfl).1 rfl).2,
    ((C11_thenable_failure_rejects brokenEnv 1 0 (Val.str "early") PromiseRec.fresh
      (MyPromise.construct (UserExecutor.run ⟨[], none⟩) State.init).2 rfl rfl).2.1
        _ rfl rfl).2,
    ((C11_thenable_failure_rejects sampleEnv 1 0 (Val.str "late") PromiseRec.fresh
      (MyPromise.construct (UserExecutor.run ⟨[], none⟩) State.init).2 rfl rfl).2.2.1
        _ _ rfl rfl).2.1 (Val.str "no") rfl,
    (((C11_thenable_failure_rejects brokenEnv 2 0 (Val.str "late") PromiseRec.fresh
      (MyPromise.construct (UserExecutor.run ⟨[], none⟩) State.init).2 rfl rfl).2.2.1
        _ _ rfl rfl).2.2 (Val.num 1) rfl).2⟩

/-- The resolution procedure on a plain value, with a `resolve` that returns: `resolve(x)`
is called, after the read of `x.then` when `x` is an object, and that is all. -/
theorem resolvePromise_plain_call (env : Env) (p2 : Nat) (x : Val) (res rej : FnRef)
    (s : State) (hx : isPlain env x = true)
    (hres : ∀ s1, ∃ v, (callFn env res x s1).1 = Completion.normal v) :
    resolvePromise env p2 x res rej s =
      (Completion.normal Val.undefined,
        (callFn env res x
          (if isObjectLike x then recordThenRead x (newLatch s).2 else (newLatch s).2)).2) := by
  have hne : x ≠ Val.promise p2 := by
    intro h
    subst h
    simp [isPlain, isObjectLike, readThen] at hx
  unfold resolvePromise
  rw [if_neg hne]
  by_cases hobj : isObjectLike x = true
  · have hread : readThen env x = ThenValue.notFunction := by
      simpa [isPlain, hobj] using hx
    rw [if_pos hobj, if_pos hobj]
    simp only [rpTry, hread]
    obtain ⟨v, hv⟩ := hres (recordThenRead x (newLatch s).2)
    generalize callFn env res x _ = cr at hv
    obtain ⟨c, s1⟩ := cr
    simp only at hv
    subst hv
    rfl
  · rw [if_neg hobj, if_neg hobj]
    obtain ⟨v, hv⟩ := hres (newLatch s).2
    generalize callFn env res x _ = cr at hv
    obtain ⟨c, s1⟩ := cr
    simp only at hv
    subst hv
    rfl

/-- C12: for every plain value `x` (not object-like, or an object whose `then` member is
read without error and is not a function; the instance `promise2` itself is not plain),
`resolvePromise(promise2, x, resolve, reject)` with the capabilities of `promise2` is the
one call `resolve(x)`: a pending `promise2` is fulfilled with `x`, and nothing else of
the heap or the queue changes than by that call.  With user functions `i` and `j` in
their place, where `i` returns when called with `x`, the trace of calls grows by exactly
the call `(i, x)`: `resolve` is called once with `x`, `reject` is not called. -/
theorem C12_plain_value_resolves (env : Env) (p2 : Nat) (x : Val)
    (hx : isPlain env x = true) :
    x ≠ Val.promise p2 ∧
    (∀ s, resolvePromise env p2 x (FnRef.resolveCap p2) (FnRef.rejectCap p2) s =
      (Completion.normal Val.undefined,
        settleResolve p2 x
          (if isObjectLike x then recordThenRead x (newLatch s).2 else (newLatch s).2))) ∧
    (∀ r2 s, s.promises[p2]? = some r2 → r2.state = PState.pending →
      (resolvePromise env p2 x (FnRef.resolveCap p2) (FnRef.rejectCap p2) s).2.promises[p2]? =
        some (r2.toFulfilled x)) ∧
    (∀ i j s, (∀ lg, ∃ v, (env.userFn i lg x).2 = Completion.normal v) →
      (resolvePromise env p2 x (FnRef.user i) (FnRef.user j) s).1 =
        Completion.normal Val.undefined ∧
      (resolvePromise env p2 x (FnRef.user i) (FnRef.user j) s).2.calls =
        s.calls ++ [(i, x)] ∧
      (resolvePromise env p2 x (FnRef.user i) (FnRef.user j) s).2.promises = s.promises ∧
      (resolvePromise env p2 x (FnRef.user i) (FnRef.user j) s).2.timers = s.timers) := by
  have hne : x ≠ Val.promise p2 := by
    intro h
    subst h
    simp [isPlain, isObjectLike, readThen] at hx
  refine ⟨hne, fun s => resolvePromise_plain env p2 x s hx, ?_, ?_⟩
  · intro r2 s hr hs
    rw [resolvePromise_plain env p2 x s hx]
    have hmid : ((if isObjectLike x then recordThenRead x (newLatch s).2
        else (newLatch s).2) : State).promises[p2]? = some r2 := by
      split <;> exact hr
    show (settleResolve p2 x _).promises[p2]? = _
    rw [settleResolve_pending_eq p2 x _ r2 hmid hs]
    exact List.getElem?_set_self (List.getElem?_eq_some.mp hmid).1
  · intro i j s hret
    rw [resolvePromise_plain_call env p2 x (FnRef.user i) (FnRef.user j) s hx
      (fun s1 => hret s1.log)]
    refine ⟨rfl, ?_, ?_, ?_⟩ <;> (simp only [callFn, recordCall]; split <;> rfl)

theorem C12_plain_value_resolves_witness :
    isPlain sampleEnv (Val.obj 7) = true ∧
    Val.obj 7 ≠ Val.promise 0 ∧
    (resolvePromise sampleEnv 0 (Val.obj 7) (FnRef.resolveCap 0) (FnRef.rejectCap 0)
      (MyPromise.construct (UserExecutor.run ⟨[], none⟩) State.init).2).2.promises[0]? =
        some (PromiseRec.fresh.toFulfilled (Val.obj 7)) ∧
    (resolvePromise sampleEnv 0 (Val.obj 7) (FnRef.user 4) (FnRef.user 5) State.init).2.calls =
      [(4, Val.obj 7)] :=
  ⟨rfl, (C12_plain_value_resolves sampleEnv 0 (Val.obj 7) rfl).1,
    (C12_plain_value_resolves sampleEnv 0 (Val.obj 7) rfl).2.2.1 PromiseRec.fresh _ rfl rfl,
    ((C12_plain_value_resolves sampleEnv 0 (Val.obj 7) rfl).2.2.2 4 5 State.init
      (fun _ => ⟨_, rfl⟩)).2.1⟩

theorem settleResolve_other (p a : Nat) (v : Val) (s : State) (h : p ≠ a) :
    (settleResolve p v s).promises[a]? = s.promises[a]? := by
  unfold settleResolve
  split
  · split
    · simp [runCallbacks, List.getElem?_set_ne h]
    · rfl
  · rfl

theorem settleReject_other (p a : Nat) (v : Val) (s : State) (h : p ≠ a) :
    (settleReject p v s).promises[a]? = s.promises[a]? := by
  unfold settleReject
  split
  · split
    · simp [runCallbacks, List.getElem?_set_ne h]
    · rfl
  · rfl

/-- The timer that `q.then` runs for the resolve callback of line 138 when `q` is
fulfilled: the callback sets its latch, the instance `p3` that `q.then` returned is
fulfilled with `undefined`, and `promise2` is not touched. -/
theorem runTask_adopt_fulfilled (env : Env) (l p2 : Nat) (res rej : FnRef) (q p3 : Nat)
    (s : State) (h : p3 ≠ p2) :
    (runTask env (Task.fulfilledTask q (FnRef.rpResolve l p2 res rej) p3) s).promises[p2]? =
      s.promises[p2]? := by
  have hcall : ∀ v, ∃ s1, callFn env (FnRef.rpResolve l p2 res rej) v s =
      (Completion.normal Val.undefined, s1) ∧ s1.promises = s.promises := by
    intro v
    simp only [callFn]
    split
    · exact ⟨s, rfl, rfl⟩
    · exact ⟨setLatch l s, rfl, rfl⟩
  obtain ⟨s1, hc, hp⟩ := hcall (fieldValue s q)
  simp only [runTask, runHandler, hc]
  rw [resolvePromise_plain env p3 Val.undefined s1 rfl]
  simp only [catchReject, isObjectLike]
  rw [settleResolve_other p3 p2 _ _ h]
  show s1.promises[p2]? = _
  rw [hp]

/-- The timer that `q.then` runs for the reject callback of lines 142-146 when `q` is
rejected, the latch not being set: a pending `promise2` is rejected with the reason of
`q`. -/
theorem runTask_adopt_rejected (env : Env) (l p2 q p3 : Nat) (rq r2 : PromiseRec) (s : State)
    (h : p3 ≠ p2) (hq : s.promises[q]? = some rq) (hl : latchSet l s = false)
    (hr2 : s.promises[p2]? = some r2) (hs : r2.state = PState.pending) :
    coreOf (runTask env (Task.rejectedTask q (FnRef.rpReject l (FnRef.rejectCap p2)) p3) s) p2 =
      some (PState.rejected, r2.value, rq.reason) := by
  have hlt := (List.getElem?_eq_some.mp hr2).1
  simp only [runTask, runHandler, callFn, hl, Bool.false_eq_true, if_false, discard]
  rw [fieldReason_eq _ _ _ hq]
  rw [resolvePromise_plain env p3 Val.undefined _ rfl]
  simp only [catchReject, isObjectLike, coreOf]
  rw [settleResolve_other p3 p2 _ _ h]
  show ((settleReject p2 rq.reason (setLatch l s)).promises[p2]?).map _ = _
  rw [settleReject_pending_eq p2 rq.reason (setLatch l s) r2 hr2 hs]
  show ((s.promises.set p2 (r2.toRejected rq.reason))[p2]?).map _ = _
  simp [List.getElem?_set_self hlt, PromiseRec.toRejected]

theorem then_other (q a : Nat) (x y : Val) (s : State) (ha : a < s.promises.length)
    (hq : q ≠ a) : (MyPromise.then_ q x y s).2.promises[a]? = s.promises[a]? := by
  unfold MyPromise.then_
  rw [construct_noThrow _ _ (thenExecutor_noThrow _ _ _)]
  have halloc : (allocPromise s).2.promises[a]? = s.promises[a]? := by
    simp [allocPromise, List.getElem?_append_left ha]
  rw [← halloc]
  generalize (allocPromise s).2 = s1
  generalize (allocPromise s).1 = p3
  unfold MyPromise.thenExecutor
  split
  · next r hr =>
    split
    · rfl
    · rfl
    · unfold pushCallbacks
      rw [hr]
      simp [List.getElem?_set_ne hq]
  · rfl

/-- The timer of a handler that returns another instance `q`: `q.then` is called with
the two callbacks of lines 138-146, and `promise2` is left as it is. -/
theorem runTask_returns_promise (env : Env) (p h p2 q : Nat) (r : PromiseRec) (s : State)
    (hp : s.promises[p]? = some r) (hp2 : p2 < s.promises.length) (hq : q ≠ p2)
    (hret : ∀ lg, (env.userFn h lg r.value).2 = Completion.normal (Val.promise q)) :
    (runTask env (Task.fulfilledTask p (FnRef.user h) p2) s).promises[p2]? =
      s.promises[p2]? := by
  simp only [runTask]
  rw [fieldValue_eq _ _ _ hp, runHandler_user_eq, hret]
  simp only [resolvePromise, isObjectLike, rpTry, readThen]
  rw [if_neg (by simpa using hq), if_pos trivial]
  simp only [discard, catchReject]
  exact then_other q p2 _ _ (recordThenRead (Val.promise q)
    (newLatch (recordCall h r.value (env.userFn h s.log r.value).1 s)).2) hp2 hq

/-- C13: what the code does when the handler of `p.then(h)` returns another instance `q`.
The timer of the handler calls `q.then` with the two callbacks of lines 138-146 and
leaves `promise2` as it is (so it is pending while `q` is); the timer of the reject
callback rejects a pending `promise2` with the reason of `q`.  But the timer of the
resolve callback does not touch `promise2` at all (line 141 calls the callback itself,
see `callFn`), so `promise2` is never fulfilled: for `p = MyPromise.resolve(1)`,
`q = MyPromise.resolve(5)` and `p.then(() => q)`, the instance that `then` returned is
still pending when the queue is empty.  With `q = MyPromise.reject('r')` it is rejected
with `'r'`; with a pending `q` it is pending, stays pending when `q` is then fulfilled
with 5, and is rejected when `q` is rejected instead. -/
theorem C13_adoption_of_returned_promise (env : Env) :
    (∀ p h p2 q r s, s.promises[p]? = some r → p2 < s.promises.length → q ≠ p2 →
      (∀ lg, (env.userFn h lg r.value).2 = Completion.normal (Val.promise q)) →
      (runTask env (Task.fulfilledTask p (FnRef.user h) p2) s).promises[p2]? =
        s.promises[p2]?) ∧
    (∀ l p2 q p3 rq r2 s, p3 ≠ p2 → s.promises[q]? = some rq → latchSet l s = false →
      s.promises[p2]? = some r2 → r2.state = PState.pending →
      coreOf (runTask env (Task.rejectedTask q (FnRef.rpReject l (FnRef.rejectCap p2)) p3) s)
        p2 = some (PState.rejected, r2.value, rq.reason)) ∧
    (∀ l p2 res rej q p3 s, p3 ≠ p2 →
      (runTask env (Task.fulfilledTask q (FnRef.rpResolve l p2 res rej) p3) s).promises[p2]? =
        s.promises[p2]?) ∧
    (∀ fuel, (drain sampleEnv (fuel + 2) (runOps sampleEnv
        [Op.resolve (Val.num 1), Op.resolve (Val.num 5),
          Op.then_ 0 (Val.fn (FnRef.user 2)) Val.undefined] State.init)).map
          (fun s3 => (coreOf s3 1, coreOf s3 2)) =
        some (some (PState.fulfilled, Val.num 5, Val.undefined),
          some (PState.pending, Val.undefined, Val.undefined))) ∧
    (∀ fuel, (drain sampleEnv (fuel + 2) (runOps sampleEnv
        [Op.resolve (Val.num 1), Op.reject (Val.str "r"),
          Op.then_ 0 (Val.fn (FnRef.user 2)) Val.undefined] State.init)).map
          (fun s3 => (coreOf s3 1, coreOf s3 2)) =
        some (some (PState.rejected, Val.undefined, Val.str "r"),
          some (PState.rejected, Val.undefined, Val.str "r"))) ∧
    (∀ fuel, (drain sampleEnv (fuel + 1) (runOps sampleEnv
        [Op.resolve (Val.num 1), Op.construct ⟨[], none⟩,
          Op.then_ 0 (Val.fn (FnRef.user 2)) Val.undefined] State.init)).map
          (fun s3 => (coreOf s3 1, coreOf s3 2)) =
        some (some (PState.pending, Val.undefined, Val.undefined),
          some (PState.pending, Val.undefined, Val.undefined))) ∧
    (∀ fuel, (drain sampleEnv (fuel + 2) (runOps sampleEnv
        [Op.resolve (Val.num 1), Op.construct ⟨[], none⟩,
          Op.then_ 0 (Val.fn (FnRef.user 2)) Val.undefined, Op.tick,
          Op.call (FnRef.resolveCap 1) (Val.num 5)] State.init)).map
          (fun s3 => (coreOf s3 1, coreOf s3 2)) =
        some (some (PState.fulfilled, Val.num 5, Val.undefined),
          some (PState.pending, Val.undefined, Val.undefined))) ∧
    (∀ fuel, (drain sampleEnv (fuel + 2) (runOps sampleEnv
        [Op.resolve (Val.num 1), Op.construct ⟨[], none⟩,
          Op.then_ 0 (Val.fn (FnRef.user 2)) Val.undefined, Op.tick,
          Op.call (FnRef.rejectCap 1) (Val.str "r")] State.init)).map
          (fun s3 => (coreOf s3 1, coreOf s3 2)) =
        some (some (PState.rejected, Val.undefined, Val.str "r"),
          some (PState.rejected, Val.undefined, Val.str "r"))) := by
  refine ⟨fun p h p2 q r s hp hp2 hq hret => runTask_returns_promise env p h p2 q r s hp hp2 hq
      hret,
    fun l p2 q p3 rq r2 s h hq hl hr2 hs => runTask_adopt_rejected env l p2 q p3 rq r2 s h hq hl
      hr2 hs,
    fun l p2 res rej q p3 s h => runTask_adopt_fulfilled env l p2 res rej q p3 s h,
    ?_, ?_, ?_, ?_, ?_⟩ <;>
  · intro fuel
    cases fuel <;> rfl

theorem C13_adoption_of_returned_promise_witness :
    (runOps sampleEnv [Op.resolve (Val.num 1), Op.resolve (Val.num 5),
      Op.then_ 0 (Val.fn (FnRef.user 2)) Val.undefined, Op.tick] State.init).timers =
      [Task.fulfilledTask 1
        (FnRef.rpResolve 0 2 (FnRef.resolveCap 2) (FnRef.rejectCap 2)) 3] ∧
    (runTask sampleEnv
      (Task.fulfilledTask 1 (FnRef.rpResolve 0 2 (FnRef.resolveCap 2) (FnRef.rejectCap 2)) 3)
      (runOps sampleEnv [Op.resolve (Val.num 1), Op.resolve (Val.num 5),
        Op.then_ 0 (Val.fn (FnRef.user 2)) Val.undefined, Op.tick] State.init)).promises[2]? =
      some PromiseRec.fresh :=
  ⟨rfl, ((C13_adoption_of_returned_promise sampleEnv).2.2.1 0 2 (FnRef.resolveCap 2)
    (FnRef.rejectCap 2) 1 3 _ (by decide)).trans rfl⟩

/-! ## Mild timers leave sealed addresses and cells as they are -/

theorem Sealed.still (A : Nat → Bool) (a c : Nat) (s : State) : Sealed A a c s s :=
  fun _ hq => ⟨⟨Nat.le_refl _, Nat.le_refl _, Nat.le_refl _⟩, fun _ _ => rfl, rfl, rfl, hq,
    [], by simp, by simp⟩

theorem Sealed.thenAlso {A : Nat → Bool} {a c : Nat} {s s1 s2 : State}
    (h1 : Sealed A a c s s1) (h2 : Sealed A a c s1 s2) : Sealed A a c s s2 := by
  intro hA hq
  obtain ⟨⟨hl1, hla1, hlc1⟩, hc1, har1, hco1, hq1, new1, ht1, hn1⟩ := h1 hA hq
  obtain ⟨⟨hl2, hla2, hlc2⟩, hc2, har2, hco2, hq2, new2, ht2, hn2⟩ :=
    h2 (fun p hp => Nat.lt_of_lt_of_le (hA p hp) hl1) hq1
  refine ⟨⟨Nat.le_trans hl1 hl2, Nat.le_trans hla1 hla2, Nat.le_trans hlc1 hlc2⟩,
    fun p hp => (hc2 p hp).trans (hc1 p hp), har2.trans har1, hco2.trans hco1, hq2,
    new1 ++ new2, ?_, ?_⟩
  · rw [ht2, ht1, List.append_assoc]
  · intro t ht
    rcases List.mem_append.mp ht with h | h
    · exact hn1 t h
    · exact hn2 t h

/-- A change of fields other than the heap, the queue, the arrays and the counters. -/
theorem Sealed.untouched {A : Nat → Bool} {a c : Nat} {s s1 : State}
    (hp : s1.promises = s.promises) (ht : s1.timers = s.timers)
    (har : s1.arrays = s.arrays) (hco : s1.counters = s.counters) : Sealed A a c s s1 := by
  intro _ hq
  refine ⟨⟨by rw [hp], by rw [har], by rw [hco]⟩, fun p _ => by simp [coreOf, hp],
    by rw [har], by rw [hco], ?_, [], by simp [ht], by simp⟩
  intro p r hr
  rw [hp] at hr
  exact hq p r hr

theorem allocPromise_sealed (A : Nat → Bool) (a c : Nat) (s : State) :
    Sealed A a c s (allocPromise s).2 := by
  intro hA hq
  refine ⟨⟨by simp [allocPromise], Nat.le_refl _, Nat.le_refl _⟩, ?_, rfl, rfl, ?_, [],
    by simp [allocPromise], by simp⟩
  · intro p hp
    simp [coreOf, allocPromise, List.getElem?_append_left (hA p hp)]
  · intro p r hr
    simp only [allocPromise] at hr
    by_cases hlt : p < s.promises.length
    · rw [List.getElem?_append_left hlt] at hr
      exact hq p r hr
    · rw [List.getElem?_append_right (by omega)] at hr
      have : r = PromiseRec.fresh := by
        cases hi : p - s.promises.length with
        | zero => rw [hi] at hr; simpa using hr.symm
        | succ n => rw [hi] at hr; simp at hr
      subst this
      simp [PromiseRec.fresh]

theorem setTimeout_sealed (A : Nat → Bool) (a c : Nat) (t : Task) (s : State)
    (h : Task.mild A a c t = true) : Sealed A a c s (setTimeout t s) := by
  intro _ hq
  exact ⟨⟨Nat.le_refl _, Nat.le_refl _, Nat.le_refl _⟩, fun _ _ => rfl, rfl, rfl, hq, [t], rfl,
    by simpa using h⟩

/-- The records of a heap after one record was replaced by one with the same callback
lists. -/
theorem SealedHeap.set_same_lists {A : Nat → Bool} {a c : Nat} {s : State}
    (hq : SealedHeap A a c s) (p : Nat) (r r1 : PromiseRec) (hr : s.promises[p]? = some r)
    (hF : r1.onFulfilledCallbacks = r.onFulfilledCallbacks)
    (hR : r1.onRejectedCallbacks = r.onRejectedCallbacks) (s1 : State)
    (hs1 : s1.promises = s.promises.set p r1) : SealedHeap A a c s1 := by
  intro p1 m hm
  rw [hs1] at hm
  by_cases hpp : p = p1
  · subst hpp
    rw [List.getElem?_set_self (List.getElem?_eq_some.mp hr).1] at hm
    cases hm
    rw [hF, hR]
    exact hq p r hr
  · rw [List.getElem?_set_ne hpp] at hm
    exact hq p1 m hm

theorem settleResolve_sealed (A : Nat → Bool) (a c p : Nat) (v : Val) (s : State)
    (hp : A p = false) : Sealed A a c s (settleResolve p v s) := by
  unfold settleResolve
  split
  · next r hr =>
    split
    · intro hA hq
      refine ⟨⟨by simp [runCallbacks], Nat.le_refl _, Nat.le_refl _⟩, ?_, rfl, rfl, ?_,
        r.onFulfilledCallbacks, rfl, ?_⟩
      · intro p1 hp1
        have hne : p ≠ p1 := by intro h; subst h; rw [hp] at hp1; cases hp1
        simp [coreOf, runCallbacks, List.getElem?_set_ne hne]
      · exact hq.set_same_lists p r { r with state := PState.fulfilled, value := v } hr rfl rfl
          _ rfl
      · intro t ht
        have := hq p r hr t (List.mem_append_left _ ht)
        simp [Task.mild, this.1, this.2 hp]
    · exact Sealed.still A a c s
  · exact Sealed.still A a c s

theorem settleReject_sealed (A : Nat → Bool) (a c p : Nat) (v : Val) (s : State)
    (hp : A p = false) : Sealed A a c s (settleReject p v s) := by
  unfold settleReject
  split
  · next r hr =>
    split
    · intro hA hq
      refine ⟨⟨by simp [runCallbacks], Nat.le_refl _, Nat.le_refl _⟩, ?_, rfl, rfl, ?_,
        r.onRejectedCallbacks, rfl, ?_⟩
      · intro p1 hp1
        have hne : p ≠ p1 := by intro h; subst h; rw [hp] at hp1; cases hp1
        simp [coreOf, runCallbacks, List.getElem?_set_ne hne]
      · exact hq.set_same_lists p r { r with state := PState.rejected, reason := v } hr rfl rfl
          _ rfl
      · intro t ht
        have := hq p r hr t (List.mem_append_right _ ht)
        simp [Task.mild, this.1, this.2 hp]
    · exact Sealed.still A a c s
  · exact Sealed.still A a c s

theorem pushCallbacks_sealed (A : Nat → Bool) (a c p : Nat) (ta tb : Task) (s : State)
    (hta : Task.mild A a c ta = true) (htb : Task.mild A a c tb = true) :
    Sealed A a c s (pushCallbacks p ta tb s) := by
  simp only [Task.mild, Bool.and_eq_true] at hta htb
  unfold pushCallbacks
  split
  · next r hr =>
    intro hA hq
    refine ⟨⟨by simp, Nat.le_refl _, Nat.le_refl _⟩, ?_, rfl, rfl, ?_, [], by simp, by simp⟩
    · intro p1 _
      by_cases hpp : p = p1
      · subst hpp
        simp [coreOf, hr, List.getElem?_set_self (List.getElem?_eq_some.mp hr).1]
      · simp [coreOf, List.getElem?_set_ne hpp]
    · intro p1 m hm
      by_cases hpp : p = p1
      · subst hpp
        simp only [List.getElem?_set_self (List.getElem?_eq_some.mp hr).1,
          Option.some.injEq] at hm
        subst hm
        intro t ht
        have hr0 := hq p r hr
        simp only [List.mem_append, List.mem_singleton] at ht hr0
        rcases ht with (h1 | h1) | (h1 | h1)
        · exact hr0 t (Or.inl h1)
        · rw [h1]; exact ⟨hta.2, fun _ => hta.1⟩
        · exact hr0 t (Or.inr h1)
        · rw [h1]; exact ⟨htb.2, fun _ => htb.1⟩
      · simp only [List.getElem?_set_ne hpp] at hm
        exact hq p1 m hm
  · exact Sealed.still A a c s

theorem storeResult_sealed (A : Nat → Bool) (a c a1 i : Nat) (v : Val) (s : State)
    (h : a1 ≠ a) : Sealed A a c s (storeResult a1 i v s) := by
  intro _ hq
  refine ⟨⟨Nat.le_refl _, by simp [storeResult], Nat.le_refl _⟩, fun _ _ => rfl, ?_, rfl, hq,
    [], by simp [storeResult], by simp⟩
  simp [storeResult, List.getElem?_set_ne h]

theorem bumpCounter_sealed (A : Nat → Bool) (a c c1 : Nat) (s : State) (h : c1 ≠ c) :
    Sealed A a c s (bumpCounter c1 s) := by
  intro _ hq
  refine ⟨⟨Nat.le_refl _, Nat.le_refl _, by simp [bumpCounter]⟩, fun _ _ => rfl, rfl, ?_, hq,
    [], by simp [bumpCounter], by simp⟩
  simp [bumpCounter, List.getElem?_set_ne h]

theorem discard_sealed {A : Nat → Bool} {a c : Nat} {s : State} {r : Completion × State}
    (h : Sealed A a c s r.2) : Sealed A a c s (discard r).2 := by
  rw [discard_snd]
  exact h

/-- A call of a closure that holds no capability of an address in `A` and does not
write the cells. -/
theorem callFn_sealed (A : Nat → Bool) (a c : Nat) (env : Env) (f : FnRef) :
    ∀ arg s, f.spares A = true → f.sparesCells a c = true →
      Sealed A a c s (callFn env f arg s).2 := by
  induction f with
  | user id => intro arg s _ _; exact Sealed.untouched rfl rfl rfl rfl
  | identity => intro arg s _ _; exact Sealed.still A a c s
  | thrower => intro arg s _ _; exact Sealed.still A a c s
  | resolveCap p =>
    intro arg s h _
    exact settleResolve_sealed A a c p arg s (by simpa [FnRef.spares] using h)
  | rejectCap p =>
    intro arg s h _
    exact settleReject_sealed A a c p arg s (by simpa [FnRef.spares] using h)
  | rpResolve called p2 res rej _ _ =>
    intro arg s _ _
    simp only [callFn]
    split
    · exact Sealed.still A a c s
    · exact Sealed.untouched rfl rfl rfl rfl
  | rpReject called rej ih =>
    intro arg s h hc
    simp only [callFn]
    split
    · exact Sealed.still A a c s
    · have h0 : Sealed A a c s (setLatch called s) := Sealed.untouched rfl rfl rfl rfl
      exact discard_sealed (h0.thenAlso (ih arg (setLatch called s) h hc))
  | allItem results completed length resolve index ih =>
    intro arg s h hc
    simp only [FnRef.sparesCells, Bool.and_eq_true, decide_eq_true_eq] at hc
    have h0 : Sealed A a c s (bumpCounter completed (storeResult results index arg s)) :=
      (storeResult_sealed A a c results index arg s hc.1.1).thenAlso
        (bumpCounter_sealed A a c completed _ hc.1.2)
    simp only [callFn]
    split
    · exact discard_sealed (h0.thenAlso (ih _ _ h hc.2))
    · exact h0

theorem runActs_sealed (A : Nat → Bool) (a c : Nat) (env : Env) (onF onR : FnRef)
    (hF : onF.spares A = true) (hFc : onF.sparesCells a c = true)
    (hR : onR.spares A = true) (hRc : onR.sparesCells a c = true) (acts : List TAct) :
    ∀ s, Sealed A a c s (runActs env onF onR acts s).2 := by
  induction acts with
  | nil => intro s; exact Sealed.still A a c s
  | cons act rest ih =>
    intro s
    cases act with
    | resolveNow y =>
      simp only [runActs]
      have h := callFn_sealed A a c env onF y s hF hFc
      split
      · next v s1 heq =>
        rw [heq] at h
        exact h.thenAlso (ih s1)
      · exact h
    | rejectNow r =>
      simp only [runActs]
      have h := callFn_sealed A a c env onR r s hR hRc
      split
      · next v s1 heq =>
        rw [heq] at h
        exact h.thenAlso (ih s1)
      · exact h
    | resolveLater y =>
      simp only [runActs]
      exact (setTimeout_sealed A a c (Task.callback onF y) s
        (by simp [Task.mild, Task.spares, Task.sparesCells, hF, hFc])).thenAlso (ih _)
    | rejectLater r =>
      simp only [runActs]
      exact (setTimeout_sealed A a c (Task.callback onR r) s
        (by simp [Task.mild, Task.spares, Task.sparesCells, hR, hRc])).thenAlso (ih _)

theorem runThenMethod_sealed (A : Nat → Bool) (a c : Nat) (env : Env) (onF onR : FnRef)
    (hF : onF.spares A = true) (hFc : onF.sparesCells a c = true)
    (hR : onR.spares A = true) (hRc : onR.sparesCells a c = true) (acts : List TAct)
    (throws : Option Val) (s : State) :
    Sealed A a c s (runThenMethod env acts throws onF onR s).2 := by
  have h := runActs_sealed A a c env onF onR hF hFc hR hRc acts s
  unfold runThenMethod
  split
  · next v s1 heq =>
    rw [heq] at h
    split <;> exact h
  · exact h

/-- A call of `then` with handlers that are mild: the instance it returns is a new one. -/
theorem then_sealed (A : Nat → Bool) (a c q : Nat) (x y : Val) (s : State)
    (hx : (asOnFulfilled x).spares A = true) (hxc : (asOnFulfilled x).sparesCells a c = true)
    (hy : (asOnRejected y).spares A = true) (hyc : (asOnRejected y).sparesCells a c = true) :
    Sealed A a c s (MyPromise.then_ q x y s).2 := by
  intro hA hq
  have hnew : A s.promises.length = false := by
    cases h : A s.promises.length with
    | false => rfl
    | true => exact absurd (hA _ h) (Nat.lt_irrefl _)
  have h2 : Sealed A a c (allocPromise s).2
      (MyPromise.thenExecutor q (asOnFulfilled x) (asOnRejected y) (allocPromise s).1
        (allocPromise s).2).1 := by
    have hta : Task.mild A a c
        (Task.fulfilledTask q (asOnFulfilled x) (allocPromise s).1) = true := by
      simp [Task.mild, Task.spares, Task.sparesCells, hx, hxc, allocPromise, hnew]
    have htb : Task.mild A a c
        (Task.rejectedTask q (asOnRejected y) (allocPromise s).1) = true := by
      simp [Task.mild, Task.spares, Task.sparesCells, hy, hyc, allocPromise, hnew]
    unfold MyPromise.thenExecutor
    split
    · split
      · exact setTimeout_sealed A a c _ _ hta
      · exact setTimeout_sealed A a c _ _ htb
      · exact pushCallbacks_sealed A a c q _ _ _ hta htb
    · exact Sealed.still A a c _
  unfold MyPromise.then_
  rw [construct_noThrow _ _ (thenExecutor_noThrow _ _ _)]
  exact ((allocPromise_sealed A a c s).thenAlso h2) hA hq

theorem rpTry_sealed (A : Nat → Bool) (a c : Nat) (env : Env) (called p2 : Nat) (x : Val)
    (res rej : FnRef) (hres : res.spares A = true) (hresc : res.sparesCells a c = true)
    (hrej : rej.spares A = true) (hrejc : rej.sparesCells a c = true) (s : State) :
    Sealed A a c s (rpTry env called p2 x res rej s).2 := by
  have h0 : Sealed A a c s (recordThenRead x s) := Sealed.untouched rfl rfl rfl rfl
  have hF : (FnRef.rpResolve called p2 res rej).spares A = true := by
    simp [FnRef.spares, hres, hrej]
  have hFc : (FnRef.rpResolve called p2 res rej).sparesCells a c = true := by
    simp [FnRef.sparesCells, hresc, hrejc]
  have hR : (FnRef.rpReject called rej).spares A = true := by
    simp [FnRef.spares, hrej]
  have hRc : (FnRef.rpReject called rej).sparesCells a c = true := by
    simp [FnRef.sparesCells, hrejc]
  unfold rpTry
  split
  · exact h0
  · next q _ =>
    exact h0.thenAlso (then_sealed A a c q (Val.fn (FnRef.rpResolve called p2 res rej))
      (Val.fn (FnRef.rpReject called rej)) _ hF hFc hR hRc)
  · exact h0.thenAlso (runThenMethod_sealed A a c env _ _ hF hFc hR hRc _ _ _)
  · exact h0.thenAlso (callFn_sealed A a c env res x _ hres hresc)

theorem rpCatch_sealed (A : Nat → Bool) (a c : Nat) (env : Env) (called : Nat) (rej : FnRef)
    (e : Val) (hrej : rej.spares A = true) (hrejc : rej.sparesCells a c = true) (s : State) :
    Sealed A a c s (rpCatch env called rej e s).2 := by
  unfold rpCatch
  split
  · exact Sealed.still A a c s
  · have h0 : Sealed A a c s (setLatch called s) := Sealed.untouched rfl rfl rfl rfl
    exact discard_sealed (h0.thenAlso (callFn_sealed A a c env rej e _ hrej hrejc))

theorem resolvePromise_sealed (A : Nat → Bool) (a c : Nat) (env : Env) (p2 : Nat) (x : Val)
    (res rej : FnRef) (hres : res.spares A = true) (hresc : res.sparesCells a c = true)
    (hrej : rej.spares A = true) (hrejc : rej.sparesCells a c = true) (s : State) :
    Sealed A a c s (resolvePromise env p2 x res rej s).2 := by
  have h0 : Sealed A a c s (newLatch s).2 := Sealed.untouched rfl rfl rfl rfl
  unfold resolvePromise
  split
  · exact callFn_sealed A a c env rej _ s hrej hrejc
  · split
    · have h : Sealed A a c s (rpTry env (newLatch s).1 p2 x res rej (newLatch s).2).2 :=
        h0.thenAlso (rpTry_sealed A a c env _ p2 x res rej hres hresc hrej hrejc _)
      split
      · next e s2 heq =>
        rw [heq] at h
        exact h.thenAlso (rpCatch_sealed A a c env _ rej e hrej hrejc s2)
      · exact discard_sealed h
    · exact discard_sealed (h0.thenAlso (callFn_sealed A a c env res x _ hres hresc))

theorem catchReject_sealed (A : Nat → Bool) (a c p2 : Nat) (hp : A p2 = false)
    (r : Completion × State) : Sealed A a c r.2 (catchReject p2 r) := by
  unfold catchReject
  split
  · exact settleReject_sealed A a c p2 _ _ hp
  · exact Sealed.still A a c _

theorem runHandler_sealed (A : Nat → Bool) (a c : Nat) (env : Env) (h : FnRef) (arg : Val)
    (p2 : Nat) (s : State) (hh : h.spares A = true) (hhc : h.sparesCells a c = true)
    (hp : A p2 = false) : Sealed A a c s (runHandler env h arg p2 s) := by
  have hc := callFn_sealed A a c env h arg s hh hhc
  unfold runHandler
  split
  · next x s1 heq =>
    rw [heq] at hc
    exact (hc.thenAlso (resolvePromise_sealed A a c env p2 x (FnRef.resolveCap p2)
      (FnRef.rejectCap p2) (by simp [FnRef.spares, hp]) rfl (by simp [FnRef.spares, hp]) rfl
      s1)).thenAlso (catchReject_sealed A a c p2 hp _)
  · exact hc.thenAlso (catchReject_sealed A a c p2 hp _)

/-- A mild timer leaves the sealed addresses and cells as they are. -/
theorem runTask_sealed (A : Nat → Bool) (a c : Nat) (env : Env) (t : Task) (s : State)
    (ht : Task.mild A a c t = true) : Sealed A a c s (runTask env t s) := by
  cases t with
  | fulfilledTask self h p2 =>
    simp only [Task.mild, Task.spares, Task.sparesCells, Bool.and_eq_true,
      Bool.not_eq_true'] at ht
    exact runHandler_sealed A a c env h _ p2 s ht.1.1 ht.2 ht.1.2
  | rejectedTask self h p2 =>
    simp only [Task.mild, Task.spares, Task.sparesCells, Bool.and_eq_true,
      Bool.not_eq_true'] at ht
    exact runHandler_sealed A a c env h _ p2 s ht.1.1 ht.2 ht.1.2
  | callback f arg =>
    simp only [Task.mild, Task.spares, Task.sparesCells, Bool.and_eq_true] at ht
    have hc := callFn_sealed A a c env f arg s ht.1 ht.2
    simp only [runTask]
    split
    · next v s1 heq => rw [heq] at hc; exact hc
    · next e s1 heq =>
      rw [heq] at hc
      have h1 : Sealed A a c s1 (recordUncaught e s1) := Sealed.untouched rfl rfl rfl rfl
      exact hc.thenAlso h1

theorem FnRef.spares_weaker (A B : Nat → Bool) (h : ∀ p, B p = true → A p = true) (f : FnRef) :
    f.spares A = true → f.spares B = true := by
  have hnot : ∀ p, A p = false → B p = false := by
    intro p hp
    cases hb : B p with
    | false => rfl
    | true => rw [h p hb] at hp; cases hp
  induction f with
  | user id => intro _; rfl
  | identity => intro _; rfl
  | thrower => intro _; rfl
  | resolveCap p => intro hf; simpa [FnRef.spares] using hnot p (by simpa [FnRef.spares] using hf)
  | rejectCap p => intro hf; simpa [FnRef.spares] using hnot p (by simpa [FnRef.spares] using hf)
  | rpResolve called p2 res rej ih1 ih2 =>
    intro hf
    simp only [FnRef.spares, Bool.and_eq_true] at hf ⊢
    exact ⟨ih1 hf.1, ih2 hf.2⟩
  | rpReject called rej ih =>
    intro hf
    simp only [FnRef.spares] at hf ⊢
    exact ih hf
  | allItem results completed length resolve index ih =>
    intro hf
    simp only [FnRef.spares] at hf ⊢
    exact ih hf

theorem Task.mild_weaker (A B : Nat → Bool) (a c : Nat)
    (h : ∀ p, B p = true → A p = true) (t : Task) :
    Task.mild A a c t = true → Task.mild B a c t = true := by
  have hnot : ∀ p, A p = false → B p = false := by
    intro p hp
    cases hb : B p with
    | false => rfl
    | true => rw [h p hb] at hp; cases hp
  cases t with
  | fulfilledTask self f p2 =>
    simp only [Task.mild, Task.spares, Task.sparesCells, Bool.and_eq_true, Bool.not_eq_true']
    exact fun hm => ⟨⟨FnRef.spares_weaker A B h f hm.1.1, hnot p2 hm.1.2⟩, hm.2⟩
  | rejectedTask self f p2 =>
    simp only [Task.mild, Task.spares, Task.sparesCells, Bool.and_eq_true, Bool.not_eq_true']
    exact fun hm => ⟨⟨FnRef.spares_weaker A B h f hm.1.1, hnot p2 hm.1.2⟩, hm.2⟩
  | callback f arg =>
    simp only [Task.mild, Task.spares, Task.sparesCells, Bool.and_eq_true]
    exact fun hm => ⟨FnRef.spares_weaker A B h f hm.1, hm.2⟩

theorem FnRef.spares_none (f : FnRef) : f.spares (fun _ => false) = true := by
  induction f with
  | rpResolve called p2 res rej ih1 ih2 => simp [FnRef.spares, ih1, ih2]
  | rpReject called rej ih => simp [FnRef.spares, ih]
  | allItem results completed length resolve index ih => simp [FnRef.spares, ih]
  | _ => simp [FnRef.spares]

theorem Task.sparesNothing (t : Task) : t.spares (fun _ => false) = true := by
  cases t <;> simp [Task.spares, FnRef.spares_none]

/-- A heap that is sealed for `A` is sealed for no address at all: the cells alone. -/
theorem SealedHeap.cellsOnly {A : Nat → Bool} {a c : Nat} {s : State}
    (h : SealedHeap A a c s) : SealedHeap (fun _ => false) a c s :=
  fun p r hr t ht => ⟨(h p r hr t ht).1, fun _ => Task.sparesNothing t⟩

/-- Running the mild timers at the head of the queue: the sealed addresses and cells are
as before, and the queue is what followed them, then new mild timers. -/
theorem ticks_sealed (A : Nat → Bool) (a c : Nat) (env : Env) (pre : List Task) :
    ∀ (rest : List Task) (s : State), s.timers = pre ++ rest →
      (∀ t ∈ pre, Task.mild A a c t = true) → (∀ p, A p = true → p < s.promises.length) →
      SealedHeap A a c s →
      (∀ p, A p = true → coreOf (ticks env pre.length s) p = coreOf s p) ∧
      (ticks env pre.length s).arrays[a]? = s.arrays[a]? ∧
      (ticks env pre.length s).counters[c]? = s.counters[c]? ∧
      SealedHeap A a c (ticks env pre.length s) ∧
      ∃ new, (ticks env pre.length s).timers = rest ++ new ∧
        ∀ t ∈ new, Task.mild A a c t = true := by
  induction pre with
  | nil =>
    intro rest s ht _ _ hq
    exact ⟨fun _ _ => rfl, rfl, rfl, hq, [], by simp [ticks, ht], by simp⟩
  | cons t pre ih =>
    intro rest s ht hpre hA hq
    obtain ⟨⟨hl, hla, hlc⟩, hcore, har, hco, hq1, new1, ht1, hn1⟩ :=
      runTask_sealed A a c env t { s with timers := pre ++ rest } (hpre t (by simp)) hA hq
    have htick : tick env s = runTask env t { s with timers := pre ++ rest } :=
      tick_cons env s t (pre ++ rest) (by simpa using ht)
    obtain ⟨hc2, har2, hco2, hq2, new2, ht2, hn2⟩ := ih (rest ++ new1) (tick env s)
      (by rw [htick, ht1]; simp)
      (fun t1 h1 => hpre t1 (by simp [h1]))
      (by rw [htick]; exact fun p hp => Nat.lt_of_lt_of_le (hA p hp) hl)
      (by rw [htick]; exact hq1)
    refine ⟨?_, ?_, ?_, hq2, new1 ++ new2, ?_, ?_⟩
    · intro p hp
      show coreOf (ticks env pre.length (tick env s)) p = coreOf s p
      rw [hc2 p hp, htick]
      exact hcore p hp
    · show (ticks env pre.length (tick env s)).arrays[a]? = s.arrays[a]?
      rw [har2, htick]
      exact har
    · show (ticks env pre.length (tick env s)).counters[c]? = s.counters[c]?
      rw [hco2, htick]
      exact hco
    · show (ticks env pre.length (tick env s)).timers = rest ++ (new1 ++ new2)
      rw [ht2, List.append_assoc]
    · intro t1 h1
      rcases List.mem_append.mp h1 with h | h
      · exact hn1 t1 h
      · exact hn2 t1 h

/-- A drain of a queue of mild timers over a sealed heap: the sealed addresses and cells
are at the end as they were. -/
theorem drain_sealed (A : Nat → Bool) (a c : Nat) (env : Env) :
    ∀ (fuel : Nat) (s s3 : State), drain env fuel s = some s3 →
      (∀ t ∈ s.timers, Task.mild A a c t = true) → (∀ p, A p = true → p < s.promises.length) →
      SealedHeap A a c s →
      (∀ p, A p = true → coreOf s3 p = coreOf s p) ∧ s3.arrays[a]? = s.arrays[a]? ∧
      s3.counters[c]? = s.counters[c]? := by
  intro fuel
  induction fuel with
  | zero =>
    intro s s3 hd _ _ _
    simp only [drain] at hd
    split at hd
    · cases hd; exact ⟨fun _ _ => rfl, rfl, rfl⟩
    · cases hd
  | succ n ih =>
    intro s s3 hd hmild hA hq
    cases hq0 : s.timers with
    | nil =>
      rw [drain_nil env _ s hq0] at hd
      cases hd
      exact ⟨fun _ _ => rfl, rfl, rfl⟩
    | cons t rest =>
      rw [drain_cons env n s t rest hq0] at hd
      obtain ⟨⟨hl, hla, hlc⟩, hcore, har, hco, hq1, new1, ht1, hn1⟩ :=
        runTask_sealed A a c env t { s with timers := rest }
          (hmild t (by rw [hq0]; simp)) hA hq
      obtain ⟨h1, h2, h3⟩ := ih _ s3 hd
        (by
          intro t1 h1
          rw [ht1] at h1
          rcases List.mem_append.mp h1 with h | h
          · exact hmild t1 (by rw [hq0]; simp [show t1 ∈ rest from h])
          · exact hn1 t1 h)
        (fun p hp => Nat.lt_of_lt_of_le (hA p hp) hl) hq1
      exact ⟨fun p hp => (h1 p hp).trans (hcore p hp), h2.trans har, h3.trans hco⟩

/-! ## `MyPromise.all` -/

theorem itemRecords_length (this : Nat) (xs : List Val) :
    ∀ L, (itemRecords this L xs).length = 3 * xs.length := by
  induction xs with
  | nil => intro L; rfl
  | cons x rest ih => intro L; simp only [itemRecords, List.length_cons, ih]; omega

/-- One round of the `forEach` of `all`: three instances and one timer. -/
theorem allEach_cons (results completed length this : Nat) (x : Val) (rest : List Val)
    (idx : Nat) (s : State) :
    MyPromise.allEach results completed length this (x :: rest) idx s =
      MyPromise.allEach results completed length this rest (idx + 1)
        { s with
          promises := s.promises ++
            [PromiseRec.fulfilledWith x,
              PromiseRec.fresh.addCallbacks
                (Task.fulfilledTask (s.promises.length + 1) FnRef.identity
                  (s.promises.length + 2))
                (Task.rejectedTask (s.promises.length + 1) (FnRef.rejectCap this)
                  (s.promises.length + 2)),
              PromiseRec.fresh]
          timers := s.timers ++
            [Task.fulfilledTask s.promises.length
              (FnRef.allItem results completed length (FnRef.resolveCap this) idx)
              (s.promises.length + 1)] } := by
  simp only [MyPromise.allEach]
  rw [resolve_eq]
  simp only
  rw [then_fulfilled _ _ _ _ (PromiseRec.fulfilledWith x) (by simp) rfl]
  simp only [MyPromise.catch_]
  rw [then_pending _ _ _ _ PromiseRec.fresh (List.getElem?_concat_length _ _) rfl]
  congr 1
  simp [PromiseRec.addCallbacks, asOnFulfilled, asOnRejected, List.set_append_right]

/-- The `forEach` of `all`: it appends the instances and the timers of the items, and
changes nothing else. -/
theorem allEach_eq (results completed length this : Nat) (xs : List Val) :
    ∀ (idx : Nat) (s : State),
      MyPromise.allEach results completed length this xs idx s =
        { s with
          promises := s.promises ++ itemRecords this s.promises.length xs
          timers := s.timers ++
            itemTimers results completed length this idx s.promises.length xs } := by
  induction xs with
  | nil => intro idx s; simp [MyPromise.allEach, itemRecords, itemTimers]
  | cons x rest ih =>
    intro idx s
    rw [allEach_cons, ih]
    simp [itemRecords, itemTimers, Nat.add_assoc]

/-- The call `MyPromise.all(items)` for a list that is not empty. -/
theorem all_eq (items : List Val) (s : State) (h : items ≠ []) :
    MyPromise.all items s =
      (s.promises.length,
        { s with
          promises := s.promises ++
            PromiseRec.fresh :: itemRecords s.promises.length (s.promises.length + 1) items
          arrays := s.arrays ++ [[]]
          counters := s.counters ++ [0]
          timers := s.timers ++
            itemTimers s.arrays.length s.counters.length items.length s.promises.length 0
              (s.promises.length + 1) items }) := by
  have hlen : items.length ≠ 0 := by
    intro h0
    exact h (List.length_eq_zero.mp h0)
  unfold MyPromise.all
  rw [construct_noThrow _ _ (by
    intro p s1
    unfold MyPromise.allExecutor
    split <;> rfl)]
  simp only [MyPromise.allExecutor, if_neg hlen]
  rw [allEach_eq]
  simp [allocPromise, newArray, newCounter]

/-- The call `MyPromise.all([])`: the new instance is fulfilled with a new, empty array
when the call returns. -/
theorem all_nil (s : State) :
    MyPromise.all [] s =
      (s.promises.length,
        { s with
          promises := s.promises ++ [PromiseRec.fulfilledWith (Val.arr s.arrays.length)]
          arrays := s.arrays ++ [[]] }) := by
  unfold MyPromise.all
  rw [construct_noThrow _ _ (by
    intro p s1
    unfold MyPromise.allExecutor
    split <;> rfl)]
  simp only [MyPromise.allExecutor, List.length_nil, if_true]
  have h : (newArray (allocPromise s).2).2.promises[(allocPromise s).1]? =
      some PromiseRec.fresh := by
    simp [allocPromise, newArray]
  rw [settleResolve_pending _ _ _ _ h rfl]
  simp [allocPromise, newArray, runCallbacks, PromiseRec.fresh, PromiseRec.fulfilledWith,
    set_concat_length]

theorem wrappersHold_frame {s s1 : State} (hf : Frame s s1) (xs : List Val) :
    ∀ L, wrappersHold s L xs → wrappersHold s1 L xs := by
  induction xs with
  | nil => intro L _; trivial
  | cons x rest ih =>
    intro L h
    obtain ⟨⟨r, hr, hs, hv⟩, hrest⟩ := h
    exact ⟨⟨r, hf.1 L r hr (by simp [hs]), hs, hv⟩, ih _ hrest⟩

/-- The timer of line 106 for the item at index `idx`, run when the array holds `idx`
elements and the counter is `idx`: the item is stored, the counter is incremented,
`resolve(results)` is called when the counter has reached `length`, and the instance that
`then` returned is fulfilled with `undefined`. -/
theorem runTask_item (env : Env) (a c n P w t idx : Nat) (x : Val) (r : PromiseRec)
    (s : State) (hw : s.promises[w]? = some r) (hv : r.value = x)
    (hc : s.counters[c]? = some idx) :
    runTask env (Task.fulfilledTask w (FnRef.allItem a c n (FnRef.resolveCap P) idx) t) s =
      settleResolve t Val.undefined
        (newLatch
          (if idx + 1 = n then
            settleResolve P (Val.arr a) (bumpCounter c (storeResult a idx x s))
          else bumpCounter c (storeResult a idx x s))).2 := by
  have hlt := (List.getElem?_eq_some.mp hc).1
  have hget : (bumpCounter c (storeResult a idx x s)).counters.getD c 0 = idx + 1 := by
    simp [bumpCounter, storeResult, List.getD_eq_getElem?_getD, hc,
      List.getElem?_set_self hlt]
  simp only [runTask, runHandler]
  rw [fieldValue_eq _ _ _ hw, hv]
  simp only [callFn, hget]
  by_cases hn : idx + 1 = n
  · simp only [hn, if_true, discard]
    rw [resolvePromise_plain env t Val.undefined _ rfl]
    rfl
  · simp only [hn, if_false]
    rw [resolvePromise_plain env t Val.undefined _ rfl]
    rfl

theorem arraySet_end (xs : List (Option Val)) (v : Val) :
    arraySet xs xs.length v = xs ++ [some v] := by
  simp [arraySet]

/-- What the timer of an item does to the cells, to the heap and the queue, and to
the instance that `all` returned. -/
theorem runTask_item_effects (env : Env) (a c n P w t idx : Nat) (x : Val) (r : PromiseRec)
    (arr : List (Option Val)) (s : State) (hw : s.promises[w]? = some r) (hv : r.value = x)
    (ha : s.arrays[a]? = some arr) (hlen : arr.length = idx)
    (hc : s.counters[c]? = some idx) (htP : t ≠ P)
    (hq : SealedHeap (fun _ => false) a c s) :
    (runTask env (Task.fulfilledTask w (FnRef.allItem a c n (FnRef.resolveCap P) idx) t)
      s).arrays[a]? = some (arr ++ [some x]) ∧
    (runTask env (Task.fulfilledTask w (FnRef.allItem a c n (FnRef.resolveCap P) idx) t)
      s).counters[c]? = some (idx + 1) ∧
    SealedHeap (fun _ => false) a c
      (runTask env (Task.fulfilledTask w (FnRef.allItem a c n (FnRef.resolveCap P) idx) t) s) ∧
    (∃ new,
      (runTask env (Task.fulfilledTask w (FnRef.allItem a c n (FnRef.resolveCap P) idx) t)
        s).timers = s.timers ++ new ∧
      ∀ t1 ∈ new, Task.mild (fun _ => false) a c t1 = true) ∧
    (idx + 1 ≠ n →
      (runTask env (Task.fulfilledTask w (FnRef.allItem a c n (FnRef.resolveCap P) idx) t)
        s).promises[P]? = s.promises[P]?) ∧
    (idx + 1 = n → coreOf s P = some (PState.pending, Val.undefined, Val.undefined) →
      coreOf (runTask env (Task.fulfilledTask w (FnRef.allItem a c n (FnRef.resolveCap P) idx)
        t) s) P = some (PState.fulfilled, Val.arr a, Val.undefined)) := by
  have halt := (List.getElem?_eq_some.mp ha).1
  have hclt := (List.getElem?_eq_some.mp hc).1
  rw [runTask_item env a c n P w t idx x r s hw hv hc]
  generalize hs1 : bumpCounter c (storeResult a idx x s) = s1
  have h1p : s1.promises = s.promises := by rw [← hs1]; rfl
  have h1t : s1.timers = s.timers := by rw [← hs1]; rfl
  have h1a : s1.arrays[a]? = some (arr ++ [some x]) := by
    rw [← hs1]
    simp only [bumpCounter, storeResult]
    rw [List.getElem?_set_self halt, List.getD_eq_getElem?_getD, ha, Option.getD_some, ← hlen,
      arraySet_end]
  have h1c : s1.counters[c]? = some (idx + 1) := by
    rw [← hs1]
    simp only [bumpCounter, storeResult]
    rw [List.getElem?_set_self hclt, List.getD_eq_getElem?_getD, hc, Option.getD_some]
  have h1q : SealedHeap (fun _ => false) a c s1 := by
    intro p m hm
    rw [h1p] at hm
    exact hq p m hm
  have hseal : Sealed (fun _ => false) a c s1
      (settleResolve t Val.undefined
        (newLatch (if idx + 1 = n then settleResolve P (Val.arr a) s1 else s1)).2) := by
    have hA : Sealed (fun _ => false) a c s1
        (if idx + 1 = n then settleResolve P (Val.arr a) s1 else s1) := by
      split
      · exact settleResolve_sealed _ a c P _ s1 rfl
      · exact Sealed.still _ a c s1
    have hB : Sealed (fun _ => false) a c
        (if idx + 1 = n then settleResolve P (Val.arr a) s1 else s1)
        (newLatch (if idx + 1 = n then settleResolve P (Val.arr a) s1 else s1)).2 :=
      Sealed.untouched rfl rfl rfl rfl
    exact (hA.thenAlso hB).thenAlso (settleResolve_sealed _ a c t _ _ rfl)
  obtain ⟨_, _, har, hco, hq2, new, ht2, hn2⟩ :=
    hseal (fun _ h => by cases h) h1q
  refine ⟨har.trans h1a, hco.trans h1c, hq2, ⟨new, by rw [ht2, h1t], hn2⟩, ?_, ?_⟩
  · intro hn
    rw [if_neg hn, settleResolve_other t P _ _ htP]
    show s1.promises[P]? = _
    rw [h1p]
  · intro hn hcore
    rw [if_pos hn]
    simp only [coreOf]
    rw [settleResolve_other t P _ _ htP]
    have hcore1 : coreOf s1 P = some (PState.pending, Val.undefined, Val.undefined) := by
      simp only [coreOf, h1p]
      exact hcore
    exact settleWith_core (Completion.normal (Val.arr a)) P s1 hcore1

/-- Running the timers of the items one after the other: the array ends up holding the
items in order, the counter reaches `length`, and the last timer fulfils the instance
that `all` returned with the array. -/
theorem ticks_items (env : Env) (a c n P : Nat) (xs : List Val) :
    ∀ (idx L : Nat) (done : List (Option Val)) (rest : List Task) (s : State),
      s.timers = itemTimers a c n P idx L xs ++ rest → wrappersHold s L xs → P < L →
      s.arrays[a]? = some done → done.length = idx → s.counters[c]? = some idx →
      idx + xs.length = n →
      (xs ≠ [] → coreOf s P = some (PState.pending, Val.undefined, Val.undefined)) →
      SealedHeap (fun _ => false) a c s →
      (∀ t ∈ rest, Task.mild (fun _ => false) a c t = true) →
      (ticks env xs.length s).arrays[a]? = some (done ++ xs.map some) ∧
      (ticks env xs.length s).counters[c]? = some n ∧
      (xs ≠ [] → coreOf (ticks env xs.length s) P =
        some (PState.fulfilled, Val.arr a, Val.undefined)) ∧
      SealedHeap (fun _ => false) a c (ticks env xs.length s) ∧
      ∃ new, (ticks env xs.length s).timers = rest ++ new ∧
        ∀ t ∈ new, Task.mild (fun _ => false) a c t = true := by
  induction xs with
  | nil =>
    intro idx L done rest s ht _ _ ha _ hc hn _ hq hrest
    simp only [List.length_nil, Nat.add_zero] at hn
    subst hn
    exact ⟨by simpa [ticks] using ha, hc, fun h => absurd rfl h, hq, [],
      by simpa [ticks, itemTimers] using ht, by simp⟩
  | cons x xs ih =>
    intro idx L done rest s ht hw hPL ha hlen hc hn hcore hq hrest
    obtain ⟨⟨r, hr, _, hv⟩, hwrest⟩ := hw
    have htick : tick env s =
        runTask env (Task.fulfilledTask L (FnRef.allItem a c n (FnRef.resolveCap P) idx) (L + 1))
          { s with timers := itemTimers a c n P (idx + 1) (L + 3) xs ++ rest } :=
      tick_cons env s _ _ (by simpa [itemTimers] using ht)
    obtain ⟨har, hco, hq1, ⟨new1, ht1, hn1⟩, hPsame, hPdone⟩ :=
      runTask_item_effects env a c n P L (L + 1) idx x r done
        { s with timers := itemTimers a c n P (idx + 1) (L + 3) xs ++ rest } hr hv ha hlen hc
        (by omega) hq
    rw [← htick] at har hco hq1 ht1 hPsame hPdone
    have hframe : Frame s (tick env s) := (tick_moves env s).runFrame
    have hcore1 : xs ≠ [] →
        coreOf (tick env s) P = some (PState.pending, Val.undefined, Val.undefined) := by
      intro hne
      have hpos : 0 < xs.length := List.length_pos.mpr hne
      simp only [List.length_cons] at hn
      have := hPsame (by omega)
      simp only [coreOf, this]
      exact hcore (by simp)
    obtain ⟨h1, h2, h3, h4, new2, h5, h6⟩ := ih (idx + 1) (L + 3) (done ++ [some x])
      (rest ++ new1) (tick env s) (by rw [ht1]; simp) (wrappersHold_frame hframe xs _ hwrest)
      (by omega) har (by simp [hlen]) hco (by simp only [List.length_cons] at hn; omega)
      hcore1 hq1
      (by
        intro t ht
        rcases List.mem_append.mp ht with h | h
        · exact hrest t h
        · exact hn1 t h)
    refine ⟨?_, h2, fun _ => ?_, h4, new1 ++ new2, ?_, ?_⟩
    · show (ticks env xs.length (tick env s)).arrays[a]? = _
      rw [h1]
      simp
    · show coreOf (ticks env xs.length (tick env s)) P = _
      by_cases hne : xs = []
      · subst hne
        simp only [List.length_cons, List.length_nil] at hn
        exact hPdone (by omega) (hcore (by simp))
      · exact h3 hne
    · show (ticks env xs.length (tick env s)).timers = _
      rw [h5, List.append_assoc]
    · intro t ht
      rcases List.mem_append.mp ht with h | h
      · exact hn1 t h
      · exact h6 t h

theorem wrappersHold_itemRecords (this : Nat) (xs : List Val) :
    ∀ (front : List PromiseRec) (s : State),
      s.promises = front ++ itemRecords this front.length xs →
      wrappersHold s front.length xs := by
  induction xs with
  | nil => intro front s _; trivial
  | cons x rest ih =>
    intro front s hs
    refine ⟨⟨PromiseRec.fulfilledWith x, ?_, rfl, rfl⟩, ?_⟩
    · rw [hs]
      exact getElem?_append_cons_length _ _ _
    · have := ih (front ++
        [PromiseRec.fulfilledWith x,
          PromiseRec.fresh.addCallbacks
            (Task.fulfilledTask (front.length + 1) FnRef.identity (front.length + 2))
            (Task.rejectedTask (front.length + 1) (FnRef.rejectCap this) (front.length + 2)),
          PromiseRec.fresh]) s (by rw [hs]; simp [itemRecords])
      simpa using this

theorem itemRecords_sparesCells (this a c : Nat) (xs : List Val) :
    ∀ L, ∀ r ∈ itemRecords this L xs,
      ∀ t ∈ r.onFulfilledCallbacks ++ r.onRejectedCallbacks, t.sparesCells a c = true := by
  induction xs with
  | nil => intro L r hr; simp [itemRecords] at hr
  | cons x rest ih =>
    intro L r hr
    simp only [itemRecords, List.mem_cons] at hr
    rcases hr with h | h | h | h
    · subst h; simp [PromiseRec.fulfilledWith]
    · subst h
      simp [PromiseRec.addCallbacks, PromiseRec.fresh, Task.sparesCells, FnRef.sparesCells]
    · subst h; simp [PromiseRec.fresh]
    · exact ih _ r h

/-- `MyPromise.all` on a list that is not empty, in a closed state: the drain of the queue
returns, the instance that `all` returned is fulfilled with the new array at the end, and
the array holds the items themselves, in the order of the list. -/
theorem all_drain (env : Env) (items : List Val) (s : State) (hne : items ≠ [])
    (hclosed : Closed s) :
    (MyPromise.all items s).1 = s.promises.length ∧
    ∃ fuel s3, (∀ k, drain env (fuel + k) (MyPromise.all items s).2 = some s3) ∧
      coreOf s3 s.promises.length =
        some (PState.fulfilled, Val.arr s.arrays.length, Val.undefined) ∧
      s3.arrays[s.arrays.length]? = some (items.map some) := by
  rw [all_eq items s hne]
  refine ⟨rfl, ?_⟩
  generalize hs0 : (⟨s.promises ++
      PromiseRec.fresh :: itemRecords s.promises.length (s.promises.length + 1) items,
    s.latches, s.arrays ++ [[]], s.counters ++ [0],
    s.timers ++ itemTimers s.arrays.length s.counters.length items.length s.promises.length 0
      (s.promises.length + 1) items, s.log, s.calls, s.thenReads, s.uncaught⟩ : State) = s0
  have hp0 : s0.promises = s.promises ++
      PromiseRec.fresh :: itemRecords s.promises.length (s.promises.length + 1) items := by
    rw [← hs0]
  have ht0 : s0.timers = s.timers ++ itemTimers s.arrays.length s.counters.length items.length
      s.promises.length 0 (s.promises.length + 1) items := by rw [← hs0]
  have ha0 : s0.arrays[s.arrays.length]? = some [] := by
    rw [← hs0]; exact List.getElem?_concat_length _ _
  have hc0 : s0.counters[s.counters.length]? = some 0 := by
    rw [← hs0]; exact List.getElem?_concat_length _ _
  have hcore0 : coreOf s0 s.promises.length =
      some (PState.pending, Val.undefined, Val.undefined) := by
    simp only [coreOf, hp0]
    rw [getElem?_append_cons_length]
    rfl
  have hw0 : wrappersHold s0 (s.promises.length + 1) items := by
    have := wrappersHold_itemRecords s.promises.length items (s.promises ++ [PromiseRec.fresh])
      s0 (by rw [hp0]; simp)
    simpa using this
  -- the addresses that the call allocated
  obtain ⟨hq1, hq2⟩ := hclosed
  have hweak : ∀ p, (decide (s.promises.length ≤ p ∧ p < s0.promises.length)) = true →
      (decide (s.promises.length ≤ p)) = true := by
    intro p hp
    simp only [decide_eq_true_eq] at hp ⊢
    exact hp.1
  have hheap0 : SealedHeap (fun p => decide (s.promises.length ≤ p ∧ p < s0.promises.length))
      s.arrays.length s.counters.length s0 := by
    intro p r hr t ht
    rw [hp0] at hr
    by_cases hlt : p < s.promises.length
    · rw [List.getElem?_append_left hlt] at hr
      have hm := hq2 r (List.getElem?_mem hr) t ht
      have hm2 := Task.mild_weaker _ _ _ _ hweak t hm
      simp only [Task.mild, Bool.and_eq_true] at hm2
      exact ⟨hm2.2, fun _ => hm2.1⟩
    · rw [List.getElem?_append_right (by omega)] at hr
      have hmem := List.getElem?_mem hr
      have hcells : t.sparesCells s.arrays.length s.counters.length = true := by
        rcases List.mem_cons.mp hmem with h | h
        · subst h; simp [PromiseRec.fresh] at ht
        · exact itemRecords_sparesCells _ _ _ items _ r h t ht
      refine ⟨hcells, fun hA => ?_⟩
      have hplt : p < s0.promises.length := by
        rw [hp0]
        have := (List.getElem?_eq_some.mp hr).1
        simp only [List.length_append] at this ⊢
        omega
      simp only [decide_eq_false_iff_not, not_and] at hA
      exact absurd hplt (hA (by omega))
  obtain ⟨hc1, har1, hco1, hseal1, new1, ht1, hn1⟩ := ticks_sealed
    (fun p => decide (s.promises.length ≤ p ∧ p < s0.promises.length))
    s.arrays.length s.counters.length env s.timers _ s0 ht0
    (fun t ht => Task.mild_weaker _ _ _ _ hweak t (hq1 t ht))
    (by intro p hp; simp only [decide_eq_true_eq] at hp; exact hp.2) hheap0
  have hPlt : s.promises.length < s0.promises.length := by
    rw [hp0]; simp
  have hcoreP := hc1 s.promises.length (by simp [hPlt])
  obtain ⟨h1, _, h3, h4, new2, h5, h6⟩ := ticks_items env s.arrays.length s.counters.length
    items.length s.promises.length items 0 (s.promises.length + 1) [] new1
    (ticks env s.timers.length s0) ht1
    (wrappersHold_frame (ticks_moves env _ s0).runFrame items _ hw0) (by omega)
    (har1.trans ha0) rfl (hco1.trans hc0) (by simp) (fun _ => hcoreP.trans hcore0)
    hseal1.cellsOnly
    (fun t ht => Task.mild_weaker _ _ _ _ (fun _ h => by cases h) t (hn1 t ht))
  obtain ⟨fuel, s3, hd⟩ := drain_returns env s0
  refine ⟨fuel, s3, hd, ?_, ?_⟩
  · have hd2 := hd (s.timers.length + items.length)
    rw [show fuel + (s.timers.length + items.length) =
      s.timers.length + (items.length + fuel) by omega, drain_ticks, drain_ticks] at hd2
    exact coreOf_settled_frame (drain_moves env _ _ _ hd2).runFrame _ _ (h3 hne) (by simp)
  · have hd2 := hd (s.timers.length + items.length)
    rw [show fuel + (s.timers.length + items.length) =
      s.timers.length + (items.length + fuel) by omega, drain_ticks, drain_ticks] at hd2
    obtain ⟨_, har3, _⟩ := drain_sealed (fun _ => false) s.arrays.length s.counters.length env
      _ _ s3 hd2
      (by
        intro t ht
        rw [h5] at ht
        rcases List.mem_append.mp ht with h | h
        · exact Task.mild_weaker _ _ _ _ (fun _ h => by cases h) t (hn1 t h)
        · exact h6 t h)
      (fun _ h => by cases h) h4
    rw [har3, h1]
    simp

/-! ## `MyPromise.race` -/

/-- The `forEach` of `race`: it appends the instances and the timers of the items, and
changes nothing else. -/
theorem raceEach_eq (this : Nat) (xs : List Val) :
    ∀ (s : State),
      MyPromise.raceEach this xs s =
        { s with
          promises := s.promises ++ itemRecords this s.promises.length xs
          timers := s.timers ++ raceTimers this s.promises.length xs } := by
  induction xs with
  | nil => intro s; simp [MyPromise.raceEach, itemRecords, raceTimers]
  | cons x rest ih =>
    intro s
    simp only [MyPromise.raceEach]
    rw [resolve_eq]
    simp only
    rw [then_fulfilled _ _ _ _ (PromiseRec.fulfilledWith x) (by simp) rfl]
    simp only [MyPromise.catch_]
    rw [then_pending _ _ _ _ PromiseRec.fresh (List.getElem?_concat_length _ _) rfl]
    simp only
    rw [ih]
    simp [itemRecords, raceTimers, PromiseRec.addCallbacks, asOnFulfilled, asOnRejected,
      List.set_append_right, Nat.add_assoc]

/-- The call `MyPromise.race(items)`. -/
theorem race_eq (items : List Val) (s : State) :
    MyPromise.race items s =
      (s.promises.length,
        { s with
          promises := s.promises ++
            PromiseRec.fresh :: itemRecords s.promises.length (s.promises.length + 1) items
          timers := s.timers ++ raceTimers s.promises.length (s.promises.length + 1) items }) := by
  unfold MyPromise.race
  rw [construct_noThrow _ _ (fun _ _ => rfl)]
  simp only
  rw [raceEach_eq]
  simp [allocPromise]

/-- The timer of `then(resolve)` on the wrapper of an item, run while the instance that
`race` returned is pending: that instance is fulfilled with the item. -/
theorem runTask_race_item (env : Env) (P w t : Nat) (x : Val) (r : PromiseRec) (s : State)
    (hw : s.promises[w]? = some r) (hv : r.value = x) (htP : t ≠ P)
    (hcore : coreOf s P = some (PState.pending, Val.undefined, Val.undefined)) :
    coreOf (runTask env (Task.fulfilledTask w (FnRef.resolveCap P) t) s) P =
      some (PState.fulfilled, x, Val.undefined) := by
  simp only [runTask, runHandler, callFn]
  rw [fieldValue_eq _ _ _ hw, hv]
  rw [resolvePromise_plain env _ Val.undefined _ rfl]
  simp only [catchReject, isObjectLike, coreOf]
  rw [settleResolve_other _ _ _ _ htP]
  exact settleWith_core (Completion.normal x) _ _ hcore

/-- `MyPromise.race` on a list that is not empty, in a closed state: the drain of the
queue returns, and the instance that `race` returned is fulfilled at the end with the
first item itself, whatever the items are. -/
theorem race_drain (env : Env) (x : Val) (rest : List Val) (s : State) (hclosed : Closed s) :
    (MyPromise.race (x :: rest) s).1 = s.promises.length ∧
    ∃ fuel s3, (∀ k, drain env (fuel + k) (MyPromise.race (x :: rest) s).2 = some s3) ∧
      coreOf s3 s.promises.length = some (PState.fulfilled, x, Val.undefined) := by
  rw [race_eq]
  refine ⟨rfl, ?_⟩
  generalize hs0 : (⟨s.promises ++
      PromiseRec.fresh :: itemRecords s.promises.length (s.promises.length + 1) (x :: rest),
    s.latches, s.arrays, s.counters,
    s.timers ++ raceTimers s.promises.length (s.promises.length + 1) (x :: rest), s.log,
    s.calls, s.thenReads, s.uncaught⟩ : State) = s0
  have hp0 : s0.promises = s.promises ++
      PromiseRec.fresh :: itemRecords s.promises.length (s.promises.length + 1) (x :: rest) := by
    rw [← hs0]
  have ht0 : s0.timers = s.timers ++
      (Task.fulfilledTask (s.promises.length + 1) (FnRef.resolveCap s.promises.length)
        (s.promises.length + 2) ::
        raceTimers s.promises.length (s.promises.length + 1 + 3) rest) := by
    rw [← hs0]; rfl
  have hcore0 : coreOf s0 s.promises.length =
      some (PState.pending, Val.undefined, Val.undefined) := by
    simp only [coreOf, hp0]
    rw [getElem?_append_cons_length]
    rfl
  have hw0 : s0.promises[s.promises.length + 1]? = some (PromiseRec.fulfilledWith x) := by
    rw [hp0, List.getElem?_append_right (by omega)]
    simp [itemRecords]
  obtain ⟨hq1, hq2⟩ := hclosed
  have hweak : ∀ p, (decide (s.promises.length ≤ p ∧ p < s0.promises.length)) = true →
      (decide (s.promises.length ≤ p)) = true := by
    intro p hp
    simp only [decide_eq_true_eq] at hp ⊢
    exact hp.1
  have hheap0 : SealedHeap (fun p => decide (s.promises.length ≤ p ∧ p < s0.promises.length))
      s.arrays.length s.counters.length s0 := by
    intro p r hr t ht
    rw [hp0] at hr
    by_cases hlt : p < s.promises.length
    · rw [List.getElem?_append_left hlt] at hr
      have hm := hq2 r (List.getElem?_mem hr) t ht
      have hm2 := Task.mild_weaker _ _ _ _ hweak t hm
      simp only [Task.mild, Bool.and_eq_true] at hm2
      exact ⟨hm2.2, fun _ => hm2.1⟩
    · rw [List.getElem?_append_right (by omega)] at hr
      have hmem := List.getElem?_mem hr
      have hcells : t.sparesCells s.arrays.length s.counters.length = true := by
        rcases List.mem_cons.mp hmem with h | h
        · subst h; simp [PromiseRec.fresh] at ht
        · exact itemRecords_sparesCells _ _ _ (x :: rest) _ r h t ht
      refine ⟨hcells, fun hA => ?_⟩
      have hplt : p < s0.promises.length := by
        rw [hp0]
        have := (List.getElem?_eq_some.mp hr).1
        simp only [List.length_append] at this ⊢
        omega
      simp only [decide_eq_false_iff_not, not_and] at hA
      exact absurd hplt (hA (by omega))
  obtain ⟨hc1, _, _, _, new1, ht1, _⟩ := ticks_sealed
    (fun p => decide (s.promises.length ≤ p ∧ p < s0.promises.length))
    s.arrays.length s.counters.length env s.timers _ s0 ht0
    (fun t ht => Task.mild_weaker _ _ _ _ hweak t (hq1 t ht))
    (by intro p hp; simp only [decide_eq_true_eq] at hp; exact hp.2) hheap0
  have hPlt : s.promises.length < s0.promises.length := by
    rw [hp0]; simp
  have hcoreP := (hc1 s.promises.length (by simp [hPlt])).trans hcore0
  have hw1 := (ticks_moves env s.timers.length s0).runFrame.1 _ _ hw0
    (by simp [PromiseRec.fulfilledWith])
  have htick : tick env (ticks env s.timers.length s0) =
      runTask env (Task.fulfilledTask (s.promises.length + 1)
          (FnRef.resolveCap s.promises.length) (s.promises.length + 2))
        { ticks env s.timers.length s0 with
          timers := raceTimers s.promises.length (s.promises.length + 1 + 3) rest ++ new1 } :=
    tick_cons env _ _ _ (by simpa using ht1)
  have hcore2 : coreOf (ticks env (s.timers.length + 1) s0) s.promises.length =
      some (PState.fulfilled, x, Val.undefined) := by
    rw [ticks_succ, htick]
    exact runTask_race_item env _ _ _ x (PromiseRec.fulfilledWith x) _ hw1 rfl (by omega)
      hcoreP
  obtain ⟨fuel, s3, hd⟩ := drain_returns env s0
  refine ⟨fuel, s3, hd, ?_⟩
  have hd2 := hd (s.timers.length + 1)
  rw [Nat.add_comm, drain_ticks] at hd2
  exact coreOf_settled_frame (drain_moves env _ _ _ hd2).runFrame _ _ hcore2 (by simp)

/-- C14: what `MyPromise.all` does with a list of instances.  Each item goes through
`MyPromise.resolve(item).then(value => ...)`; the wrapper is fulfilled with the instance
itself, so the handler of line 106 stores the instance, not its value.  For every list
of instances that is not empty, in every closed state, the drain of the queue returns and
`all` is fulfilled with an array whose elements are the instances themselves, whatever
their states are.  For `all([MyPromise.resolve(7)])` the array holds the instance at
address 0, not the number 7. -/
theorem C14_all_keeps_promise_items (env : Env) :
    (∀ (ps : List Nat) (s : State), Closed s → ps ≠ [] →
      ∃ fuel s3,
        (∀ k, drain env (fuel + k) (MyPromise.all (ps.map Val.promise) s).2 = some s3) ∧
        coreOf s3 (MyPromise.all (ps.map Val.promise) s).1 =
          some (PState.fulfilled, Val.arr s.arrays.length, Val.undefined) ∧
        s3.arrays[s.arrays.length]? = some (ps.map (fun p => some (Val.promise p)))) ∧
    (∀ fuel, (drain sampleEnv (fuel + 2) (runOps sampleEnv
        [Op.resolve (Val.num 7), Op.all [Val.promise 0]] State.init)).map
        (fun s3 => (coreOf s3 0, coreOf s3 1, s3.arrays[0]?)) =
      some (some (PState.fulfilled, Val.num 7, Val.undefined),
        some (PState.fulfilled, Val.arr 0, Val.undefined),
        some [some (Val.promise 0)])) := by
  refine ⟨fun ps s hclosed hne => ?_, fun fuel => by cases fuel <;> rfl⟩
  obtain ⟨h1, fuel, s3, hd, hcore, harr⟩ := all_drain env (ps.map Val.promise) s
    (by simpa using hne) hclosed
  refine ⟨fuel, s3, hd, by rw [h1]; exact hcore, ?_⟩
  rw [harr]
  simp

theorem C14_all_keeps_promise_items_witness :
    Closed (runOps sampleEnv [Op.resolve (Val.num 7), Op.resolve (Val.num 8)] State.init) ∧
    ∃ fuel s3,
      (∀ k, drain sampleEnv (fuel + k) (MyPromise.all ([0, 1].map Val.promise)
        (runOps sampleEnv [Op.resolve (Val.num 7), Op.resolve (Val.num 8)] State.init)).2 =
          some s3) ∧
      coreOf s3 (MyPromise.all ([0, 1].map Val.promise)
        (runOps sampleEnv [Op.resolve (Val.num 7), Op.resolve (Val.num 8)] State.init)).1 =
        some (PState.fulfilled, Val.arr 0, Val.undefined) ∧
      s3.arrays[0]? = some [some (Val.promise 0), some (Val.promise 1)] :=
  ⟨by unfold Closed; decide,
    (C14_all_keeps_promise_items sampleEnv).1 [0, 1] _ (by unfold Closed; decide) (by simp)⟩

/-- C15: what `MyPromise.all` does when an item is rejected.  The closure of
`catch(reject)` is registered on the instance that `then` returned, which the handler of
line 106 always fulfils, so `reject` is never called: for every list that is not empty,
in every closed state, the drain of the queue returns and `all` is fulfilled at the end,
never rejected.  For `all([MyPromise.reject('x')])` it is fulfilled with the array that
holds the rejected instance. -/
theorem C15_all_never_rejects (env : Env) :
    (∀ (items : List Val) (s : State), Closed s → items ≠ [] →
      ∃ fuel s3, (∀ k, drain env (fuel + k) (MyPromise.all items s).2 = some s3) ∧
        ∃ v, coreOf s3 (MyPromise.all items s).1 = some (PState.fulfilled, v, Val.undefined)) ∧
    (∀ fuel, (drain sampleEnv (fuel + 2) (runOps sampleEnv
        [Op.reject (Val.str "x"), Op.all [Val.promise 0]] State.init)).map
        (fun s3 => (coreOf s3 0, coreOf s3 1, s3.arrays[0]?)) =
      some (some (PState.rejected, Val.undefined, Val.str "x"),
        some (PState.fulfilled, Val.arr 0, Val.undefined),
        some [some (Val.promise 0)])) ∧
    (∀ fuel, (drain sampleEnv (fuel + 4) (runOps sampleEnv
        [Op.reject (Val.str "x"), Op.reject (Val.str "y"),
          Op.all [Val.promise 0, Val.promise 1]] State.init)).map
        (fun s3 => (coreOf s3 2, s3.arrays[0]?)) =
      some (some (PState.fulfilled, Val.arr 0, Val.undefined),
        some [some (Val.promise 0), some (Val.promise 1)])) := by
  refine ⟨fun items s hclosed hne => ?_, fun fuel => by cases fuel <;> rfl,
    fun fuel => by cases fuel <;> rfl⟩
  obtain ⟨h1, fuel, s3, hd, hcore, _⟩ := all_drain env items s hne hclosed
  exact ⟨fuel, s3, hd, _, by rw [h1]; exact hcore⟩

theorem C15_all_never_rejects_witness :
    Closed (runOps sampleEnv [Op.reject (Val.str "x")] State.init) ∧
    ∃ fuel s3,
      (∀ k, drain sampleEnv (fuel + k) (MyPromise.all [Val.promise 0]
        (runOps sampleEnv [Op.reject (Val.str "x")] State.init)).2 = some s3) ∧
      ∃ v, coreOf s3 (MyPromise.all [Val.promise 0]
        (runOps sampleEnv [Op.reject (Val.str "x")] State.init)).1 =
        some (PState.fulfilled, v, Val.undefined) :=
  ⟨by unfold Closed; decide,
    (C15_all_never_rejects sampleEnv).1 [Val.promise 0] _ (by unfold Closed; decide)
      (by simp)⟩

/-- C16: what `MyPromise.race` does.  Each item goes through
`MyPromise.resolve(item).then(resolve)`; the wrapper is fulfilled with the item itself, so
the first timer calls `resolve` with the first item.  For every two instances, in every
closed state, the drain of the queue returns and `race([p1, p2])` is fulfilled with
the instance `p1` as its value, whatever the states of `p1` and `p2` are: when both are
fulfilled (with 1 and 2), when `p1` is rejected, and when `p1` is pending and `p2` is
fulfilled. -/
theorem C16_race_takes_first_item (env : Env) :
    (∀ (p1 p2 : Nat) (s : State), Closed s →
      ∃ fuel s3,
        (∀ k, drain env (fuel + k)
          (MyPromise.race [Val.promise p1, Val.promise p2] s).2 = some s3) ∧
        coreOf s3 (MyPromise.race [Val.promise p1, Val.promise p2] s).1 =
          some (PState.fulfilled, Val.promise p1, Val.undefined)) ∧
    (∀ fuel, (drain sampleEnv (fuel + 4) (runOps sampleEnv
        [Op.resolve (Val.num 1), Op.resolve (Val.num 2),
          Op.race [Val.promise 0, Val.promise 1]] State.init)).map
        (fun s3 => (coreOf s3 0, coreOf s3 1, coreOf s3 2)) =
      some (some (PState.fulfilled, Val.num 1, Val.undefined),
        some (PState.fulfilled, Val.num 2, Val.undefined),
        some (PState.fulfilled, Val.promise 0, Val.undefined))) ∧
    (∀ fuel, (drain sampleEnv (fuel + 4) (runOps sampleEnv
        [Op.reject (Val.str "a"), Op.resolve (Val.num 2),
          Op.race [Val.promise 0, Val.promise 1]] State.init)).map
        (fun s3 => (coreOf s3 0, coreOf s3 1, coreOf s3 2)) =
      some (some (PState.rejected, Val.undefined, Val.str "a"),
        some (PState.fulfilled, Val.num 2, Val.undefined),
        some (PState.fulfilled, Val.promise 0, Val.undefined))) ∧
    (∀ fuel, (drain sampleEnv (fuel + 4) (runOps sampleEnv
        [Op.construct ⟨[], none⟩, Op.resolve (Val.num 2),
          Op.race [Val.promise 0, Val.promise 1]] State.init)).map
        (fun s3 => (coreOf s3 0, coreOf s3 1, coreOf s3 2)) =
      some (some (PState.pending, Val.undefined, Val.undefined),
        some (PState.fulfilled, Val.num 2, Val.undefined),
        some (PState.fulfilled, Val.promise 0, Val.undefined))) := by
  refine ⟨fun p1 p2 s hclosed => ?_, fun fuel => by cases fuel <;> rfl,
    fun fuel => by cases fuel <;> rfl, fun fuel => by cases fuel <;> rfl⟩
  obtain ⟨h1, fuel, s3, hd, hcore⟩ := race_drain env (Val.promise p1) [Val.promise p2] s hclosed
  exact ⟨fuel, s3, hd, by rw [h1]; exact hcore⟩

theorem C16_race_takes_first_item_witness :
    Closed (runOps sampleEnv [Op.construct ⟨[], none⟩, Op.resolve (Val.num 2)] State.init) ∧
    ∃ fuel s3,
      (∀ k, drain sampleEnv (fuel + k) (MyPromise.race [Val.promise 0, Val.promise 1]
        (runOps sampleEnv [Op.construct ⟨[], none⟩, Op.resolve (Val.num 2)] State.init)).2 =
          some s3) ∧
      coreOf s3 (MyPromise.race [Val.promise 0, Val.promise 1]
        (runOps sampleEnv [Op.construct ⟨[], none⟩, Op.resolve (Val.num 2)] State.init)).1 =
        some (PState.fulfilled, Val.promise 0, Val.undefined) :=
  ⟨by unfold Closed; decide,
    (C16_race_takes_first_item sampleEnv).1 0 1 _ (by unfold Closed; decide)⟩

/-- The two calls `MyPromise.resolve(MyPromise.resolve(v))`: two instances are appended to
the heap, the second one holding the first one as its value; nothing else changes. -/
theorem resolve_resolve_eq (v : Val) (s : State) :
    MyPromise.resolve (Val.promise (MyPromise.resolve v s).1) (MyPromise.resolve v s).2 =
      (s.promises.length + 1,
        { s with promises := s.promises ++
            [PromiseRec.fulfilledWith v,
              PromiseRec.fulfilledWith (Val.promise s.promises.length)] }) := by
  rw [resolve_eq v s]
  simp only
  rw [resolve_eq]
  simp

/-- C17, as the code has it: `MyPromise.resolve(MyPromise.resolve(v))` is fulfilled when
the call returns, and its value is the inner instance (which is fulfilled with `v`), not
`v`; the two calls queue no timer and read no `then` member, and after every drain of
the queue the outer instance still has the inner instance as its value.  With `v = 5`
from the initial state: the value is the instance at address 0, whatever the fuel. -/
theorem C17_resolve_of_promise_keeps_promise (env : Env) :
    (∀ v s,
      (MyPromise.resolve (Val.promise (MyPromise.resolve v s).1) (MyPromise.resolve v s).2).1 =
        s.promises.length + 1 ∧
      (MyPromise.resolve v s).1 = s.promises.length ∧
      (MyPromise.resolve (Val.promise (MyPromise.resolve v s).1)
        (MyPromise.resolve v s).2).2 =
        { s with promises := s.promises ++
            [PromiseRec.fulfilledWith v,
              PromiseRec.fulfilledWith (Val.promise s.promises.length)] }) ∧
    (∀ v s, ∃ fuel s3,
      (∀ k, drain env (fuel + k) (MyPromise.resolve (Val.promise (MyPromise.resolve v s).1)
        (MyPromise.resolve v s).2).2 = some s3) ∧
      s3.promises[s.promises.length]? = some (PromiseRec.fulfilledWith v) ∧
      s3.promises[s.promises.length + 1]? =
        some (PromiseRec.fulfilledWith (Val.promise s.promises.length))) ∧
    (∀ fuel, (drain env fuel (runOps env
        [Op.resolve (Val.num 5), Op.resolve (Val.promise 0)] State.init)).map
        (fun s3 => (coreOf s3 0, coreOf s3 1)) =
      some (some (PState.fulfilled, Val.num 5, Val.undefined),
        some (PState.fulfilled, Val.promise 0, Val.undefined))) := by
  refine ⟨fun v s => ?_, fun v s => ?_, fun fuel => ?_⟩
  · rw [resolve_resolve_eq, resolve_eq]
    exact ⟨rfl, rfl, rfl⟩
  · obtain ⟨fuel, s3, hd⟩ := drain_returns env
      (MyPromise.resolve (Val.promise (MyPromise.resolve v s).1)
        (MyPromise.resolve v s).2).2
    refine ⟨fuel, s3, hd, ?_, ?_⟩
    · have hf := (drain_moves env _ _ _ (hd 0)).runFrame
      refine hf.1 _ _ ?_ (by simp [PromiseRec.fulfilledWith])
      rw [resolve_resolve_eq]
      exact getElem?_append_cons_length _ _ _
    · have hf := (drain_moves env _ _ _ (hd 0)).runFrame
      refine hf.1 _ _ ?_ (by simp [PromiseRec.fulfilledWith])
      rw [resolve_resolve_eq]
      show (s.promises ++ [PromiseRec.fulfilledWith v,
        PromiseRec.fulfilledWith (Val.promise s.promises.length)])[s.promises.length + 1]? = _
      rw [List.getElem?_append_right (by omega)]
      simp
  · rw [drain_nil env fuel _ rfl]
    rfl

/-- C17 as it is written fails: after `MyPromise.resolve(MyPromise.resolve(5))` and any
drain of the queue, the outer instance is not fulfilled with the number 5. -/
theorem C17_counterexample :
    ¬ ∃ fuel s3, drain sampleEnv fuel (runOps sampleEnv
        [Op.resolve (Val.num 5), Op.resolve (Val.promise 0)] State.init) = some s3 ∧
      coreOf s3 1 = some (PState.fulfilled, Val.num 5, Val.undefined) := by
  rintro ⟨fuel, s3, hd, hc⟩
  rw [drain_nil sampleEnv fuel _ rfl] at hd
  cases hd
  revert hc
  decide

/-- C18: for every value `t` (an instance and a thenable included) and every state,
`MyPromise.resolve(t)` returns a new instance, at the next free address, that is
fulfilled with `t` itself when the call returns; nothing else changes: no `then` member is
read (the trace of reads is as before), no function is called, no timer is queued, and
the instances that existed are as they were. -/
theorem C18_resolve_does_not_unwrap (t : Val) (s : State) :
    (MyPromise.resolve t s).1 = s.promises.length ∧
    (MyPromise.resolve t s).2.promises[(MyPromise.resolve t s).1]? =
      some (PromiseRec.fulfilledWith t) ∧
    coreOf (MyPromise.resolve t s).2 (MyPromise.resolve t s).1 =
      some (PState.fulfilled, t, Val.undefined) ∧
    (MyPromise.resolve t s).2 =
      { s with promises := s.promises ++ [PromiseRec.fulfilledWith t] } ∧
    (MyPromise.resolve t s).2.thenReads = s.thenReads ∧
    (MyPromise.resolve t s).2.calls = s.calls ∧
    (MyPromise.resolve t s).2.timers = s.timers := by
  rw [resolve_eq]
  simp [coreOf, PromiseRec.fulfilledWith]

/-- C19: `MyPromise.all` of plain values.  In every closed state (no pending work refers
to an address or a cell that does not exist yet), for every list of items: when the list
is not empty the drain of the queue returns, and at the end `all` is fulfilled with its
array, which holds exactly the items, in input order; when the list is empty `all` is
fulfilled with the empty array as soon as it returns, and no timer is queued.  Items that
are neither instances nor thenables are a special case. -/
theorem C19_all_of_plain_values (env : Env) (items : List Val) (s : State)
    (hclosed : Closed s) :
    (items ≠ [] →
      ∃ fuel s3, (∀ k, drain env (fuel + k) (MyPromise.all items s).2 = some s3) ∧
        coreOf s3 (MyPromise.all items s).1 =
          some (PState.fulfilled, Val.arr s.arrays.length, Val.undefined) ∧
        s3.arrays[s.arrays.length]? = some (items.map some)) ∧
    (coreOf (MyPromise.all [] s).2 (MyPromise.all [] s).1 =
        some (PState.fulfilled, Val.arr s.arrays.length, Val.undefined) ∧
      (MyPromise.all [] s).2.arrays[s.arrays.length]? = some [] ∧
      (MyPromise.all [] s).2.timers = s.timers) := by
  refine ⟨fun hne => ?_, ?_⟩
  · obtain ⟨h1, fuel, s3, hd, hcore, harr⟩ := all_drain env items s hne hclosed
    exact ⟨fuel, s3, hd, by rw [h1]; exact hcore, harr⟩
  · rw [all_nil]
    refine ⟨?_, ?_, rfl⟩
    · simp [coreOf, PromiseRec.fulfilledWith]
    · simp

theorem C19_all_of_plain_values_witness :
    Closed (MyPromise.then_ 0 (Val.fn (FnRef.user 0)) Val.undefined
      (MyPromise.resolve (Val.num 1) State.init).2).2 ∧
    (([Val.num 1, Val.str "b", Val.null] : List Val) ≠ [] →
      ∃ fuel s3,
        (∀ k, drain sampleEnv (fuel + k) (MyPromise.all [Val.num 1, Val.str "b", Val.null]
          (MyPromise.then_ 0 (Val.fn (FnRef.user 0)) Val.undefined
            (MyPromise.resolve (Val.num 1) State.init).2).2).2 = some s3) ∧
        coreOf s3 (MyPromise.all [Val.num 1, Val.str "b", Val.null]
          (MyPromise.then_ 0 (Val.fn (FnRef.user 0)) Val.undefined
            (MyPromise.resolve (Val.num 1) State.init).2).2).1 =
          some (PState.fulfilled, Val.arr 0, Val.undefined) ∧
        s3.arrays[0]? = some [some (Val.num 1), some (Val.str "b"), some Val.null]) :=
  ⟨by unfold Closed; decide,
    (C19_all_of_plain_values sampleEnv [Val.num 1, Val.str "b", Val.null] _
      (by unfold Closed; decide)).1⟩

/-- C20, as the code has it: when the `resolve` capability fulfils a pending instance,
every closure of `onFulfilledCallbacks` is called once, in insertion order (each one
schedules its timer: the queue grows by exactly these timers, in order), the value is
stored, and the two lists are left as they were: they are not emptied.  The closures are
not called again: every later call of `resolve` or `reject` returns without a change.
Symmetrically for the `reject` capability and `onRejectedCallbacks`. -/
theorem C20_settle_runs_callbacks_once (env : Env) (p : Nat) (v : Val) (s : State)
    (r : PromiseRec) (hr : s.promises[p]? = some r) (hs : r.state = PState.pending) :
    (callFn env (FnRef.resolveCap p) v s =
        (Completion.normal Val.undefined,
          { s with
            promises := s.promises.set p (r.toFulfilled v)
            timers := s.timers ++ r.onFulfilledCallbacks }) ∧
      (r.toFulfilled v).onFulfilledCallbacks = r.onFulfilledCallbacks ∧
      (r.toFulfilled v).onRejectedCallbacks = r.onRejectedCallbacks ∧
      (callFn env (FnRef.resolveCap p) v s).2.promises[p]? = some (r.toFulfilled v) ∧
      ∀ w, callFn env (FnRef.resolveCap p) w (callFn env (FnRef.resolveCap p) v s).2 =
          (Completion.normal Val.undefined, (callFn env (FnRef.resolveCap p) v s).2) ∧
        callFn env (FnRef.rejectCap p) w (callFn env (FnRef.resolveCap p) v s).2 =
          (Completion.normal Val.undefined, (callFn env (FnRef.resolveCap p) v s).2)) ∧
    (callFn env (FnRef.rejectCap p) v s =
        (Completion.normal Val.undefined,
          { s with
            promises := s.promises.set p (r.toRejected v)
            timers := s.timers ++ r.onRejectedCallbacks }) ∧
      (r.toRejected v).onFulfilledCallbacks = r.onFulfilledCallbacks ∧
      (r.toRejected v).onRejectedCallbacks = r.onRejectedCallbacks ∧
      (callFn env (FnRef.rejectCap p) v s).2.promises[p]? = some (r.toRejected v) ∧
      ∀ w, callFn env (FnRef.resolveCap p) w (callFn env (FnRef.rejectCap p) v s).2 =
          (Completion.normal Val.undefined, (callFn env (FnRef.rejectCap p) v s).2) ∧
        callFn env (FnRef.rejectCap p) w (callFn env (FnRef.rejectCap p) v s).2 =
          (Completion.normal Val.undefined, (callFn env (FnRef.rejectCap p) v s).2)) := by
  have hlt := (List.getElem?_eq_some.mp hr).1
  constructor
  · have h1 : callFn env (FnRef.resolveCap p) v s =
        (Completion.normal Val.undefined,
          { s with
            promises := s.promises.set p (r.toFulfilled v)
            timers := s.timers ++ r.onFulfilledCallbacks }) := by
      simp only [callFn]
      rw [settleResolve_pending_eq p v s r hr hs]
    have h2 : (callFn env (FnRef.resolveCap p) v s).2.promises[p]? =
        some (r.toFulfilled v) := by
      rw [h1]
      exact List.getElem?_set_self hlt
    refine ⟨h1, rfl, rfl, h2, fun w => ?_⟩
    simp only [callFn] at h2 ⊢
    rw [settleResolve_settled p w _ _ h2 (by simp [PromiseRec.toFulfilled]),
      settleReject_settled p w _ _ h2 (by simp [PromiseRec.toFulfilled])]
    exact ⟨rfl, rfl⟩
  · have h1 : callFn env (FnRef.rejectCap p) v s =
        (Completion.normal Val.undefined,
          { s with
            promises := s.promises.set p (r.toRejected v)
            timers := s.timers ++ r.onRejectedCallbacks }) := by
      simp only [callFn]
      rw [settleReject_pending_eq p v s r hr hs]
    have h2 : (callFn env (FnRef.rejectCap p) v s).2.promises[p]? =
        some (r.toRejected v) := by
      rw [h1]
      exact List.getElem?_set_self hlt
    refine ⟨h1, rfl, rfl, h2, fun w => ?_⟩
    simp only [callFn] at h2 ⊢
    rw [settleResolve_settled p w _ _ h2 (by simp [PromiseRec.toRejected]),
      settleReject_settled p w _ _ h2 (by simp [PromiseRec.toRejected])]
    exact ⟨rfl, rfl⟩

theorem C20_settle_runs_callbacks_once_witness :
    (runOps sampleEnv [Op.construct ⟨[], none⟩,
      Op.then_ 0 (Val.fn (FnRef.user 0)) Val.undefined,
      Op.then_ 0 (Val.fn (FnRef.user 4)) Val.undefined] State.init).promises[0]? =
      some ((PromiseRec.fresh.addCallbacks (Task.fulfilledTask 0 (FnRef.user 0) 1)
          (Task.rejectedTask 0 FnRef.thrower 1)).addCallbacks
        (Task.fulfilledTask 0 (FnRef.user 4) 2) (Task.rejectedTask 0 FnRef.thrower 2)) ∧
    (callFn sampleEnv (FnRef.resolveCap 0) (Val.num 9)
      (runOps sampleEnv [Op.construct ⟨[], none⟩,
        Op.then_ 0 (Val.fn (FnRef.user 0)) Val.undefined,
        Op.then_ 0 (Val.fn (FnRef.user 4)) Val.undefined] State.init)).2.timers =
      [Task.fulfilledTask 0 (FnRef.user 0) 1, Task.fulfilledTask 0 (FnRef.user 4) 2] :=
  ⟨rfl,
    congrArg (fun x => x.2.timers)
      (C20_settle_runs_callbacks_once sampleEnv 0 (Val.num 9)
        (runOps sampleEnv [Op.construct ⟨[], none⟩,
          Op.then_ 0 (Val.fn (FnRef.user 0)) Val.undefined,
          Op.then_ 0 (Val.fn (FnRef.user 4)) Val.undefined] State.init)
        ((PromiseRec.fresh.addCallbacks (Task.fulfilledTask 0 (FnRef.user 0) 1)
            (Task.rejectedTask 0 FnRef.thrower 1)).addCallbacks
          (Task.fulfilledTask 0 (FnRef.user 4) 2) (Task.rejectedTask 0 FnRef.thrower 2))
        rfl rfl).1.1⟩

/-- C20 as it is written fails: after the `resolve` capability has fulfilled a
pending instance on which `then` was called once, `onFulfilledCallbacks` still holds the closure
of that call, and `onRejectedCallbacks` the other one. -/
theorem C20_counterexample :
    ¬ ∀ r, (callFn sampleEnv (FnRef.resolveCap 0) (Val.num 9)
        (runOps sampleEnv [Op.construct ⟨[], none⟩,
          Op.then_ 0 (Val.fn (FnRef.user 0)) Val.undefined] State.init)).2.promises[0]? =
          some r →
      r.onFulfilledCallbacks = [] ∧ r.onRejectedCallbacks = [] := by
  intro h
  have := (h _ rfl).1
  revert this
  decide

/-! ## The first call of a capability decides -/

theorem runExecActs_first (this : Nat) (acts : List ExecAct) :
    ∀ (s : State) (r : PromiseRec), s.promises[this]? = some r → r.state = PState.pending →
      (runExecActs this acts s).promises[this]? =
        some (match firstSettle acts with
          | some (ExecAct.resolve v) => r.toFulfilled v
          | some (ExecAct.reject e) => r.toRejected e
          | _ => r) := by
  induction acts with
  | nil => intro s r hr _; simpa [runExecActs, firstSettle] using hr
  | cons a rest ih =>
    intro s r hr hs
    have hlt : this < s.promises.length := (List.getElem?_eq_some.mp hr).1
    cases a with
    | resolve v =>
      simp only [runExecActs, firstSettle]
      refine (runExecActs_steps (fun _ => false) this rest _).toFrame.1 this _ ?_ ?_
      · rw [settleResolve_pending_eq this v s r hr hs]
        simp [hlt]
      · simp [PromiseRec.toFulfilled]
    | reject e =>
      simp only [runExecActs, firstSettle]
      refine (runExecActs_steps (fun _ => false) this rest _).toFrame.1 this _ ?_ ?_
      · rw [settleReject_pending_eq this e s r hr hs]
        simp [hlt]
      · simp [PromiseRec.toRejected]
    | resolveLater v =>
      simp only [runExecActs, firstSettle]
      exact ih _ r (by simpa [setTimeout] using hr) hs
    | rejectLater e =>
      simp only [runExecActs, firstSettle]
      exact ih _ r (by simpa [setTimeout] using hr) hs

/-- The instance that `new MyPromise(executor)` gives, by the first call of a capability
that the executor makes during its own call and by what it throws. -/
theorem construct_user (ex : UserExecutor) (s : State) :
    (MyPromise.construct ex.run s).1 = s.promises.length ∧
    (MyPromise.construct ex.run s).2.promises[s.promises.length]? =
      some (match firstSettle ex.acts, ex.throws with
        | some (ExecAct.resolve v), _ => PromiseRec.fulfilledWith v
        | some (ExecAct.reject e), _ => PromiseRec.rejectedWith e
        | _, some e => PromiseRec.rejectedWith e
        | _, none => PromiseRec.fresh) := by
  have hfresh : (allocPromise s).2.promises[(allocPromise s).1]? = some PromiseRec.fresh := by
    simp [allocPromise]
  have hrun := runExecActs_first (allocPromise s).1 ex.acts (allocPromise s).2
    PromiseRec.fresh hfresh rfl
  have hlen : (allocPromise s).1 = s.promises.length := rfl
  unfold MyPromise.construct
  simp only [UserExecutor.run]
  cases hthrow : ex.throws with
  | none =>
    refine ⟨rfl, ?_⟩
    simp only
    rw [← hlen, hrun]
    cases hf : firstSettle ex.acts with
    | none => rfl
    | some a => cases a <;> rfl
  | some e =>
    refine ⟨rfl, ?_⟩
    simp only
    rw [← hlen]
    cases hf : firstSettle ex.acts with
    | none =>
      rw [hf] at hrun
      rw [settleReject_pending_eq _ e _ _ hrun rfl]
      have hlt : (allocPromise s).1 < (runExecActs (allocPromise s).1 ex.acts
          (allocPromise s).2).promises.length := (List.getElem?_eq_some.mp hrun).1
      simp [hlt, PromiseRec.toRejected, PromiseRec.fresh, PromiseRec.rejectedWith]
    | some a =>
      rw [hf] at hrun
      cases a with
      | resolve v =>
        rw [settleReject_settled _ e _ _ hrun (by simp [PromiseRec.toFulfilled]), hrun]
        rfl
      | reject r =>
        rw [settleReject_settled _ e _ _ hrun (by simp [PromiseRec.toRejected]), hrun]
        rfl
      | resolveLater v =>
        rw [settleReject_pending_eq _ e _ _ hrun rfl]
        have hlt : (allocPromise s).1 < (runExecActs (allocPromise s).1 ex.acts
            (allocPromise s).2).promises.length := (List.getElem?_eq_some.mp hrun).1
        simp [hlt, PromiseRec.toRejected, PromiseRec.fresh, PromiseRec.rejectedWith]
      | rejectLater r =>
        rw [settleReject_pending_eq _ e _ _ hrun rfl]
        have hlt : (allocPromise s).1 < (runExecActs (allocPromise s).1 ex.acts
            (allocPromise s).2).promises.length := (List.getElem?_eq_some.mp hrun).1
        simp [hlt, PromiseRec.toRejected, PromiseRec.fresh, PromiseRec.rejectedWith]

/-! ## The gate holds in every reachable state -/

theorem PromiseRec.fresh_gated : PromiseRec.fresh.gated := by
  simp [PromiseRec.gated, PromiseRec.fresh]

theorem Gated.set_lists {s : State} (h : Gated s) (p : Nat) (r r1 : PromiseRec)
    (hr : s.promises[p]? = some r) (hg : r.gated → r1.gated) :
    ∀ m ∈ s.promises.set p r1, m.gated := by
  intro m hm
  rcases mem_set_cases _ _ _ _ hm with hm1 | hm1
  · subst hm1
    exact hg (h r (List.getElem?_mem hr))
  · exact h m hm1

theorem settleResolve_gated (p : Nat) (v : Val) (s : State) (h : Gated s) :
    Gated (settleResolve p v s) := by
  unfold settleResolve
  split
  · next r hr =>
    split
    · next hs =>
      exact Gated.set_lists h p r _ hr (fun hg => by
        simp only [PromiseRec.gated] at hg ⊢
        simp [(hg.1 hs).2])
    · exact h
  · exact h

theorem settleReject_gated (p : Nat) (e : Val) (s : State) (h : Gated s) :
    Gated (settleReject p e s) := by
  unfold settleReject
  split
  · next r hr =>
    split
    · next hs =>
      exact Gated.set_lists h p r _ hr (fun hg => by
        simp only [PromiseRec.gated] at hg ⊢
        simp [(hg.1 hs).1])
    · exact h
  · exact h

theorem Prim.oneGated {F : Nat → Bool} {s s1 : State} (hp : Prim F s s1) (h : Gated s) :
    Gated s1 := by
  cases hp with
  | alloc =>
    intro m hm
    simp only [allocPromise, List.mem_append, List.mem_singleton] at hm
    rcases hm with hm | hm
    · exact h m hm
    · subst hm; exact PromiseRec.fresh_gated
  | settleResolve p v => exact settleResolve_gated p v s h
  | settleReject p r => exact settleReject_gated p r s h
  | push p a b _ r hr hs _ _ =>
    unfold pushCallbacks
    rw [hr]
    exact Gated.set_lists h p r _ hr (fun hg => hg)
  | timeout t _ _ => exact h
  | newLatch => exact h
  | setLatch l => exact h
  | newArray => exact h
  | newCounter => exact h
  | store a i v => exact h
  | bump c => exact h
  | call id arg lg _ _ => exact h
  | thenRead x => exact h
  | uncaught e => exact h

theorem Moves.keepGated {s s1 : State} (hm : Moves s s1) (h : Gated s) : Gated s1 := by
  induction hm with
  | refl => exact h
  | tail _ hp ih =>
    cases hp with
    | prim _ hp => exact hp.oneGated ih
    | dequeue t rest _ => exact ih
    | say v => exact ih

theorem runOps_gated (env : Env) (ops : List Op) : Gated (runOps env ops State.init) :=
  (runOps_moves env ops State.init).keepGated (fun r hr => by simp [State.init] at hr)

/-- C21: in every state that a program reaches from the initial state (calls into the
library, calls of function values, timers run by the host, in any order), every instance
respects the gate: while it is pending its `value` and `reason` are `undefined`, when it
is fulfilled its `reason` is `undefined`, when it is rejected its `value` is `undefined`.
A call of `resolve` with `v` on an instance that is still pending (so the first call of a
capability that takes effect) makes it fulfilled with value `v`, a call of `reject` with
`v` makes it rejected with reason `v`, and it keeps these fields whatever the program
does afterwards, later calls of its capabilities included.  An instance whose executor
throws `e` without having called `resolve` or `reject` before is rejected with reason
`e`, and stays so. -/
theorem C21_value_and_reason_gated (env : Env) (ops : List Op) :
    (∀ p r, (runOps env ops State.init).promises[p]? = some r →
      ((r.state = PState.pending → r.value = Val.undefined ∧ r.reason = Val.undefined) ∧
        (r.state = PState.fulfilled → r.reason = Val.undefined) ∧
        (r.state = PState.rejected → r.value = Val.undefined)) ∧
      (r.state = PState.pending → ∀ v more,
        coreOf (runOps env more
            (callFn env (FnRef.resolveCap p) v (runOps env ops State.init)).2) p =
          some (PState.fulfilled, v, Val.undefined) ∧
        coreOf (runOps env more
            (callFn env (FnRef.rejectCap p) v (runOps env ops State.init)).2) p =
          some (PState.rejected, Val.undefined, v))) ∧
    (∀ (ex : UserExecutor) (e : Val) (more : List Op),
      firstSettle ex.acts = none → ex.throws = some e →
      coreOf (runOps env more
          (MyPromise.construct ex.run (runOps env ops State.init)).2)
        (MyPromise.construct ex.run (runOps env ops State.init)).1 =
        some (PState.rejected, Val.undefined, e)) := by
  refine ⟨fun p r hr => ?_, fun ex e more hfirst hthrow => ?_⟩
  · have hg := runOps_gated env ops r (List.getElem?_mem hr)
    refine ⟨hg, fun hs v more => ?_⟩
    have hlt : p < (runOps env ops State.init).promises.length :=
      (List.getElem?_eq_some.mp hr).1
    obtain ⟨hv, he⟩ := hg.1 hs
    constructor
    · have h1 :
          (callFn env (FnRef.resolveCap p) v (runOps env ops State.init)).2.promises[p]? =
            some (r.toFulfilled v) := by
        simp only [callFn]
        rw [settleResolve_pending_eq p v _ r hr hs]
        simp [hlt]
      have h2 := (runOps_moves env more _).runFrame.1 p _ h1 (by simp [PromiseRec.toFulfilled])
      simp [coreOf, h2, PromiseRec.toFulfilled, he]
    · have h1 :
          (callFn env (FnRef.rejectCap p) v (runOps env ops State.init)).2.promises[p]? =
            some (r.toRejected v) := by
        simp only [callFn]
        rw [settleReject_pending_eq p v _ r hr hs]
        simp [hlt]
      have h2 := (runOps_moves env more _).runFrame.1 p _ h1 (by simp [PromiseRec.toRejected])
      simp [coreOf, h2, PromiseRec.toRejected, hv]
  · obtain ⟨h1, h2⟩ := construct_user ex (runOps env ops State.init)
    rw [hfirst, hthrow] at h2
    have h3 := (runOps_moves env more _).runFrame.1 _ _ h2 (by simp [PromiseRec.rejectedWith])
    rw [h1]
    simp [coreOf, h3, PromiseRec.rejectedWith]

theorem C21_value_and_reason_gated_witness :
    (runOps sampleEnv [Op.construct ⟨[], none⟩, Op.then_ 0 (Val.fn (FnRef.user 0)) Val.undefined]
      State.init).promises[0]? =
      some (PromiseRec.fresh.addCallbacks (Task.fulfilledTask 0 (FnRef.user 0) 1)
        (Task.rejectedTask 0 FnRef.thrower 1)) ∧
    coreOf (runOps sampleEnv
        [Op.call (FnRef.rejectCap 0) (Val.str "no"), Op.tick,
          Op.call (FnRef.resolveCap 0) (Val.num 8)]
        (callFn sampleEnv (FnRef.resolveCap 0) (Val.num 7)
          (runOps sampleEnv
            [Op.construct ⟨[], none⟩, Op.then_ 0 (Val.fn (FnRef.user 0)) Val.undefined]
            State.init)).2) 0 =
      some (PState.fulfilled, Val.num 7, Val.undefined) :=
  ⟨by decide,
    ((((C21_value_and_reason_gated sampleEnv
      [Op.construct ⟨[], none⟩, Op.then_ 0 (Val.fn (FnRef.user 0)) Val.undefined]).1 0
        (PromiseRec.fresh.addCallbacks (Task.fulfilledTask 0 (FnRef.user 0) 1)
          (Task.rejectedTask 0 FnRef.thrower 1))
        (by decide)).2 (by decide)) (Val.num 7)
      [Op.call (FnRef.rejectCap 0) (Val.str "no"), Op.tick,
        Op.call (FnRef.resolveCap 0) (Val.num 8)]).1⟩

/-! ## Callback lists only grow at the end -/

theorem ListsGrow.unchanged (s : State) : ListsGrow s s :=
  fun _ r hr => ⟨r, hr, List.prefix_refl _, List.prefix_refl _⟩

theorem ListsGrow.chainGrow {s s1 s2 : State} (h1 : ListsGrow s s1) (h2 : ListsGrow s1 s2) :
    ListsGrow s s2 := by
  intro p r hr
  obtain ⟨r1, hr1, hf1, hj1⟩ := h1 p r hr
  obtain ⟨r2, hr2, hf2, hj2⟩ := h2 p r1 hr1
  exact ⟨r2, hr2, hf1.trans hf2, hj1.trans hj2⟩

theorem ListsGrow.ofHeap {s s1 : State} (h : s1.promises = s.promises) : ListsGrow s s1 :=
  fun _ r hr => ⟨r, by rw [h]; exact hr, List.prefix_refl _, List.prefix_refl _⟩

theorem ListsGrow.ofSet (s s1 : State) (q : Nat) (rq r1 : PromiseRec)
    (hq : s.promises[q]? = some rq) (h : s1.promises = s.promises.set q r1)
    (hf : rq.onFulfilledCallbacks <+: r1.onFulfilledCallbacks)
    (hj : rq.onRejectedCallbacks <+: r1.onRejectedCallbacks) : ListsGrow s s1 := by
  intro p r hr
  have hlt : q < s.promises.length := (List.getElem?_eq_some.mp hq).1
  by_cases hpq : q = p
  · subst hpq
    rw [hq] at hr
    cases hr
    exact ⟨r1, by rw [h]; simp [hlt], hf, hj⟩
  · exact ⟨r, by rw [h, List.getElem?_set_ne hpq]; exact hr, List.prefix_refl _,
      List.prefix_refl _⟩

theorem Prim.oneGrow {F : Nat → Bool} {s s1 : State} (hp : Prim F s s1) : ListsGrow s s1 := by
  cases hp with
  | alloc =>
    intro p r hr
    have hlt : p < s.promises.length := (List.getElem?_eq_some.mp hr).1
    exact ⟨r, by simp [allocPromise, List.getElem?_append_left hlt, hr], List.prefix_refl _,
      List.prefix_refl _⟩
  | settleResolve p v =>
    cases hr : s.promises[p]? with
    | none => rw [settleResolve_none p v s hr]; exact ListsGrow.unchanged s
    | some r =>
      by_cases hs : r.state = PState.pending
      · rw [settleResolve_pending p v s r hr hs]
        exact ListsGrow.ofSet s _ p r _ hr rfl (List.prefix_refl _) (List.prefix_refl _)
      · rw [settleResolve_settled p v s r hr hs]; exact ListsGrow.unchanged s
  | settleReject p v =>
    cases hr : s.promises[p]? with
    | none => rw [settleReject_none p v s hr]; exact ListsGrow.unchanged s
    | some r =>
      by_cases hs : r.state = PState.pending
      · rw [settleReject_pending p v s r hr hs]
        exact ListsGrow.ofSet s _ p r _ hr rfl (List.prefix_refl _) (List.prefix_refl _)
      · rw [settleReject_settled p v s r hr hs]; exact ListsGrow.unchanged s
  | push p a b _ r hr hs _ _ =>
    unfold pushCallbacks
    rw [hr]
    exact ListsGrow.ofSet s _ p r _ hr rfl (List.prefix_append _ _) (List.prefix_append _ _)
  | timeout t _ _ => exact ListsGrow.ofHeap rfl
  | newLatch => exact ListsGrow.ofHeap rfl
  | setLatch l => exact ListsGrow.ofHeap rfl
  | newArray => exact ListsGrow.ofHeap rfl
  | newCounter => exact ListsGrow.ofHeap rfl
  | store a i v => exact ListsGrow.ofHeap rfl
  | bump c => exact ListsGrow.ofHeap rfl
  | call id arg lg _ _ => exact ListsGrow.ofHeap rfl
  | thenRead x => exact ListsGrow.ofHeap rfl
  | uncaught e => exact ListsGrow.ofHeap rfl

theorem Moves.listsGrow {s s1 : State} (hm : Moves s s1) : ListsGrow s s1 := by
  induction hm with
  | refl => exact ListsGrow.unchanged s
  | tail _ hp ih =>
    cases hp with
    | prim _ hp => exact ih.chainGrow hp.oneGrow
    | dequeue t rest _ => exact ih.chainGrow (ListsGrow.ofHeap rfl)
    | say v => exact ih.chainGrow (ListsGrow.ofHeap rfl)

/-- C22: what a call of `then` does to the callback lists.  On a pending instance it
appends exactly one closure at the end of `onFulfilledCallbacks` and exactly one at
the end of `onRejectedCallbacks` (the closures of lines 58 and 68 for the two handlers
and the new `promise2`) and leaves every other field and the earlier entries as they are.  On
a fulfilled or rejected instance it leaves the instance as it is, both lists included.
Every other instance keeps all its fields.  A settled instance keeps both lists whatever
the program and the host do afterwards, and in every run the entries of a list stay in
place: the list before is an initial segment of the list after. -/
theorem C22_then_appends_only_while_pending (p : Nat) (a b : Val) (s : State)
    (r : PromiseRec) (hr : s.promises[p]? = some r) :
    (r.state = PState.pending →
      (MyPromise.then_ p a b s).2.promises[p]? = some { r with
        onFulfilledCallbacks := r.onFulfilledCallbacks ++
          [Task.fulfilledTask p (asOnFulfilled a) (MyPromise.then_ p a b s).1]
        onRejectedCallbacks := r.onRejectedCallbacks ++
          [Task.rejectedTask p (asOnRejected b) (MyPromise.then_ p a b s).1] }) ∧
    (r.state ≠ PState.pending → (MyPromise.then_ p a b s).2.promises[p]? = some r) ∧
    (∀ q, q ≠ p → q < s.promises.length →
      (MyPromise.then_ p a b s).2.promises[q]? = s.promises[q]?) ∧
    (r.state ≠ PState.pending → ∀ (env : Env) (ops : List Op),
      (runOps env ops s).promises[p]? = some r) ∧
    (∀ (env : Env) (ops : List Op), ∃ r1, (runOps env ops s).promises[p]? = some r1 ∧
      r.onFulfilledCallbacks <+: r1.onFulfilledCallbacks ∧
      r.onRejectedCallbacks <+: r1.onRejectedCallbacks) := by
  have hlt : p < s.promises.length := (List.getElem?_eq_some.mp hr).1
  refine ⟨fun hs => ?_, fun hs => ?_, fun q hq hql => then_other p q a b s hql (Ne.symm hq),
    fun hs env ops => (runOps_moves env ops s).runFrame.1 p r hr hs,
    fun env ops => (runOps_moves env ops s).listsGrow p r hr⟩
  · rw [then_pending p a b s r hr hs]
    simp only [List.set_append_left _ _ hlt]
    exact getElem?_set_append_self _ _ _ _ hlt
  · cases hst : r.state with
    | pending => exact absurd hst hs
    | fulfilled =>
      rw [then_fulfilled p a b s r hr hst]
      simp [List.getElem?_append_left hlt, hr]
    | rejected =>
      rw [then_rejected p a b s r hr hst]
      simp [List.getElem?_append_left hlt, hr]

theorem C22_then_appends_only_while_pending_witness :
    (MyPromise.then_ 0 (Val.fn (FnRef.user 0)) Val.undefined
      (MyPromise.construct (UserExecutor.run ⟨[], none⟩) State.init).2).2.promises[0]? =
      some (PromiseRec.fresh.addCallbacks (Task.fulfilledTask 0 (FnRef.user 0) 1)
        (Task.rejectedTask 0 FnRef.thrower 1)) ∧
    (MyPromise.then_ 0 (Val.fn (FnRef.user 1)) (Val.fn (FnRef.user 3))
      (MyPromise.then_ 0 (Val.fn (FnRef.user 0)) Val.undefined
        (MyPromise.construct (UserExecutor.run ⟨[], none⟩) State.init).2).2).2.promises[0]? =
      some { PromiseRec.fresh with
        onFulfilledCallbacks := [Task.fulfilledTask 0 (FnRef.user 0) 1,
          Task.fulfilledTask 0 (FnRef.user 1) 2]
        onRejectedCallbacks := [Task.rejectedTask 0 FnRef.thrower 1,
          Task.rejectedTask 0 (FnRef.user 3) 2] } :=
  ⟨by decide,
    (C22_then_appends_only_while_pending 0 (Val.fn (FnRef.user 1)) (Val.fn (FnRef.user 3))
      (MyPromise.then_ 0 (Val.fn (FnRef.user 0)) Val.undefined
        (MyPromise.construct (UserExecutor.run ⟨[], none⟩) State.init).2).2
      (PromiseRec.fresh.addCallbacks (Task.fulfilledTask 0 (FnRef.user 0) 1)
        (Task.rejectedTask 0 FnRef.thrower 1)) (by decide)).1 (by decide)⟩

/-- The `catch` block of the constructor (line 30) changes nothing when the executor has
left the instance settled. -/
theorem construct_throw_settled (executor : Nat → State → State × Option Val)
    (s s2 : State) (e : Val) (r : PromiseRec)
    (hrun : executor s.promises.length (allocPromise s).2 = (s2, some e))
    (hr : s2.promises[s.promises.length]? = some r) (hs : r.state ≠ PState.pending) :
    MyPromise.construct executor s = (s.promises.length, s2) := by
  have hlen : (allocPromise s).1 = s.promises.length := rfl
  unfold MyPromise.construct
  rw [hlen, hrun]
  simp only
  rw [settleReject_settled _ e s2 r hr hs]

/-- C23: an executor that throws after it has settled its instance.  For every executor
whose first call of a capability during its own call is `resolve(v)` and which throws `e`
at its end, `new MyPromise(executor)` gives the new instance, fulfilled with value `v` and
with `reason` still `undefined`; when that first call is `reject(v)` the instance is
rejected with reason `v`.  In both cases the error is discarded: the constructor leaves
exactly the state that the same executor leaves when it does not throw.  The same holds
for every executor function, whatever it does: when it leaves the instance settled and
throws, the constructor returns the instance and the state that the executor left. -/
theorem C23_throw_after_settle_is_discarded (ex : UserExecutor) (v e : Val) (s : State)
    (hthrow : ex.throws = some e) :
    (firstSettle ex.acts = some (ExecAct.resolve v) →
      (MyPromise.construct ex.run s).1 = s.promises.length ∧
      (MyPromise.construct ex.run s).2.promises[s.promises.length]? =
        some (PromiseRec.fulfilledWith v) ∧
      MyPromise.construct ex.run s =
        MyPromise.construct (UserExecutor.run ⟨ex.acts, none⟩) s) ∧
    (firstSettle ex.acts = some (ExecAct.reject v) →
      (MyPromise.construct ex.run s).1 = s.promises.length ∧
      (MyPromise.construct ex.run s).2.promises[s.promises.length]? =
        some (PromiseRec.rejectedWith v) ∧
      MyPromise.construct ex.run s =
        MyPromise.construct (UserExecutor.run ⟨ex.acts, none⟩) s) ∧
    (∀ (executor : Nat → State → State × Option Val) (s2 : State) (err : Val)
      (r : PromiseRec),
      executor s.promises.length (allocPromise s).2 = (s2, some err) →
      s2.promises[s.promises.length]? = some r → r.state ≠ PState.pending →
      MyPromise.construct executor s = (s.promises.length, s2)) := by
  have hfresh : (allocPromise s).2.promises[(allocPromise s).1]? = some PromiseRec.fresh := by
    simp [allocPromise]
  have hrun := runExecActs_first (allocPromise s).1 ex.acts (allocPromise s).2
    PromiseRec.fresh hfresh rfl
  have hlen : (allocPromise s).1 = s.promises.length := rfl
  have hplain : MyPromise.construct (UserExecutor.run ⟨ex.acts, none⟩) s =
      (s.promises.length, runExecActs s.promises.length ex.acts (allocPromise s).2) := by
    unfold MyPromise.construct
    simp [UserExecutor.run, hlen]
  have hex : ex.run s.promises.length (allocPromise s).2 =
      (runExecActs s.promises.length ex.acts (allocPromise s).2, some e) := by
    simp [UserExecutor.run, hthrow]
  obtain ⟨h1, h2⟩ := construct_user ex s
  rw [hlen] at hrun
  refine ⟨fun hf => ?_, fun hf => ?_, fun executor s2 err r hr1 hr2 hs =>
    construct_throw_settled executor s s2 err r hr1 hr2 hs⟩
  · rw [hf, hthrow] at h2
    rw [hf] at hrun
    refine ⟨h1, h2, ?_⟩
    rw [hplain]
    exact construct_throw_settled ex.run s _ e _ hex hrun (by simp [PromiseRec.toFulfilled])
  · rw [hf, hthrow] at h2
    rw [hf] at hrun
    refine ⟨h1, h2, ?_⟩
    rw [hplain]
    exact construct_throw_settled ex.run s _ e _ hex hrun (by simp [PromiseRec.toRejected])

theorem C23_throw_after_settle_is_discarded_witness :
    (MyPromise.construct
      (UserExecutor.run ⟨[ExecAct.resolveLater (Val.num 1), ExecAct.resolve (Val.num 5),
        ExecAct.reject (Val.str "r")], some (Val.str "e")⟩)
      (MyPromise.reject (Val.str "x") State.init).2).1 = 1 ∧
    (MyPromise.construct
      (UserExecutor.run ⟨[ExecAct.resolveLater (Val.num 1), ExecAct.resolve (Val.num 5),
        ExecAct.reject (Val.str "r")], some (Val.str "e")⟩)
      (MyPromise.reject (Val.str "x") State.init).2).2.promises[1]? =
      some (PromiseRec.fulfilledWith (Val.num 5)) ∧
    MyPromise.construct
      (UserExecutor.run ⟨[ExecAct.resolveLater (Val.num 1), ExecAct.resolve (Val.num 5),
        ExecAct.reject (Val.str "r")], some (Val.str "e")⟩)
      (MyPromise.reject (Val.str "x") State.init).2 =
    MyPromise.construct
      (UserExecutor.run ⟨[ExecAct.resolveLater (Val.num 1), ExecAct.resolve (Val.num 5),
        ExecAct.reject (Val.str "r")], none⟩)
      (MyPromise.reject (Val.str "x") State.init).2 :=
  (C23_throw_after_settle_is_discarded
    ⟨[ExecAct.resolveLater (Val.num 1), ExecAct.resolve (Val.num 5),
      ExecAct.reject (Val.str "r")], some (Val.str "e")⟩ (Val.num 5) (Val.str "e")
    (MyPromise.reject (Val.str "x") State.init).2 rfl).1 rfl

/-! ## Operations that cannot settle an instance leave it as it is -/

theorem construct_apart (a : Nat) (executor : Nat → State → State × Option Val) (s : State)
    (h : ∀ p s1, p ≠ a → Apart a s1 (executor p s1).1) :
    Apart a s (MyPromise.construct executor s).2 := by
  intro ha hq
  have hne : (allocPromise s).1 ≠ a := Nat.ne_of_gt ha
  have h1 := allocPromise_apart a s
  have h2 := h (allocPromise s).1 (allocPromise s).2 hne
  unfold MyPromise.construct
  split
  · next s2 heq =>
    rw [heq] at h2
    exact (h1.seq h2) ha hq
  · next s2 err heq =>
    rw [heq] at h2
    exact ((h1.seq h2).seq (settleReject_apart a _ err s2 hne)) ha hq

theorem runExecActs_apart (a this : Nat) (hne : this ≠ a) (acts : List ExecAct) :
    ∀ s, Apart a s (runExecActs this acts s) := by
  induction acts with
  | nil => intro s; exact Apart.rfl_same a s
  | cons x rest ih =>
    intro s
    cases x with
    | resolve v => exact (settleResolve_apart a this v s hne).seq (ih _)
    | reject r => exact (settleReject_apart a this r s hne).seq (ih _)
    | resolveLater v =>
      exact (setTimeout_apart a _ s (by simp [Task.settles, FnRef.settles, hne])).seq (ih _)
    | rejectLater r =>
      exact (setTimeout_apart a _ s (by simp [Task.settles, FnRef.settles, hne])).seq (ih _)

theorem resolve_apart (a : Nat) (v : Val) (s : State) : Apart a s (MyPromise.resolve v s).2 :=
  construct_apart a _ s (fun p s1 hne => settleResolve_apart a p v s1 hne)

theorem reject_apart (a : Nat) (r : Val) (s : State) : Apart a s (MyPromise.reject r s).2 :=
  construct_apart a _ s (fun p s1 hne => settleReject_apart a p r s1 hne)

theorem catch_apart (a q : Nat) (y : Val) (s : State)
    (hy : (asOnRejected y).settles a = false) : Apart a s (MyPromise.catch_ q y s).2 :=
  then_apart a q Val.null y s (by simp [asOnFulfilled, FnRef.settles]) hy

theorem allEach_apart (a results completed length this : Nat) (hne : this ≠ a)
    (ps : List Val) : ∀ index s,
    Apart a s (MyPromise.allEach results completed length this ps index s) := by
  induction ps with
  | nil => intro index s; exact Apart.rfl_same a s
  | cons x rest ih =>
    intro index s
    simp only [MyPromise.allEach]
    refine (((resolve_apart a x s).seq (then_apart a _ _ _ _ ?_ ?_)).seq
      (catch_apart a _ _ _ ?_)).seq (ih _ _)
    · simp [asOnFulfilled, FnRef.settles, hne]
    · simp [asOnRejected, FnRef.settles]
    · simp [asOnRejected, FnRef.settles, hne]

theorem all_apart (a : Nat) (ps : List Val) (s : State) : Apart a s (MyPromise.all ps s).2 := by
  refine construct_apart a _ s (fun p s1 hne => ?_)
  unfold MyPromise.allExecutor
  split
  · have h0 : Apart a s1 (newArray s1).2 := Apart.ofSame rfl rfl
    exact h0.seq (settleResolve_apart a p _ _ hne)
  · have h0 : Apart a s1 (newArray s1).2 := Apart.ofSame rfl rfl
    have h1 : Apart a (newArray s1).2 (newCounter (newArray s1).2).2 := Apart.ofSame rfl rfl
    exact (h0.seq h1).seq (allEach_apart a _ _ _ p hne ps 0 _)

theorem raceEach_apart (a this : Nat) (hne : this ≠ a) (ps : List Val) :
    ∀ s, Apart a s (MyPromise.raceEach this ps s) := by
  induction ps with
  | nil => intro s; exact Apart.rfl_same a s
  | cons x rest ih =>
    intro s
    simp only [MyPromise.raceEach]
    refine (((resolve_apart a x s).seq (then_apart a _ _ _ _ ?_ ?_)).seq
      (catch_apart a _ _ _ ?_)).seq (ih _)
    · simp [asOnFulfilled, FnRef.settles, hne]
    · simp [asOnRejected, FnRef.settles]
    · simp [asOnRejected, FnRef.settles, hne]

theorem race_apart (a : Nat) (ps : List Val) (s : State) : Apart a s (MyPromise.race ps s).2 :=
  construct_apart a _ s (fun p s1 hne => raceEach_apart a p hne ps s1)

theorem Apart.keepsQuiet {a : Nat} {s s1 : State} (h : Apart a s s1) (hq : Quiet a s) :
    Quiet a s1 ∧ coreOf s1 a = coreOf s a := by
  obtain ⟨hl, hc, hh, new, ht, hn⟩ := h hq.1 hq.2.1
  refine ⟨⟨Nat.lt_of_lt_of_le hq.1 hl, hh, ?_⟩, hc⟩
  intro t htm
  rw [ht] at htm
  rcases List.mem_append.mp htm with h1 | h1
  · exact hq.2.2 t h1
  · exact hn t h1

theorem tick_quiet (a : Nat) (env : Env) (s : State) (hq : Quiet a s) :
    Quiet a (tick env s) ∧ coreOf (tick env s) a = coreOf s a := by
  cases hts : s.timers with
  | nil => rw [tick_nil env s hts]; exact ⟨hq, rfl⟩
  | cons t rest =>
    rw [tick_cons env s t rest hts]
    have ht : t.settles a = false := hq.2.2 t (by rw [hts]; simp)
    have h0 : Quiet a { s with timers := rest } :=
      ⟨hq.1, hq.2.1, fun t1 h1 => hq.2.2 t1 (by rw [hts]; exact List.mem_cons_of_mem _ h1)⟩
    exact (runTask_apart a env t _ ht).keepsQuiet h0

theorem Op.run_quiet (a : Nat) (env : Env) (op : Op) (s : State) (hop : op.quiet a = true)
    (hq : Quiet a s) : Quiet a (op.run env s) ∧ coreOf (op.run env s) a = coreOf s a := by
  cases op with
  | construct ex =>
    exact (construct_apart a _ s
      (fun p s1 hne => runExecActs_apart a p hne ex.acts s1)).keepsQuiet hq
  | then_ self f g =>
    simp only [Op.quiet, Bool.and_eq_true, Bool.not_eq_true'] at hop
    exact (then_apart a self f g s hop.1 hop.2).keepsQuiet hq
  | catch_ self g =>
    simp only [Op.quiet, Bool.not_eq_true'] at hop
    exact (catch_apart a self g s hop).keepsQuiet hq
  | resolve v => exact (resolve_apart a v s).keepsQuiet hq
  | reject r => exact (reject_apart a r s).keepsQuiet hq
  | all ps => exact (all_apart a ps s).keepsQuiet hq
  | race ps => exact (race_apart a ps s).keepsQuiet hq
  | call f arg =>
    simp only [Op.quiet, Bool.not_eq_true'] at hop
    exact (callFn_apart a env f arg s hop).keepsQuiet hq
  | say v =>
    have h0 : Apart a s { s with log := s.log ++ [v] } := Apart.ofSame rfl rfl
    exact h0.keepsQuiet hq
  | tick => exact tick_quiet a env s hq

theorem runOps_quiet (a : Nat) (env : Env) (ops : List Op) :
    ∀ s, (∀ op ∈ ops, op.quiet a = true) → Quiet a s →
      Quiet a (runOps env ops s) ∧ coreOf (runOps env ops s) a = coreOf s a := by
  induction ops with
  | nil => intro s _ hq; exact ⟨hq, rfl⟩
  | cons op rest ih =>
    intro s hops hq
    obtain ⟨h1, h2⟩ := Op.run_quiet a env op s (hops op (by simp)) hq
    obtain ⟨h3, h4⟩ := ih (op.run env s) (fun o ho => hops o (by simp [ho])) h1
    exact ⟨h3, h4.trans h2⟩

theorem ticks_quiet (a : Nat) (env : Env) :
    ∀ (n : Nat) (s : State), Quiet a s →
      Quiet a (ticks env n s) ∧ coreOf (ticks env n s) a = coreOf s a := by
  intro n
  induction n with
  | zero => intro s hq; exact ⟨hq, rfl⟩
  | succ n ih =>
    intro s hq
    obtain ⟨h1, h2⟩ := tick_quiet a env s hq
    obtain ⟨h3, h4⟩ := ih (tick env s) h1
    exact ⟨h3, h4.trans h2⟩

theorem drain_quiet (a : Nat) (env : Env) (s : State) (hq : Quiet a s) :
    ∃ fuel s3, (∀ k, drain env (fuel + k) s = some s3) ∧ coreOf s3 a = coreOf s a := by
  obtain ⟨fuel, s3, hd⟩ := drain_returns env s
  refine ⟨fuel, s3, hd, ?_⟩
  have h0 := hd 0
  rw [drain_ticks env 0 fuel s] at h0
  simp only [drain] at h0
  split at h0
  · cases h0
    exact (ticks_quiet a env fuel s hq).2
  · cases h0

/-- C24: `MyPromise.race([])`.  The call returns a new instance that is pending, with
`value` and `reason` undefined and empty callback lists, and changes nothing else: no
timer is queued.  When no registered callback and no queued timer of the state before
holds a capability of the address that is allocated next (the capabilities of the
new instance exist only inside the executor of `race`, which hands them to nobody),
the instance stays pending with `value` and `reason` undefined whatever the program and
the host do afterwards, short of a call or a handler that is itself such a capability; no
timer that can settle it is ever in the queue; and the drain of the queue returns and
leaves it pending. -/
theorem C24_race_of_nothing_stays_pending (env : Env) (s : State)
    (hheap : QuietHeap s.promises.length s) (hqueue : QuietQueue s.promises.length s) :
    MyPromise.race [] s =
      (s.promises.length, { s with promises := s.promises ++ [PromiseRec.fresh] }) ∧
    (∀ ops : List Op, (∀ op ∈ ops, op.quiet s.promises.length = true) →
      coreOf (runOps env ops (MyPromise.race [] s).2) s.promises.length =
        some (PState.pending, Val.undefined, Val.undefined) ∧
      ∀ t ∈ (runOps env ops (MyPromise.race [] s).2).timers,
        t.settles s.promises.length = false) ∧
    (∃ fuel s3, (∀ k, drain env (fuel + k) (MyPromise.race [] s).2 = some s3) ∧
      coreOf s3 s.promises.length = some (PState.pending, Val.undefined, Val.undefined)) := by
  have heq : MyPromise.race [] s =
      (s.promises.length, { s with promises := s.promises ++ [PromiseRec.fresh] }) := by
    simp [MyPromise.race, MyPromise.construct, MyPromise.raceEach, allocPromise]
  have hcore : coreOf (MyPromise.race [] s).2 s.promises.length =
      some (PState.pending, Val.undefined, Val.undefined) := by
    rw [heq]
    simp [coreOf, PromiseRec.fresh]
  have hquiet : Quiet s.promises.length (MyPromise.race [] s).2 := by
    rw [heq]
    refine ⟨by simp, ?_, hqueue⟩
    intro r hr
    simp only [List.mem_append, List.mem_singleton] at hr
    rcases hr with h | h
    · exact hheap r h
    · subst h
      simp [PromiseRec.fresh]
  refine ⟨heq, fun ops hops => ?_, ?_⟩
  · obtain ⟨h1, h2⟩ := runOps_quiet s.promises.length env ops _ hops hquiet
    exact ⟨h2.trans hcore, h1.2.2⟩
  · obtain ⟨fuel, s3, hd, hc⟩ := drain_quiet s.promises.length env _ hquiet
    exact ⟨fuel, s3, hd, hc.trans hcore⟩

theorem C24_race_of_nothing_stays_pending_witness :
    (MyPromise.race []
      (MyPromise.then_ 0 (Val.fn (FnRef.user 0)) Val.undefined
        (MyPromise.resolve (Val.num 1) State.init).2).2).1 = 2 ∧
    coreOf (runOps sampleEnv
        [Op.then_ 2 (Val.fn (FnRef.user 1)) Val.undefined, Op.tick,
          Op.race [Val.promise 2], Op.tick, Op.tick, Op.tick]
        (MyPromise.race []
          (MyPromise.then_ 0 (Val.fn (FnRef.user 0)) Val.undefined
            (MyPromise.resolve (Val.num 1) State.init).2).2).2) 2 =
      some (PState.pending, Val.undefined, Val.undefined) :=
  ⟨by decide,
    ((C24_race_of_nothing_stays_pending sampleEnv
      (MyPromise.then_ 0 (Val.fn (FnRef.user 0)) Val.undefined
        (MyPromise.resolve (Val.num 1) State.init).2).2
      (by unfold QuietHeap; decide) (by unfold QuietQueue; decide)).2.1
      [Op.then_ 2 (Val.fn (FnRef.user 1)) Val.undefined, Op.tick,
        Op.race [Val.promise 2], Op.tick, Op.tick, Op.tick] (by decide)).1⟩

end PlanToPro
